import Mathlib

/-!
# openGemini: heuristic rewrite rules and cluster shard mapping

A shallow embedding of `engine/executor/heu_rule.go` and
`coordinator/shard_mapper.go`, followed by the properties proved about them.

Conventions of the embedding.

* A rule action, which returns normally or panics, is a function into
  `Except String`, the error carrying the panic message.  A method of the
  mapper, which returns a value, returns an error or panics, is a function into
  `Except Error` where it cannot panic and into `Except Fault` where it can.
* The mutating calls a rule makes on the planner are returned as a list of
  `PlannerOp`, in the order in which the rule issues them; `planner.Vertex` is a
  read-only lookup and is a field of the call.
* A Go map is an association list; a `nil` map is `none` and a map made with
  `make` is `some`.
-/

set_option autoImplicit false

namespace OpenGemini

/-! ## Plan nodes -/

/-- Modelled from the spec: the `ExchangeType` discriminator of an Exchange node
(declared outside the given sources), with the levels that the rules and the
specification name. -/
inductive ExchangeType where
  | UNKNOWN_EXCHANGE
  | NODE_EXCHANGE
  | SHARD_EXCHANGE
  | READER_EXCHANGE
  | SERIES_EXCHANGE
  deriving DecidableEq, Repr

/-- The data types of the query language (`influxql.DataType`). -/
inductive DataType where
  | Unknown
  | Float
  | Integer
  | String
  | Boolean
  | Time
  | Duration
  | Tag
  | AnyField
  | Unsigned
  deriving DecidableEq, Repr

/-- Expressions of the query language (`influxql.Expr`): the three shapes the
rules inspect, and `Literal` for every other shape. -/
inductive Expr where
  | VarRef (Val : String) (Typ : DataType)
  | Call (Name : String) (Args : List Expr)
  | BinaryExpr (Op : Nat) (LHS : Expr) (RHS : Expr)
  | Literal (text : String)

/-- An aggregate or scalar function call held by an Aggregate node
(`influxql.Call`). -/
structure Call where
  Name : String
  Args : List Expr

/-- A field of a statement (`influxql.Field`): an expression and its alias, which
is empty when there is none. -/
structure Field where
  Expr : Expr
  Alias : String := ""

/-- Modelled from the spec: `QuerySchema` is declared outside the given sources.
The record holds, for one schema, the value that each derived predicate read by
the rules returns (`Schema().HasLimit()`, ..., `Options().IsGroupByAllDims()`,
`opt.HasInterval()`), the lengths `len(Sources())` and `len(binarys)`, and the
query fields and column names (`GetQueryFields()`, `GetColumnNames()`);
`GetHintType` is the number `Options().GetHintType()`. -/
structure QuerySchema where
  HasLimit : Bool := false
  HasCall : Bool := false
  CanCallsPushdown : Bool := false
  HasCastorCall : Bool := false
  MatchPreAgg : Bool := false
  HasSlidingWindowCall : Bool := false
  HasInSeriesAgg : Bool := false
  ContainSeriesIgnoreCall : Bool := false
  IsMultiMeasurements : Bool := false
  IsGroupByAllDims : Bool := false
  HasGroupBy : Bool := false
  HasMath : Bool := false
  HasString : Bool := false
  OptHasInterval : Bool := false
  SourcesLen : Nat := 0
  binarysLen : Nat := 0
  QueryFields : List Field := []
  ColumnNames : List String := []
  HasInterval : Bool := false
  HasSubQuery : Bool := false
  GetHintType : Nat := 0

/-- The logical operators of a plan.  Every node owns a schema and an ordered
list of inputs; an Exchange carries its `ExchangeType`, an Aggregate its calls. -/
inductive QueryNode where
  | LogicalSeries (schema : QuerySchema)
  | LogicalReader (schema : QuerySchema) (inputs : List QueryNode)
  | LogicalExchange (schema : QuerySchema) (eType : ExchangeType) (inputs : List QueryNode)
  | LogicalAggregate (schema : QuerySchema) (calls : List Call) (inputs : List QueryNode)
  | LogicalInterval (schema : QuerySchema) (inputs : List QueryNode)
  | LogicalSlidingWindow (schema : QuerySchema) (calls : List Call) (inputs : List QueryNode)
  | LogicalProject (schema : QuerySchema) (inputs : List QueryNode)
  | LogicalSubQuery (schema : QuerySchema) (inputs : List QueryNode)
  | LogicalSortAppend (schema : QuerySchema) (inputs : List QueryNode)
  | LogicalLimit (schema : QuerySchema) (inputs : List QueryNode)

/-- The method `Schema()` of a plan node. -/
def QueryNode.Schema : QueryNode → QuerySchema
  | QueryNode.LogicalSeries schema => schema
  | QueryNode.LogicalReader schema _ => schema
  | QueryNode.LogicalExchange schema _ _ => schema
  | QueryNode.LogicalAggregate schema _ _ => schema
  | QueryNode.LogicalInterval schema _ => schema
  | QueryNode.LogicalSlidingWindow schema _ _ => schema
  | QueryNode.LogicalProject schema _ => schema
  | QueryNode.LogicalSubQuery schema _ => schema
  | QueryNode.LogicalSortAppend schema _ => schema
  | QueryNode.LogicalLimit schema _ => schema

/-- A vertex of the planner DAG wraps exactly one plan node. -/
structure HeuVertex where
  node : QueryNode

/-- The calls by which a rule changes the planner DAG or the schema of a node
it matched, with their arguments: `call.TransformTo(node)`,
`dag.RemoveEdge(child, vertex)` with the nodes of the two vertices,
`Schema().reset(fields, columns)` on the schema of `node`, the state in which
an in-place walk over the query fields of `node` leaves those fields, and
`addNodeToDag(node)`. -/
inductive PlannerOp where
  | TransformTo (node : QueryNode)
  | RemoveEdge (child : QueryNode) (node : QueryNode)
  | ResetSchema (node : QueryNode) (fields : List Field) (columns : List String)
  | RewriteFields (node : QueryNode) (fields : List Field)
  | AddNodeToDag (node : QueryNode)

/-- One firing of a rule (`OptRuleCall`): the nodes bound by the operand
pattern, by position, and the structural-equality lookup `planner.Vertex` on the
DAG as it stands when the rule fires. -/
structure OptRuleCall where
  nodes : List QueryNode
  Vertex : QueryNode → Option HeuVertex

/-- The call `call.Node(i)`. -/
def OptRuleCall.Node (call : OptRuleCall) (i : Nat) : Option QueryNode :=
  call.nodes[i]?

/-- The plan builder (`NewLogicalPlanBuilderImpl(schema)` followed by one
`Create...` call), declared outside the given sources and taken as given: each
function receives the schema the builder was made with and the input vertex
(`CreateSeriesPlan` has no input, `CreateMeasurementPlan` takes a plan). -/
structure LogicalPlanBuilder where
  CreateLimit : QuerySchema → HeuVertex → Except String QueryNode
  CreateAggregate : QuerySchema → HeuVertex → Except String QueryNode
  CreateSlideWindow : QuerySchema → HeuVertex → Except String QueryNode
  CreateInterval : QuerySchema → HeuVertex → Except String QueryNode
  CreateSeriesPlan : QuerySchema → Except String QueryNode
  CreateMeasurementPlan : QuerySchema → QueryNode → Except String QueryNode

/-- Package-level switches read by the rules: `enableFileCursor` and whether
`GetEnableSlidingWindowPushUp()` equals `OnSlidingWindowPushUp`. -/
structure RuleSwitches where
  enableFileCursor : Bool := false
  slidingWindowPushUpOn : Bool := false

/-- The tail shared by the builder rules: the new node is handed to
`TransformTo` unless the DAG already has a structurally equal vertex. -/
def transformUnlessPresent (call : OptRuleCall) (node : QueryNode) : List PlannerOp :=
  match call.Vertex node with
  | some _ => []
  | none => [PlannerOp.TransformTo node]

/-! ## Limit push-down -/

/-- The method `LimitPushdownToExchangeRule.OnMatch`. -/
def LimitPushdownToExchangeRule.OnMatch (b : LogicalPlanBuilder) (call : OptRuleCall) :
    Except String (List PlannerOp) :=
  match call.Node 0 with
  | some (QueryNode.LogicalExchange schema eType inputs) =>
    if !schema.HasLimit then .ok []
    else if schema.HasCall then .ok []
    else
      match eType with
      | ExchangeType.NODE_EXCHANGE => .ok []
      | ExchangeType.SERIES_EXCHANGE => .ok []
      | _ =>
        match call.Vertex (QueryNode.LogicalExchange schema eType inputs) with
        | some vertex =>
          match b.CreateLimit schema vertex with
          | .error err => .error err
          | .ok node => .ok (transformUnlessPresent call node)
        | none => .ok []
  | _ => .ok []

/-! ## Aggregate push-down -/

/-- The method `AggPushdownToExchangeRule.OnMatch`. -/
def AggPushdownToExchangeRule.OnMatch (b : LogicalPlanBuilder) (call : OptRuleCall) :
    Except String (List PlannerOp) :=
  match call.Node 0 with
  | some (QueryNode.LogicalExchange schema eType inputs) =>
    if !schema.HasCall then .ok []
    else if !schema.CanCallsPushdown then .ok []
    else
      match eType with
      | ExchangeType.NODE_EXCHANGE => .ok []
      | ExchangeType.SERIES_EXCHANGE => .ok []
      | _ =>
        if schema.HasCastorCall && !schema.IsGroupByAllDims then .ok []
        else
          match call.Vertex (QueryNode.LogicalExchange schema eType inputs) with
          | some vertex =>
            match b.CreateAggregate schema vertex with
            | .error err => .error err
            | .ok node => .ok (transformUnlessPresent call node)
          | none => .ok []
  | _ => .ok []

/-- The method `AggPushdownToReaderRule.OnMatch`. -/
def AggPushdownToReaderRule.OnMatch (sw : RuleSwitches) (b : LogicalPlanBuilder)
    (call : OptRuleCall) : Except String (List PlannerOp) :=
  match call.Node 0 with
  | some (QueryNode.LogicalReader schema inputs) =>
    if !schema.HasCall then .ok []
    else if !schema.CanCallsPushdown then .ok []
    else if schema.MatchPreAgg then .ok []
    else if schema.HasCastorCall && !schema.IsGroupByAllDims then .ok []
    else
      match call.Vertex (QueryNode.LogicalReader schema inputs) with
      | some vertex =>
        let built :=
          if schema.HasSlidingWindowCall && !sw.slidingWindowPushUpOn then
            b.CreateSlideWindow schema vertex
          else
            b.CreateAggregate schema vertex
        match built with
        | .error err => .error err
        | .ok node => .ok (transformUnlessPresent call node)
      | none => .ok []
  | _ => .ok []

/-- The method `AggPushdownToSeriesRule.OnMatch`. -/
def AggPushdownToSeriesRule.OnMatch (b : LogicalPlanBuilder) (call : OptRuleCall) :
    Except String (List PlannerOp) :=
  match call.Node 0 with
  | some (QueryNode.LogicalSeries schema) =>
    if !schema.HasCall then .ok []
    else if !schema.CanCallsPushdown then .ok []
    else if schema.ContainSeriesIgnoreCall then .ok []
    else
      match call.Vertex (QueryNode.LogicalSeries schema) with
      | some vertex =>
        match b.CreateAggregate schema vertex with
        | .error err => .error err
        | .ok node => .ok (transformUnlessPresent call node)
      | none => .ok []
  | _ => .ok []

/-! ## Aggregate spread -/

/-- Modelled from the spec: `LogicalAggregate.Clone` is declared outside the
given sources; a clone is a new node with the same schema, calls and inputs. -/
def LogicalAggregate.Clone (schema : QuerySchema) (calls : List Call)
    (inputs : List QueryNode) : QueryNode :=
  QueryNode.LogicalAggregate schema calls inputs

/-- Modelled from the spec: `LogicalAggregate.CountToSum` is declared outside the
given sources; it rewrites every COUNT call of the node to SUM, in place. -/
def LogicalAggregate.CountToSum (calls : List Call) : List Call :=
  calls.map fun c => if c.Name = "count" then { c with Name := "sum" } else c

/-- The method `AggSpreadToExchangeRule.OnMatch`.  `ForwardCallArgs` is declared
outside the given sources and taken as given: from the schema and the calls of
the clone it yields the calls with their arguments rewritten. -/
def AggSpreadToExchangeRule.OnMatch (ForwardCallArgs : QuerySchema → List Call → List Call)
    (call : OptRuleCall) : Except String (List PlannerOp) :=
  match call.Node 0 with
  | some (QueryNode.LogicalAggregate schema calls inputs) =>
    if !schema.HasCall then .ok []
    else if !schema.CanCallsPushdown then .ok []
    else if schema.HasCastorCall then .ok []
    else
      match LogicalAggregate.Clone schema calls inputs with
      | QueryNode.LogicalAggregate cSchema cCalls cInputs =>
        let cCalls := ForwardCallArgs cSchema cCalls
        let cCalls := LogicalAggregate.CountToSum cCalls
        .ok [PlannerOp.TransformTo (QueryNode.LogicalAggregate cSchema cCalls cInputs)]
      | _ => .ok []
  | _ => .ok []

/-- The method `AggSpreadToSortAppendRule.OnMatch`. -/
def AggSpreadToSortAppendRule.OnMatch (ForwardCallArgs : QuerySchema → List Call → List Call)
    (call : OptRuleCall) : Except String (List PlannerOp) :=
  match call.Node 0 with
  | some (QueryNode.LogicalAggregate schema calls inputs) =>
    if !schema.HasCall then .ok []
    else if !schema.CanCallsPushdown then .ok []
    else if !schema.IsMultiMeasurements then .ok []
    else if schema.HasCastorCall && !schema.IsGroupByAllDims then .ok []
    else
      match LogicalAggregate.Clone schema calls inputs with
      | QueryNode.LogicalAggregate cSchema cCalls cInputs =>
        let cCalls := ForwardCallArgs cSchema cCalls
        let cCalls := LogicalAggregate.CountToSum cCalls
        .ok [PlannerOp.TransformTo (QueryNode.LogicalAggregate cSchema cCalls cInputs)]
      | _ => .ok []
  | _ => .ok []

/-- The method `AggSpreadToReaderRule.OnMatch`. -/
def AggSpreadToReaderRule.OnMatch (ForwardCallArgs : QuerySchema → List Call → List Call)
    (call : OptRuleCall) : Except String (List PlannerOp) :=
  match call.Node 0 with
  | some (QueryNode.LogicalAggregate schema calls inputs) =>
    if !schema.HasCall then .ok []
    else if !schema.CanCallsPushdown then .ok []
    else if schema.HasCastorCall && !schema.IsGroupByAllDims then .ok []
    else if schema.MatchPreAgg then .ok []
    else if schema.ContainSeriesIgnoreCall then .ok []
    else
      match LogicalAggregate.Clone schema calls inputs with
      | QueryNode.LogicalAggregate cSchema cCalls cInputs =>
        let cCalls := ForwardCallArgs cSchema cCalls
        let cCalls := LogicalAggregate.CountToSum cCalls
        .ok [PlannerOp.TransformTo (QueryNode.LogicalAggregate cSchema cCalls cInputs)]
      | _ => .ok []
  | _ => .ok []

/-! ## Limit push-down to Reader and Series -/

/-- The method `LimitPushdownToReaderRule.OnMatch`. -/
def LimitPushdownToReaderRule.OnMatch (b : LogicalPlanBuilder) (call : OptRuleCall) :
    Except String (List PlannerOp) :=
  match call.Node 0 with
  | some (QueryNode.LogicalReader schema inputs) =>
    if !schema.HasLimit then .ok []
    else if schema.HasCall then .ok []
    else
      match call.Vertex (QueryNode.LogicalReader schema inputs) with
      | some vertex =>
        match b.CreateLimit schema vertex with
        | .error err => .error err
        | .ok node => .ok (transformUnlessPresent call node)
      | none => .ok []
  | _ => .ok []

/-- The method `LimitPushdownToSeriesRule.OnMatch`. -/
def LimitPushdownToSeriesRule.OnMatch (sw : RuleSwitches) (b : LogicalPlanBuilder)
    (call : OptRuleCall) : Except String (List PlannerOp) :=
  match call.Node 0 with
  | some (QueryNode.LogicalSeries schema) =>
    if sw.enableFileCursor && schema.HasInSeriesAgg then .ok []
    else if !schema.HasLimit then .ok []
    else
      match call.Vertex (QueryNode.LogicalSeries schema) with
      | some vertex =>
        match b.CreateLimit schema vertex with
        | .error err => .error err
        | .ok node => .ok (transformUnlessPresent call node)
      | none => .ok []
  | _ => .ok []

/-! ## Aggregate push-down into a sub-query -/

/-- The method `AggPushDownToSubQueryRule.canPush`, on the schemas of the
aggregate and of the project. -/
def AggPushDownToSubQueryRule.canPush (agg project : QuerySchema) : Bool :=
  if project.HasGroupBy then false
  else if decide (project.SourcesLen > 1) || decide (agg.SourcesLen > 1) then false
  else if !agg.HasCall || project.HasCall then false
  else if agg.HasSlidingWindowCall then false
  else if project.HasMath || project.HasString then false
  else if !agg.CanCallsPushdown then false
  else if decide (project.binarysLen > 0) then false
  else if agg.OptHasInterval then false
  else if project.HasLimit then false
  else true

/-- The function `getCallField`.  A failed type assertion or an index out of
range is a panic; the result `none` is nil. -/
def getCallField (pField f : Field) : Except String (Option Field) :=
  match f.Expr with
  | Expr.Call name (Expr.VarRef aggVal aggTyp :: _) =>
    if pField.Alias = aggVal then
      match pField.Expr with
      | Expr.VarRef pVal _ =>
        .ok (some { Expr := Expr.Call name [Expr.VarRef pVal aggTyp], Alias := pField.Alias })
      | _ => .error "interface conversion: influxql.Expr is not *influxql.VarRef"
    else
      match pField.Expr with
      | Expr.VarRef pVal _ =>
        if pVal = aggVal then .ok (some { Expr := f.Expr, Alias := "" }) else .ok none
      | _ => .error "interface conversion: influxql.Expr is not *influxql.VarRef"
  | Expr.Call _ [] => .error "index out of range"
  | Expr.Call _ _ => .error "interface conversion: influxql.Expr is not *influxql.VarRef"
  | _ => .error "interface conversion: influxql.Expr is not *influxql.Call"

/-- The inner loops of `ExprWalk` on one argument of a call (lines 847-851): the
argument after the fields of `v` have been gone through. -/
def walkArg : List Field → Expr → Except String Expr
  | [], expr => .ok expr
  | f :: rest, Expr.VarRef val typ =>
    if val = f.Alias then
      match f.Expr with
      | Expr.VarRef pVal _ => walkArg rest (Expr.VarRef pVal typ)
      | _ => .error "interface conversion: influxql.Expr is not *influxql.VarRef"
    else walkArg rest (Expr.VarRef val typ)
  | _ :: _, _ => .error "interface conversion: influxql.Expr is not *influxql.VarRef"

/-- The function `ExprWalk`: the expression as the walk, which rewrites in
place, leaves it. -/
def ExprWalk (v : List Field) : Expr → Except String Expr
  | Expr.BinaryExpr op lhs rhs =>
    match ExprWalk v lhs with
    | .error e => .error e
    | .ok lhs1 =>
      match ExprWalk v rhs with
      | .error e => .error e
      | .ok rhs1 => .ok (Expr.BinaryExpr op lhs1 rhs1)
  | Expr.Call name args =>
    match args.mapM (walkArg v) with
    | .error e => .error e
    | .ok args1 => .ok (Expr.Call name args1)
  | e => .ok e

/-- The function `getVarRefField`. -/
def getVarRefField (pField f : Field) : Except String (Option Field) :=
  match f.Expr with
  | Expr.VarRef aggVal aggTyp =>
    if pField.Alias = aggVal then
      match pField.Expr with
      | Expr.VarRef pVal _ => .ok (some { Expr := Expr.VarRef pVal aggTyp, Alias := pField.Alias })
      | _ => .error "interface conversion: influxql.Expr is not *influxql.VarRef"
    else
      match pField.Expr with
      | Expr.VarRef pVal _ =>
        if pVal = aggVal then .ok (some { Expr := f.Expr, Alias := "" }) else .ok none
      | _ => .error "interface conversion: influxql.Expr is not *influxql.VarRef"
  | _ => .error "interface conversion: influxql.Expr is not *influxql.VarRef"

/-- The function `getBinaryfField`: the field `f` with its expression walked; the
same field object is returned. -/
def getBinaryfField (pFields : List Field) (f : Field) : Except String Field :=
  match ExprWalk pFields f.Expr with
  | .error e => .error e
  | .ok expr => .ok { f with Expr := expr }

/-- The function `getField`: the result (`none` for nil) and the field `f` as the
call leaves it. -/
def getField (pField f : Field) (pFields : List Field) : Except String (Option Field × Field) :=
  match f.Expr with
  | Expr.BinaryExpr _ _ _ =>
    match getBinaryfField pFields f with
    | .error e => .error e
    | .ok goal => .ok (some goal, goal)
  | Expr.VarRef _ _ =>
    match getVarRefField pField f with
    | .error e => .error e
    | .ok goal => .ok (goal, f)
  | Expr.Call _ _ =>
    match getCallField pField f with
    | .error e => .error e
    | .ok goal => .ok (goal, f)
  | _ => .ok (none, f)

/-- The inner loop of lines 917-927 for the aggregate field `f`, over the
projected fields still to visit: the copy list after the loop and the field `f`
as the loop leaves it. -/
def matchProjected (pFields : List Field) :
    List Field → Field → List Field → Except String (List Field × Field)
  | [], f, aggFieldsCopy => .ok (aggFieldsCopy, f)
  | pField :: rest, f, aggFieldsCopy =>
    match getField pField f pFields with
    | .error e => .error e
    | .ok (some goal, f1) =>
      match f1.Expr with
      | Expr.BinaryExpr _ _ _ => .ok (aggFieldsCopy ++ [goal], f1)
      | _ => matchProjected pFields rest f1 (aggFieldsCopy ++ [goal])
    | .ok (none, f1) => matchProjected pFields rest f1 aggFieldsCopy

/-- The outer loop of lines 916-928 over the query fields of the aggregate: the
copy list and the query fields of the aggregate as the loop leaves them. -/
def collectFields (pFields : List Field) :
    List Field → List Field → List Field → Except String (List Field × List Field)
  | [], aggFieldsCopy, walked => .ok (aggFieldsCopy, walked)
  | f :: rest, aggFieldsCopy, walked =>
    match matchProjected pFields pFields f aggFieldsCopy with
    | .error e => .error e
    | .ok (aggFieldsCopy1, f1) => collectFields pFields rest aggFieldsCopy1 (walked ++ [f1])

/-- Methods of the vertex and of the schema that `AggPushDownToSubQueryRule`
calls, declared outside the given sources and taken as given:
`GetParentVertex` (`none` for nil) and `deriveType`, which returns a type or an
error. -/
structure SubQueryHelpers where
  GetParentVertex : HeuVertex → Option HeuVertex
  deriveType : QuerySchema → Expr → Except String DataType

/-- The loop of lines 936-950 from index `i` on: `none` when `deriveType`
returns an error, which ends `OnMatch`; an index out of range is a panic. -/
def derivedFields (h : SubQueryHelpers) (schema : QuerySchema) :
    List Field → Nat → List Field → Except String (Option (List Field))
  | [], _, fieldsCopy => .ok (some fieldsCopy)
  | f :: rest, i, fieldsCopy =>
    match h.deriveType schema f.Expr with
    | .error _ => .ok none
    | .ok varRefType =>
      if f.Alias = "" then
        match schema.ColumnNames[i]? with
        | none => .error "index out of range"
        | some name =>
          derivedFields h schema rest (i + 1)
            (fieldsCopy ++ [{ Expr := Expr.VarRef name varRefType, Alias := f.Alias }])
      else
        derivedFields h schema rest (i + 1)
          (fieldsCopy ++ [{ Expr := Expr.VarRef f.Alias varRefType, Alias := f.Alias }])

/-- The method `AggPushDownToSubQueryRule.OnMatch`. -/
def AggPushDownToSubQueryRule.OnMatch (h : SubQueryHelpers) (call : OptRuleCall) :
    Except String (List PlannerOp) :=
  match call.Node 0 with
  | some (QueryNode.LogicalAggregate aggSchema calls inputs) =>
    match call.Node 2 with
    | some (QueryNode.LogicalProject projectSchema pInputs) =>
      if !AggPushDownToSubQueryRule.canPush aggSchema projectSchema then .ok []
      else
        match call.Vertex (QueryNode.LogicalAggregate aggSchema calls inputs) with
        | none => .ok []
        | some aggVertex =>
          match h.GetParentVertex aggVertex with
          | none => .ok []
          | some _ =>
            match collectFields projectSchema.QueryFields aggSchema.QueryFields [] [] with
            | .error e => .error e
            | .ok (aggFieldsCopy, walked) =>
              let agg := QueryNode.LogicalAggregate aggSchema calls inputs
              let project := QueryNode.LogicalProject projectSchema pInputs
              let aggColumnCopy := aggSchema.ColumnNames
              let ops := [PlannerOp.RewriteFields agg walked,
                          PlannerOp.ResetSchema project aggFieldsCopy aggColumnCopy]
              match derivedFields h { aggSchema with QueryFields := walked } walked 0 [] with
              | .error e => .error e
              | .ok none => .ok ops
              | .ok (some fieldsCopy) =>
                let columnCopy := aggSchema.ColumnNames
                match inputs with
                | [] => .error "index out of range"
                | aggSonChild :: _ =>
                  .ok (ops ++ [PlannerOp.ResetSchema agg fieldsCopy columnCopy,
                               PlannerOp.RemoveEdge aggSonChild agg,
                               PlannerOp.TransformTo aggSonChild])
    | _ => .ok []
  | _ => .ok []

/-! ## ML-operator aggregate cut -/

/-- The method `CastorAggCutRule.OnMatch`. -/
def CastorAggCutRule.OnMatch (call : OptRuleCall) : Except String (List PlannerOp) :=
  match call.Node 0 with
  | some (QueryNode.LogicalAggregate schema calls inputs) =>
    if !schema.HasCastorCall then .ok []
    else if !schema.IsGroupByAllDims then .ok []
    else
      match inputs with
      | [] => .error "index out of range"
      | aggSonChild :: _ =>
        match aggSonChild with
        | QueryNode.LogicalExchange _ ExchangeType.SHARD_EXCHANGE _ => .ok []
        | _ =>
          match call.Vertex (QueryNode.LogicalAggregate schema calls inputs) with
          | none => .ok []
          | some _ =>
            .ok [PlannerOp.RemoveEdge aggSonChild (QueryNode.LogicalAggregate schema calls inputs),
                 PlannerOp.TransformTo aggSonChild]
  | _ => .ok []

/-! ## Sub-query rules that build through the plan builder -/

/-- The method `AggToProjectInSubQueryRule.OnMatch`.  A call without a node at
position 0 ends in the panic of a method call on nil. -/
def AggToProjectInSubQueryRule.OnMatch (h : SubQueryHelpers) (b : LogicalPlanBuilder)
    (call : OptRuleCall) : Except String (List PlannerOp) :=
  match call.Node 0 with
  | none => .error "invalid memory address or nil pointer dereference"
  | some (QueryNode.LogicalAggregate _ _ _) => .ok []
  | some (QueryNode.LogicalInterval _ _) => .ok []
  | some (QueryNode.LogicalSlidingWindow _ _ _) => .ok []
  | some node =>
    if !node.Schema.HasCall then .ok []
    else
      match call.Vertex node with
      | none => .ok []
      | some nodeVertex =>
        match h.GetParentVertex nodeVertex with
        | none => .ok []
        | some _ =>
          match call.Vertex node with
          | some vertex =>
            match b.CreateAggregate node.Schema vertex with
            | .error err => .error err
            | .ok nodeA => .ok (transformUnlessPresent call nodeA)
          | none => .ok []

/-- The method `ReaderUpdateInSubQueryRule.OnMatch`.  `IsSubTreeEqual` is
declared outside the given sources and taken as given. -/
def ReaderUpdateInSubQueryRule.OnMatch (IsSubTreeEqual : QueryNode → QueryNode → Bool)
    (b : LogicalPlanBuilder) (call : OptRuleCall) : Except String (List PlannerOp) :=
  match call.Node 0 with
  | none => .error "invalid memory address or nil pointer dereference"
  | some node =>
    if !node.Schema.MatchPreAgg then .ok []
    else if node.Schema.HasInterval then .ok []
    else if node.Schema.GetHintType != 0 then .ok []
    else if !node.Schema.MatchPreAgg then .ok []
    else
      match call.Vertex node with
      | some _ =>
        match b.CreateSeriesPlan node.Schema with
        | .error _ => .ok []
        | .ok plan =>
          match b.CreateMeasurementPlan node.Schema plan with
          | .error _ => .ok []
          | .ok plan =>
            if IsSubTreeEqual plan node then .ok []
            else
              match call.Vertex plan with
              | some _ => .ok []
              | none => .ok [PlannerOp.AddNodeToDag plan, PlannerOp.TransformTo plan]
      | none => .ok []

/-- The method `IntervalToProjectInSubQueryRule.OnMatch`. -/
def IntervalToProjectInSubQueryRule.OnMatch (h : SubQueryHelpers) (b : LogicalPlanBuilder)
    (call : OptRuleCall) : Except String (List PlannerOp) :=
  match call.Node 0 with
  | some (QueryNode.LogicalAggregate schema calls inputs) =>
    let node := QueryNode.LogicalAggregate schema calls inputs
    match call.Vertex node with
    | none => .ok []
    | some nodeVertex =>
      match h.GetParentVertex nodeVertex with
      | none => .ok []
      | some _ =>
        match call.Vertex node with
        | some vertex =>
          match b.CreateInterval node.Schema vertex with
          | .error err => .error err
          | .ok nodeA => .ok (transformUnlessPresent call nodeA)
        | none => .ok []
  | _ => .ok []

/-- Modelled from the spec: `LogicalSlidingWindow.Clone` is declared outside the
given sources; a clone is a new node with the same schema, calls and inputs. -/
def LogicalSlidingWindow.Clone (schema : QuerySchema) (calls : List Call)
    (inputs : List QueryNode) : QueryNode :=
  QueryNode.LogicalSlidingWindow schema calls inputs

/-- Modelled from the spec: `LogicalSlidingWindow.CountToSum` is declared outside
the given sources; it rewrites every COUNT call of the node to SUM, in place. -/
def LogicalSlidingWindow.CountToSum (calls : List Call) : List Call :=
  calls.map fun c => if c.Name = "count" then { c with Name := "sum" } else c

/-- The method `SlideWindowSpreadRule.OnMatch`, with `ForwardCallArgs` of the
sliding window taken as given. -/
def SlideWindowSpreadRule.OnMatch (ForwardCallArgs : QuerySchema → List Call → List Call)
    (call : OptRuleCall) : Except String (List PlannerOp) :=
  match call.Node 0 with
  | some (QueryNode.LogicalSlidingWindow schema calls inputs) =>
    if !schema.CanCallsPushdown then .ok []
    else if schema.HasSubQuery then .ok []
    else
      match LogicalSlidingWindow.Clone schema calls inputs with
      | QueryNode.LogicalSlidingWindow cSchema cCalls cInputs =>
        let cCalls := ForwardCallArgs cSchema cCalls
        let cCalls := LogicalSlidingWindow.CountToSum cCalls
        .ok [PlannerOp.TransformTo (QueryNode.LogicalSlidingWindow cSchema cCalls cInputs)]
      | _ => .ok []
  | _ => .ok []

/-! ## The field rewrite of the sub-query rule, described -/

/-- The name that the inner loop of `ExprWalk` (lines 847-851) leaves in a
variable reference named `val`: the projected fields are gone through in order,
and whenever the current name equals the alias of the field it becomes the
underlying name of that field. -/
def renameThrough : List Field → String → String
  | [], val => val
  | f :: rest, val =>
    if val = f.Alias then
      match f.Expr with
      | Expr.VarRef pVal _ => renameThrough rest pVal
      | _ => renameThrough rest val
    else renameThrough rest val

/-- The expression with the variable references that are arguments of calls
renamed through the projected fields, and everything else left as it is. -/
def renameCallArgs (v : List Field) : Expr → Expr
  | Expr.BinaryExpr op lhs rhs => Expr.BinaryExpr op (renameCallArgs v lhs) (renameCallArgs v rhs)
  | Expr.Call name args =>
    Expr.Call name (args.map fun a =>
      match a with
      | Expr.VarRef val typ => Expr.VarRef (renameThrough v val) typ
      | e => e)
  | e => e

/-- Every argument of every call reached through binary expressions is a
variable reference. -/
def callArgsAreVarRefs : Expr → Bool
  | Expr.BinaryExpr _ lhs rhs => callArgsAreVarRefs lhs && callArgsAreVarRefs rhs
  | Expr.Call _ args =>
    args.all fun a =>
      match a with
      | Expr.VarRef _ _ => true
      | _ => false
  | _ => true

/-- The expression of the projected field is a variable reference. -/
def Field.isVarRef (f : Field) : Bool :=
  match f.Expr with
  | Expr.VarRef _ _ => true
  | _ => false

/-- The projected field `p` matches the name `val` by its alias or by the name
of its underlying variable. -/
def Field.matchesName (p : Field) (val : String) : Bool :=
  decide (p.Alias = val) ||
  match p.Expr with
  | Expr.VarRef pVal _ => decide (pVal = val)
  | _ => false

/-- The categories returned by the `Catagory` methods of the rules. -/
inductive OptRuleCatagory where
  | RULE_PUSHDOWN_LIMIT
  | RULE_PUSHDOWN_AGG
  | RULE_SPREAD_AGG
  | RULE_SUBQUERY
  | RULE_HEIMADLL_PUSHDOWN
  deriving DecidableEq, Repr

/-- The concrete rule types declared in `heu_rule.go`. -/
inductive RuleType where
  | LimitPushdownToExchangeRule
  | LimitPushdownToReaderRule
  | LimitPushdownToSeriesRule
  | AggPushdownToExchangeRule
  | AggPushdownToReaderRule
  | AggPushdownToSeriesRule
  | AggSpreadToExchangeRule
  | AggSpreadToSortAppendRule
  | AggSpreadToReaderRule
  | AggPushDownToSubQueryRule
  | AggToProjectInSubQueryRule
  | ReaderUpdateInSubQueryRule
  | IntervalToProjectInSubQueryRule
  | SlideWindowSpreadRule
  | CastorAggCutRule
  deriving DecidableEq, Repr

/-- The `Catagory` method of each rule type. -/
def RuleType.Catagory : RuleType → OptRuleCatagory
  | RuleType.LimitPushdownToExchangeRule => OptRuleCatagory.RULE_PUSHDOWN_LIMIT
  | RuleType.LimitPushdownToReaderRule => OptRuleCatagory.RULE_PUSHDOWN_LIMIT
  | RuleType.LimitPushdownToSeriesRule => OptRuleCatagory.RULE_PUSHDOWN_LIMIT
  | RuleType.AggPushdownToExchangeRule => OptRuleCatagory.RULE_PUSHDOWN_AGG
  | RuleType.AggPushdownToReaderRule => OptRuleCatagory.RULE_PUSHDOWN_AGG
  | RuleType.AggPushdownToSeriesRule => OptRuleCatagory.RULE_PUSHDOWN_AGG
  | RuleType.AggSpreadToExchangeRule => OptRuleCatagory.RULE_SPREAD_AGG
  | RuleType.AggSpreadToSortAppendRule => OptRuleCatagory.RULE_SPREAD_AGG
  | RuleType.AggSpreadToReaderRule => OptRuleCatagory.RULE_SPREAD_AGG
  | RuleType.AggPushDownToSubQueryRule => OptRuleCatagory.RULE_SUBQUERY
  | RuleType.AggToProjectInSubQueryRule => OptRuleCatagory.RULE_SUBQUERY
  | RuleType.ReaderUpdateInSubQueryRule => OptRuleCatagory.RULE_SUBQUERY
  | RuleType.IntervalToProjectInSubQueryRule => OptRuleCatagory.RULE_SUBQUERY
  | RuleType.SlideWindowSpreadRule => OptRuleCatagory.RULE_SPREAD_AGG
  | RuleType.CastorAggCutRule => OptRuleCatagory.RULE_HEIMADLL_PUSHDOWN

/-- A rule object behind the interface `OptRule`: the address of the object
(two pointers are equal when the addresses are), its concrete type and its
embedded `OptRuleBase`, whose type `Base` is declared outside the given
sources. -/
structure OptRule (Base : Type) where
  addr : Nat
  ruleType : RuleType
  base : Base

/-- The method `Catagory` of a rule object. -/
def OptRule.Catagory {Base : Type} (r : OptRule Base) : OptRuleCatagory :=
  r.ruleType.Catagory

/-- The method `Equals` of the rules, whose body is the same in all fifteen rule
types up to the type asserted in its first line.  `baseEquals` is
`OptRuleBase.Equals`, declared outside the given sources and taken as given. -/
def OptRule.Equals {Base : Type} (baseEquals : Base → Base → Bool) (r rhs : OptRule Base) :
    Bool :=
  if rhs.ruleType ≠ r.ruleType then false
  else if r.addr = rhs.addr then true
  else if decide (r.Catagory = rhs.Catagory) && baseEquals r.base rhs.base then true
  else false

/-! ## Shard mapping: data -/

/-- A Go `error`, identified with its message (`err.Error()`). -/
abbrev Error := String

/-- An instant (`time.Time`), as nanoseconds since the Unix epoch. -/
abbrev Time := Int

/-- The zero value of `time.Time` (1 January of year 1, UTC). -/
def zeroTime : Time := -62135596800000000000

/-- The way a Go call can end other than by returning a value with a nil error:
it returns a non-nil error, it panics, or (for the retry loop, which is run with
a bound on its number of rounds) the bound is used up. -/
inductive Fault where
  | error (err : Error)
  | panicked (msg : String)
  | outOfFuel
  deriving DecidableEq, Repr

/-- The function `strings.Contains` on lists of characters. -/
def containsChars (substr : List Char) : List Char → Bool
  | [] => substr.isEmpty
  | c :: cs => substr.isPrefixOf (c :: cs) || containsChars substr cs

/-- The function `strings.Contains`. -/
def stringsContains (s substr : String) : Bool :=
  containsChars substr.data s.data

/-- The read `m[k]` of a Go map with the comma-ok form: the value under the
first entry with key `k`. -/
def GoMap.get {K V : Type} [DecidableEq K] (m : List (K × V)) (k : K) : Option V :=
  (m.find? fun e => decide (e.1 = k)).map Prod.snd

/-- The write `m[k] = v` of a Go map: the entry under `k` is replaced where it
stands, a new key is added at the end. -/
def GoMap.set {K V : Type} [DecidableEq K] : List (K × V) → K → V → List (K × V)
  | [], k, v => [(k, v)]
  | (k0, v0) :: rest, k, v =>
    if k0 = k then (k, v) :: rest else (k0, v0) :: GoMap.set rest k v

/-- The key of the per-database maps (`coordinator.Source`). -/
structure Source where
  Database : String
  RetentionPolicy : String
  deriving DecidableEq, Repr

/-- A measurement named in a query (`influxql.Measurement`). -/
structure Measurement where
  Database : String
  RetentionPolicy : String
  Name : String
  Regex : Option String := none
  deriving DecidableEq, Repr

/-- A query source (`influxql.Source`): a measurement, or a sub-query with the
sources of its statement. -/
inductive InfluxSource where
  | Measurement (m : Measurement)
  | SubQuery (sources : List InfluxSource)

/-- The type `meta2.ShardKeyInfo`, with the field the mapper reads. -/
structure ShardKeyInfo where
  ShardKey : List String
  deriving DecidableEq, Repr

/-- The type `meta2.DatabaseInfo`, with the field the mapper reads. -/
structure DatabaseInfo where
  ShardKey : ShardKeyInfo

/-- The type `meta2.MeasurementInfo`, with the field the mapper reads. -/
structure MeasurementInfo where
  Name : String
  deriving DecidableEq, Repr

/-- The type `meta2.ShardInfo`: a shard id and the partitions that own a replica. -/
structure ShardInfo where
  ID : Nat
  Owners : List Nat
  deriving DecidableEq, Repr

/-- The type `meta2.ShardGroupInfo`, with the fields the mapper reads. -/
structure ShardGroupInfo where
  ID : Nat
  StartTime : Time
  EndTime : Time
  Shards : List ShardInfo
  deriving DecidableEq, Repr

/-- The type `influxql.TimeRange`. -/
structure TimeRange where
  Min : Time
  Max : Time
  deriving DecidableEq, Repr

/-- The query hints (`hybridqp.HintType`). -/
inductive HintType where
  | DefaultNoHint
  | FilterNullColumn
  | ExactStatisticQuery
  | FullSeriesQuery
  | SpecificSeriesQuery
  deriving DecidableEq, Repr

/-- The type `query.SelectOptions`, with the field the mapper reads. -/
structure SelectOptions where
  HintType : HintType := HintType.DefaultNoHint

/-- One entry of a partition view (`meta2.PtInfo`), with the node that owns the
partition. -/
structure PtInfo where
  OwnerNodeID : Nat
  deriving DecidableEq, Repr

/-- What the catalog reports for one measurement: the field map
(`map[string]int32`) and the tag set (`map[string]struct{}`), either of which
can be nil. -/
structure MetaSchema where
  metaFields : Option (List (String × Int))
  metaDimensions : Option (List String)

/-- The collaborators of the mapper, all declared outside the given sources and
taken as given: the catalog client (`meta.MetaClient`), the methods of the
catalog types (`GetShardKey`, `TargetShards`, `TargetShardsHintQuery`), the
random source and the clock.

* `Schema database rp mst n` is the reply to the `n`-th call (from 0) that one
  `getSchema` makes, and `Since database rp mst n` the nanoseconds that
  `time.Since(startTime)` shows after that reply.
* `Intn k n` is the result of the `k`-th call (from 0) of `rand.Intn(n)` within
  one `MapShards`, reduced modulo `n` where it is used.
* `RangeOrder i keys` is the order in which the `i`-th `range` over the caller's
  field map visits the keys. -/
structure MetaClient where
  Database : String → Except Error DatabaseInfo
  GetMeasurements : Measurement → Except Error (List MeasurementInfo)
  ShardGroupsByTimeRange : String → String → Time → Time → Except Error (List ShardGroupInfo)
  GetAliveShards : String → ShardGroupInfo → List Nat
  GetShardKey : MeasurementInfo → Nat → Option ShardKeyInfo
  TargetShards : ShardGroupInfo → String → MeasurementInfo → Option ShardKeyInfo →
    Option Expr → List Nat → List ShardInfo
  TargetShardsHintQuery : ShardGroupInfo → String → MeasurementInfo → Option Expr →
    SelectOptions → List Nat → List ShardInfo × List Nat
  Intn : Nat → Nat → Nat
  Schema : String → String → String → Nat → Except Error MetaSchema
  Since : String → String → String → Nat → Nat
  RangeOrder : Nat → List String → List String
  DBPtView : String → Except Error (List PtInfo)
  DataNode : Nat → Except Error String

/-- The inner maps of `ShardMap`: partition id to shard ids
(`map[uint32][]uint64`). -/
abbrev PtShards := List (Nat × List Nat)

/-- The type `ClusterShardMapping`.  An entry of `ShardMap` is `none` when the
stored inner map is nil; the defaults are the zero values of a fresh mapping. -/
structure ClusterShardMapping where
  ShardMap : List (Source × Option PtShards) := []
  MinTime : Time := zeroTime
  MaxTime : Time := zeroTime
  ShardsTimeRage : TimeRange := ⟨zeroTime, zeroTime⟩

/-- What `mapShards` reads and writes: the mapping under construction, the
`SeriesKey` of the mapper, the shard key info carried from one shard group to
the next, and the number of `rand.Intn` calls made so far. -/
structure MapState where
  a : ClusterShardMapping
  SeriesKey : List Nat := []
  draws : Nat := 0

/-! ## Shard mapping: `mapShards` -/

/-- The loop over `shs` in `mapShards` (lines 148-157): a shard with owners is
appended under one randomly drawn owner, a shard without owners is skipped. -/
def assignShards (mc : MetaClient) :
    List ShardInfo → PtShards × Nat → PtShards × Nat
  | [], acc => acc
  | sh :: rest, (shardIDsByPtID, draws) =>
    if sh.Owners.length > 0 then
      let ptID := sh.Owners.getD (mc.Intn draws sh.Owners.length % sh.Owners.length) 0
      let old := (GoMap.get shardIDsByPtID ptID).getD []
      assignShards mc rest (GoMap.set shardIDsByPtID ptID (old ++ [sh.ID]), draws + 1)
    else
      assignShards mc rest (shardIDsByPtID, draws)

/-- The state of the loop over the shard groups of one source. -/
structure GroupLoop where
  ShardsTimeRage : TimeRange
  shardKeyInfo : Option ShardKeyInfo
  SeriesKey : List Nat
  shardIDsByPtID : PtShards
  draws : Nat

/-- The shards that the body of the group loop targets in group `g` (lines
136-146), with the shard key info and the series key it leaves behind. -/
def targetShards (mc : MetaClient) (s : Measurement) (m0 : MeasurementInfo)
    (condition : Option Expr) (opt : SelectOptions) (g : ShardGroupInfo)
    (shardKeyInfo : Option ShardKeyInfo) (seriesKey : List Nat) :
    List ShardInfo × Option ShardKeyInfo × List Nat :=
  let shardKeyInfo :=
    match shardKeyInfo with
    | none => mc.GetShardKey m0 g.ID
    | some k => some k
  let aliveShardIdxes := mc.GetAliveShards s.Database g
  if opt.HintType = HintType.FullSeriesQuery ∨ opt.HintType = HintType.SpecificSeriesQuery then
    let r := mc.TargetShardsHintQuery g s.Name m0 condition opt aliveShardIdxes
    (r.1, shardKeyInfo, r.2)
  else
    (mc.TargetShards g s.Name m0 shardKeyInfo condition aliveShardIdxes, shardKeyInfo, seriesKey)

/-- The loop `for i, g := range groups` of `mapShards` (lines 123-158); `i` is
the index of the head of the list. -/
def groupLoop (mc : MetaClient) (s : Measurement) (m0 : MeasurementInfo)
    (condition : Option Expr) (opt : SelectOptions) :
    List ShardGroupInfo → Nat → GroupLoop → GroupLoop
  | [], _, st => st
  | g :: rest, i, st =>
    let gTimeRange : TimeRange := ⟨g.StartTime, g.EndTime⟩
    let tr :=
      if i = 0 then gTimeRange
      else
        let tr1 : TimeRange :=
          if st.ShardsTimeRage.Min > gTimeRange.Min then ⟨gTimeRange.Min, st.ShardsTimeRage.Max⟩
          else st.ShardsTimeRage
        if gTimeRange.Max > tr1.Max then ⟨tr1.Min, gTimeRange.Max⟩ else tr1
    let t := targetShards mc s m0 condition opt g st.shardKeyInfo st.SeriesKey
    let r := assignShards mc t.1 (st.shardIDsByPtID, st.draws)
    groupLoop mc s m0 condition opt rest (i + 1)
      { ShardsTimeRage := tr, shardKeyInfo := t.2.1, SeriesKey := t.2.2,
        shardIDsByPtID := r.1, draws := r.2 }

/-- The body of `mapShards` for a source that is a measurement (lines 88-160). -/
def mapMeasurement (mc : MetaClient) (tmin tmax : Time) (condition : Option Expr)
    (opt : SelectOptions) (s : Measurement) (st : MapState) : Except Error MapState :=
  let source : Source := ⟨s.Database, s.RetentionPolicy⟩
  match mc.Database s.Database with
  | .error err => .error err
  | .ok dbi =>
    let shardKeyInfo : Option ShardKeyInfo :=
      if dbi.ShardKey.ShardKey.length > 0 then some dbi.ShardKey else none
    match mc.GetMeasurements s with
    | .error err => .error err
    | .ok [] => .ok st
    | .ok (m0 :: _) =>
      match GoMap.get st.a.ShardMap source with
      | some _ => .ok st
      | none =>
        match mc.ShardGroupsByTimeRange s.Database s.RetentionPolicy tmin tmax with
        | .error err => .error err
        | .ok [] => .ok { st with a := { st.a with ShardMap := GoMap.set st.a.ShardMap source none } }
        | .ok (g :: gs) =>
          let r := groupLoop mc s m0 condition opt (g :: gs) 0
            { ShardsTimeRage := st.a.ShardsTimeRage, shardKeyInfo := shardKeyInfo,
              SeriesKey := st.SeriesKey, shardIDsByPtID := [], draws := st.draws }
          .ok { a := { st.a with ShardsTimeRage := r.ShardsTimeRage,
                                 ShardMap := GoMap.set st.a.ShardMap source (some r.shardIDsByPtID) },
                SeriesKey := r.SeriesKey, draws := r.draws }

mutual
/-- The method `ClusterShardMapper.mapShards`. -/
def mapShards (mc : MetaClient) (tmin tmax : Time) (condition : Option Expr)
    (opt : SelectOptions) : List InfluxSource → MapState → Except Error MapState
  | [], st => .ok st
  | s :: rest, st =>
    match mapShardsSource mc tmin tmax condition opt s st with
    | .error err => .error err
    | .ok st1 => mapShards mc tmin tmax condition opt rest st1
/-- One round of the loop of `mapShards`, by the kind of the source. -/
def mapShardsSource (mc : MetaClient) (tmin tmax : Time) (condition : Option Expr)
    (opt : SelectOptions) : InfluxSource → MapState → Except Error MapState
  | InfluxSource.Measurement s, st => mapMeasurement mc tmin tmax condition opt s st
  | InfluxSource.SubQuery sources, st => mapShards mc tmin tmax condition opt sources st
end

/-- The method `ClusterShardMapper.MapShards`; `t` is the time range of the
query in Unix nanoseconds and `seriesKey` the `SeriesKey` of the mapper before
the call. -/
def MapShards (mc : MetaClient) (sources : List InfluxSource) (t : TimeRange)
    (opt : SelectOptions) (condition : Option Expr) : Except Error ClusterShardMapping :=
  let a : ClusterShardMapping := {}
  let tmin := t.Min
  let tmax := t.Max
  match mapShards mc tmin tmax condition opt sources { a := a } with
  | .error err => .error err
  | .ok st => .ok { st.a with MinTime := tmin, MaxTime := tmax }

mutual
/-- The measurements among the sources, those inside sub-queries included. -/
def sourcesMeasurements : List InfluxSource → List Measurement
  | [] => []
  | s :: rest => sourceMeasurements s ++ sourcesMeasurements rest
/-- The measurements of one source, those inside a sub-query included. -/
def sourceMeasurements : InfluxSource → List Measurement
  | InfluxSource.Measurement m => [m]
  | InfluxSource.SubQuery sources => sourcesMeasurements sources
end

/-- The key under which a measurement source is mapped. -/
def Measurement.source (s : Measurement) : Source := ⟨s.Database, s.RetentionPolicy⟩

/-- The shards that the lookups of the group loop return, group after group,
with the shard key info and the series key carried along as the loop does. -/
def targetedShards (mc : MetaClient) (s : Measurement) (m0 : MeasurementInfo)
    (condition : Option Expr) (opt : SelectOptions) :
    List ShardGroupInfo → Option ShardKeyInfo → List Nat → List ShardInfo
  | [], _, _ => []
  | g :: rest, shardKeyInfo, seriesKey =>
    let t := targetShards mc s m0 condition opt g shardKeyInfo seriesKey
    t.1 ++ targetedShards mc s m0 condition opt rest t.2.1 t.2.2

/-- The shards returned by the target-shard lookups that `MapShards` makes for
the measurement source `s` when it is the only source: those of the shard groups
overlapping the time range, looked up with the first matched measurement. -/
def lookedUpShards (mc : MetaClient) (s : Measurement) (t : TimeRange) (opt : SelectOptions)
    (condition : Option Expr) : List ShardInfo :=
  match mc.Database s.Database, mc.GetMeasurements s,
      mc.ShardGroupsByTimeRange s.Database s.RetentionPolicy t.Min t.Max with
  | .ok dbi, .ok (m0 :: _), .ok groups =>
    targetedShards mc s m0 condition opt groups
      (if dbi.ShardKey.ShardKey.length > 0 then some dbi.ShardKey else none) []
  | _, _, _ => []

/-- How `mapShards` changes `ShardMap` while it goes through sources with the
measurements `ms`: entries stay as they are, a new entry belongs to one of the
measurements and is nil if that measurement has no shard group in the time
range, and every measurement that matches something has an entry afterwards. -/
def MapExtends (mc : MetaClient) (tmin tmax : Time) (ms : List Measurement)
    (before after : List (Source × Option PtShards)) : Prop :=
  (∀ key v, GoMap.get before key = some v → GoMap.get after key = some v) ∧
  (∀ key v, GoMap.get after key = some v →
    GoMap.get before key = some v ∨
    ∃ s ∈ ms, s.source = key ∧
      (mc.ShardGroupsByTimeRange s.Database s.RetentionPolicy tmin tmax = .ok [] → v = none)) ∧
  (∀ s ∈ ms, ∀ m0 rest, mc.GetMeasurements s = .ok (m0 :: rest) →
    GoMap.get after s.source ≠ none)

/-- Every shard id that the inner map `m` holds under a partition belongs to a
shard of `shs` whose owner list contains that partition. -/
def OwnedBy (shs : List ShardInfo) (m : PtShards) : Prop :=
  ∀ p ids, GoMap.get m p = some ids → ∀ id ∈ ids, ∃ sh ∈ shs, sh.ID = id ∧ p ∈ sh.Owners

/-- Every inner map stored in `shardMap` belongs to a measurement of `ms` with
the key of the entry, and its shard ids are owned as `OwnedBy` says among the
shards looked up for that measurement. -/
def MapOwned (mc : MetaClient) (t : TimeRange) (opt : SelectOptions) (condition : Option Expr)
    (ms : List Measurement) (shardMap : List (Source × Option PtShards)) : Prop :=
  ∀ key m, GoMap.get shardMap key = some (some m) →
    ∃ s ∈ ms, s.source = key ∧ OwnedBy (lookedUpShards mc s t opt condition) m

/-! ## Schema resolution -/

/-- Constants and pure helpers declared outside the given sources and taken as
given: the texts of `netstorage.ErrPartitionNotFound` and `meta2.ErrDBPTClose`,
the retry budget `DMLTimeOutSecond` (whole seconds) and
`record.ToInfluxqlTypes`. -/
structure Externals where
  ErrPartitionNotFound : String
  ErrDBPTClose : String
  DMLTimeOutSecond : Nat
  ToInfluxqlTypes : Int → DataType

/-- The condition under which `getSchema` retries (lines 219-220). -/
def isRetryable (x : Externals) (err : Error) : Bool :=
  stringsContains err x.ErrPartitionNotFound || stringsContains err x.ErrDBPTClose ||
  stringsContains err "connection reset by peer" || stringsContains err "connection refused" ||
  stringsContains err "broken pipe" || stringsContains err "read message type: EOF" ||
  stringsContains err "write: connection timed out"

/-- The method `ClusterShardMapping.getSchema`, from its `n`-th call of the
catalog on, with at most `fuel` calls.  `time.Since(startTime).Seconds() <
DMLTimeOutSecond` is the comparison of the elapsed nanoseconds with the budget
in nanoseconds. -/
def getSchemaFrom (mc : MetaClient) (x : Externals) (database retentionPolicy mst : String) :
    Nat → Nat → Except Fault MetaSchema
  | 0, _ => .error Fault.outOfFuel
  | fuel + 1, n =>
    match mc.Schema database retentionPolicy mst n with
    | .error err =>
      if isRetryable x err then
        if mc.Since database retentionPolicy mst n < x.DMLTimeOutSecond * 1000000000 then
          getSchemaFrom mc x database retentionPolicy mst fuel (n + 1)
        else
          .error (Fault.panicked err)
      else
        .error (Fault.error "get schema failed")
    | .ok ms => .ok ms

/-- The method `ClusterShardMapping.getSchema`, run for at most `fuel` calls of
the catalog. -/
def getSchema (mc : MetaClient) (x : Externals) (fuel : Nat)
    (database retentionPolicy mst : String) : Except Fault MetaSchema :=
  getSchemaFrom mc x database retentionPolicy mst fuel 0

/-- The value `csm.ShardMap[source]`: nil for an absent key as for a stored nil. -/
def ClusterShardMapping.shardMapAt (csm : ClusterShardMapping) (source : Source) :
    Option PtShards :=
  (GoMap.get csm.ShardMap source).bind id

/-- All shard ids listed under the partitions of the entry of `source`. -/
def ClusterShardMapping.shardIDs (a : ClusterShardMapping) (source : Source) : List Nat :=
  ((a.shardMapAt source).getD []).flatMap Prod.snd

/-- The non-nil results of `FieldDimensions`. -/
structure FieldDimensionsResult where
  fields : List (String × DataType)
  dimensions : List (String × Unit)
  schemaMinTime : Int
  schemaMaxTime : Int
  deriving DecidableEq, Repr

/-- The loop over the measurements in `FieldDimensions` (lines 256-272). -/
def fieldDimensionsLoop (mc : MetaClient) (x : Externals) (fuel : Nat) (m : Measurement) :
    List MeasurementInfo → List (String × DataType) → List (String × Unit) →
    Except Fault (List (String × DataType) × List (String × Unit))
  | [], fields, dimensions => .ok (fields, dimensions)
  | mi :: rest, fields, dimensions =>
    match getSchema mc x fuel m.Database m.RetentionPolicy mi.Name with
    | .error f => .error f
    | .ok ⟨none, none⟩ => fieldDimensionsLoop mc x fuel m rest fields dimensions
    | .ok ⟨metaFields, metaDimensions⟩ =>
      let fields := (metaFields.getD []).foldl
        (fun acc e => GoMap.set acc e.1 (x.ToInfluxqlTypes e.2)) fields
      let dimensions := (metaDimensions.getD []).foldl
        (fun acc k => GoMap.set acc k ()) dimensions
      fieldDimensionsLoop mc x fuel m rest fields dimensions

/-- The method `ClusterShardMapping.FieldDimensions`.  The result `none` is the
return of four nils. -/
def FieldDimensions (mc : MetaClient) (x : Externals) (fuel : Nat)
    (csm : ClusterShardMapping) (m : Measurement) :
    Except Fault (Option FieldDimensionsResult) :=
  let source : Source := ⟨m.Database, m.RetentionPolicy⟩
  match csm.shardMapAt source with
  | none => .ok none
  | some _ =>
    match mc.GetMeasurements m with
    | .error err => .error (Fault.error err)
    | .ok measurements =>
      match fieldDimensionsLoop mc x fuel m measurements [] [] with
      | .error f => .error f
      | .ok (fields, dimensions) =>
        .ok (some ⟨fields, dimensions, 9223372036854775807, -9223372036854775808⟩)

/-- The catalog reports the column `k` both among the fields and among the tags
of the measurement. -/
def MetaSchema.conflicts (ms : MetaSchema) (k : String) : Bool :=
  (GoMap.get (ms.metaFields.getD []) k).isSome && decide (k ∈ ms.metaDimensions.getD [])

/-- The text of the conflict error of `MapTypeBatch` (line 323). -/
def conflictError (k mst : String) : Error :=
  "column (" ++ k ++ ") in measurement (" ++ mst ++ ") in both fields and tags"

/-- The loop `for k := range fields` of `MapTypeBatch` (lines 313-331) over the
keys in the order they are visited.  The field map is changed in place, so it
is returned together with the error, if any. -/
def mapTypeKeys (x : Externals) (mst : String) (ms : MetaSchema) :
    List String → List (String × DataType) → List (String × DataType) × Option Error
  | [], fields => (fields, none)
  | k :: rest, fields =>
    let ft := GoMap.get (ms.metaFields.getD []) k
    let dtOK := decide (k ∈ ms.metaDimensions.getD [])
    match ft, dtOK with
    | none, false => mapTypeKeys x mst ms rest (GoMap.set fields k DataType.Unknown)
    | some _, true => (fields, some (conflictError k mst))
    | some t, false => mapTypeKeys x mst ms rest (GoMap.set fields k (x.ToInfluxqlTypes t))
    | none, true => mapTypeKeys x mst ms rest (GoMap.set fields k DataType.Tag)

/-- The loop over the measurements in `MapTypeBatch` (lines 307-332); `i` is the
index of the head of the list. -/
def mapTypeLoop (mc : MetaClient) (x : Externals) (fuel : Nat) (m : Measurement) :
    List MeasurementInfo → Nat → List (String × DataType) →
    List (String × DataType) × Option Fault
  | [], _, fields => (fields, none)
  | mi :: rest, i, fields =>
    match getSchema mc x fuel m.Database m.RetentionPolicy mi.Name with
    | .error f => (fields, some f)
    | .ok ms =>
      match mapTypeKeys x mi.Name ms (mc.RangeOrder i (fields.map Prod.fst)) fields with
      | (fields1, some err) => (fields1, some (Fault.error err))
      | (fields1, none) => mapTypeLoop mc x fuel m rest (i + 1) fields1

/-- The method `ClusterShardMapping.MapTypeBatch`: the caller's field map as the
call leaves it, and the error returned (`none` for nil). -/
def MapTypeBatch (mc : MetaClient) (x : Externals) (fuel : Nat) (m : Measurement)
    (fields : List (String × DataType)) : List (String × DataType) × Option Fault :=
  match mc.GetMeasurements m with
  | .error err => (fields, some (Fault.error err))
  | .ok measurements => mapTypeLoop mc x fuel m measurements 0 fields

/-- The type that one measurement's schema gives the column `k` in
`MapTypeBatch` when the column is not both a field and a tag there: the type of
the field, `Tag`, or `Unknown` when the measurement has no such column. -/
def MetaSchema.typeOf (x : Externals) (ms : MetaSchema) (k : String) : DataType :=
  match GoMap.get (ms.metaFields.getD []) k with
  | some t => x.ToInfluxqlTypes t
  | none => if k ∈ ms.metaDimensions.getD [] then DataType.Tag else DataType.Unknown

/-- The loop over the measurements in `MapType` (lines 283-298). -/
def mapTypeFind (mc : MetaClient) (x : Externals) (fuel : Nat) (m : Measurement)
    (field : String) : List MeasurementInfo → Except Fault DataType
  | [] => .ok DataType.Unknown
  | mi :: rest =>
    match getSchema mc x fuel m.Database m.RetentionPolicy mi.Name with
    | .error (Fault.error _) => .ok DataType.Unknown
    | .error f => .error f
    | .ok ms =>
      match GoMap.get (ms.metaFields.getD []) field with
      | some ty => .ok (x.ToInfluxqlTypes ty)
      | none =>
        if field ∈ ms.metaDimensions.getD [] then .ok DataType.Tag
        else mapTypeFind mc x fuel m field rest

/-- The method `ClusterShardMapping.MapType`. -/
def MapType (mc : MetaClient) (x : Externals) (fuel : Nat) (m : Measurement)
    (field : String) : Except Fault DataType :=
  match mc.GetMeasurements m with
  | .error _ => .ok DataType.Unknown
  | .ok measurements => mapTypeFind mc x fuel m field measurements

/-- The intersection of the time ranges of shard groups, as the specification
words the clamp window: the latest start and the earliest end (`none` when
there is no group). -/
def groupsIntersection : List ShardGroupInfo → Option TimeRange
  | [] => none
  | g :: rest =>
    match groupsIntersection rest with
    | none => some ⟨g.StartTime, g.EndTime⟩
    | some r => some ⟨max g.StartTime r.Min, min g.EndTime r.Max⟩

/-! ## Plan construction: `CreateLogicalPlan` -/

/-- The type `query.ProcessorOptions`, with the fields the mapping reads and
writes; `Sources` is `none` when the slice is nil. -/
structure ProcessorOptions where
  Query : String := ""
  Sources : Option (List InfluxSource) := none
  StartTime : Int := 0
  EndTime : Int := 0

/-- What `CreateLogicalPlan` reads from its context: the query text of the
slow-query statistics stored under `query.QueryDurationKey`, when there is one,
and whether a tracing span is attached. -/
structure QueryContext where
  slowQuery : Option String := none
  hasSpan : Bool := false

/-- The type `executor.RemoteQuery`. -/
structure RemoteQuery where
  Database : String
  PtID : Nat
  NodeID : Nat
  ShardIDs : List Nat
  Opt : ProcessorOptions
  Analyze : Bool

/-- The plan builder as `CreateLogicalPlan` uses it (`NewLogicalPlanBuilderImpl`
on the catalog holding the options), declared outside the given sources and
taken as given. -/
structure NodePlanBuilder where
  CreateSeriesPlan : ProcessorOptions → Except Error QueryNode
  CreateMeasurementPlan : ProcessorOptions → QueryNode → Except Error QueryNode
  CreateScanPlan : ProcessorOptions → QueryNode → Except Error QueryNode
  CreateShardPlan : ProcessorOptions → QueryNode → Except Error QueryNode
  CreateNodePlan : ProcessorOptions → QueryNode → List RemoteQuery → Except Error QueryNode

/-- The two maps filled by the loop over the sources: node id to (partition id
to shard ids), and partition id to sources. -/
structure Grouping where
  shardsMapByNode : List (Nat × PtShards) := []
  sourcesMapByPtId : List (Nat × List InfluxSource) := []

/-- The loop `for pId, sIds := range shardIDsByDBPT` of `CreateLogicalPlan`
(lines 380-390), over the entries in the order they are visited. -/
def groupPartitions (ptView : List PtInfo) (srcs : List InfluxSource) :
    PtShards → Grouping → Except Fault Grouping
  | [], g => .ok g
  | (pId, sIds) :: rest, g =>
    match ptView[pId]? with
    | none => .error (Fault.panicked "index out of range")
    | some pt =>
      let nodeID := pt.OwnerNodeID
      match GoMap.get g.shardsMapByNode nodeID with
      | none =>
        groupPartitions ptView srcs rest
          { shardsMapByNode := GoMap.set g.shardsMapByNode nodeID [(pId, sIds)],
            sourcesMapByPtId := GoMap.set g.sourcesMapByPtId pId srcs }
      | some _ =>
        groupPartitions ptView srcs rest
          { g with
            sourcesMapByPtId := GoMap.set g.sourcesMapByPtId pId
              ((GoMap.get g.sourcesMapByPtId pId).getD [] ++ srcs) }

/-- The loop `for _, src := range sources` of `CreateLogicalPlan` (lines
353-396). -/
def groupSources (mc : MetaClient) (csm : ClusterShardMapping) :
    List InfluxSource → Grouping → Except Fault Grouping
  | [], g => .ok g
  | InfluxSource.SubQuery _ :: _, _ => .error (Fault.panicked "subquery is not supported.")
  | InfluxSource.Measurement src :: rest, g =>
    let source : Source := ⟨src.Database, src.RetentionPolicy⟩
    match csm.shardMapAt source with
    | none => groupSources mc csm rest g
    | some shardIDsByDBPT =>
      match mc.DBPtView source.Database with
      | .error err => .error (Fault.error err)
      | .ok ptView =>
        match mc.GetMeasurements src with
        | .error err => .error (Fault.error err)
        | .ok measurements =>
          let srcs := measurements.map fun mi =>
            InfluxSource.Measurement { src with Regex := none, Name := mi.Name }
          match groupPartitions ptView srcs shardIDsByDBPT g with
          | .error f => .error f
          | .ok g1 => groupSources mc csm rest g1

/-- The method `time.Time.IsZero`. -/
def Time.IsZero (t : Time) : Bool := decide (t = zeroTime)

/-- The method `time.Time.UnixNano`: the nanoseconds since the Unix epoch in an
`int64`. -/
def Time.UnixNano (t : Time) : Int :=
  (t + 9223372036854775808) % 18446744073709551616 - 9223372036854775808

/-- The override of the time constraints in `CreateLogicalPlan` (lines 398-404). -/
def clampTimes (csm : ClusterShardMapping) (opts : ProcessorOptions) : ProcessorOptions :=
  let opts :=
    if !csm.MinTime.IsZero && decide (opts.StartTime < csm.MinTime.UnixNano) then
      { opts with StartTime := csm.MinTime.UnixNano }
    else opts
  if !csm.MaxTime.IsZero && decide (opts.EndTime > csm.MaxTime.UnixNano) then
    { opts with EndTime := csm.MaxTime.UnixNano }
  else opts

/-- The method `ClusterShardMapping.makeRemoteQuery`.  The registration of the
node address with the transport layer leaves no trace in the result. -/
def makeRemoteQuery (mc : MetaClient) (ctx : QueryContext) (src : List InfluxSource)
    (opt : ProcessorOptions) (nodeID ptID : Nat) (shardIDs : List Nat) :
    Except Fault RemoteQuery :=
  match src with
  | [] => .error (Fault.panicked "index out of range")
  | InfluxSource.SubQuery _ :: _ =>
    .error (Fault.error "invalid sources, exp: *influxql.Measurement, got: *influxql.SubQuery")
  | InfluxSource.Measurement m :: _ =>
    let opt := { opt with Sources := some src }
    let analyze := ctx.hasSpan
    match mc.DataNode nodeID with
    | .error err => .error (Fault.error err)
    | .ok _ =>
      .ok { Database := m.Database, PtID := ptID, NodeID := nodeID, ShardIDs := shardIDs,
            Opt := opt, Analyze := analyze }

/-- One goroutine of the fan-out: the arguments of its `go func` call. -/
structure Task where
  nodeID : Nat
  ptID : Nat
  shardIDs : List Nat
  deriving DecidableEq, Repr

/-- The tasks started by the two nested loops of lines 411-431, one for each
partition of each node of `shardsMapByNode`. -/
def launchTasks (shardsMapByNode : List (Nat × PtShards)) : List Task :=
  shardsMapByNode.flatMap fun e => e.2.map fun pe => ⟨e.1, pe.1, pe.2⟩

/-- The state shared by the tasks under `muList`: the collected leaves, the
collected errors and the options. -/
structure Gathered where
  eTraits : List RemoteQuery := []
  errs : List Error := []
  opts : ProcessorOptions

/-- The call a task makes before it takes the lock (lines 416-417), with the
options as the task finds them. -/
def runTask (mc : MetaClient) (ctx : QueryContext)
    (sourcesMapByPtId : List (Nat × List InfluxSource)) (opts : ProcessorOptions) (t : Task) :
    Except Fault RemoteQuery :=
  makeRemoteQuery mc ctx ((GoMap.get sourcesMapByPtId t.ptID).getD []) opts
    t.nodeID t.ptID t.shardIDs

/-- The error a task adds to `errs`, if its call returned one. -/
def taskError : Except Fault RemoteQuery → Option Error
  | .error (Fault.error err) => some err
  | _ => none

/-- The leaf a task adds to `eTraits`, if its call succeeded. -/
def taskLeaf : Except Fault RemoteQuery → Option RemoteQuery
  | .ok rq => some rq
  | _ => none

/-- The bodies of the tasks (lines 414-429), taken in the order in which the
tasks reach their locked section.  A panic in a task ends the whole call. -/
def gather (mc : MetaClient) (ctx : QueryContext)
    (sourcesMapByPtId : List (Nat × List InfluxSource)) :
    List Task → Gathered → Except Fault Gathered
  | [], g => .ok g
  | t :: rest, g =>
    match runTask mc ctx sourcesMapByPtId g.opts t with
    | .error (Fault.error err) =>
      gather mc ctx sourcesMapByPtId rest { g with errs := g.errs ++ [err] }
    | .error f => .error f
    | .ok rq =>
      gather mc ctx sourcesMapByPtId rest
        { g with opts := { g.opts with Sources := some ((GoMap.get sourcesMapByPtId t.ptID).getD []) },
                 eTraits := g.eTraits ++ [rq] }

/-- The loop over the collected errors (lines 434-445): the error with which the
call returns, if it returns there. -/
def firstFatal (x : Externals) : List Error → Option Error
  | [] => none
  | err :: rest =>
    if !stringsContains err x.ErrPartitionNotFound then firstFatal x rest else some err

/-- The construction of the plan layers from the collected leaves (lines
450-482). -/
def buildLayers (b : NodePlanBuilder) (opts : ProcessorOptions) (eTraits : List RemoteQuery) :
    Except Fault (Option QueryNode) :=
  match b.CreateSeriesPlan opts with
  | .error pErr => .error (Fault.error pErr)
  | .ok plan =>
    match b.CreateMeasurementPlan opts plan with
    | .error pErr => .error (Fault.error pErr)
    | .ok plan =>
      match b.CreateScanPlan opts plan with
      | .error pErr => .error (Fault.error pErr)
      | .ok plan =>
        match b.CreateShardPlan opts plan with
        | .error pErr => .error (Fault.error pErr)
        | .ok plan =>
          match b.CreateNodePlan opts plan eTraits with
          | .error pErr => .error (Fault.error pErr)
          | .ok plan => .ok (some plan)

/-- The part of `CreateLogicalPlan` after `wg.Wait()` (lines 434-482), on the
state the tasks left. -/
def afterFanOut (x : Externals) (b : NodePlanBuilder) (g : Gathered) :
    Except Fault (Option QueryNode) :=
  match firstFatal x g.errs with
  | some err => .error (Fault.error err)
  | none =>
    match g.opts.Sources with
    | none => .ok none
    | some _ => buildLayers b g.opts g.eTraits

/-- The start of `CreateLogicalPlan` (lines 337-347): the query text of the
slow-query statistics, when the context carries them, is copied into the
options. -/
def recordQuery (ctx : QueryContext) (opts : ProcessorOptions) : ProcessorOptions :=
  match ctx.slowQuery with
  | some q => { opts with Query := q }
  | none => opts

/-- The method `ClusterShardMapping.CreateLogicalPlan`.  `opts` stands for
`schema.Options()`, and `arrival` gives the order in which the started tasks
reach their locked section.  The result `none` is the return of a nil plan with
a nil error. -/
def CreateLogicalPlan (mc : MetaClient) (x : Externals) (b : NodePlanBuilder)
    (arrival : List Task → List Task) (csm : ClusterShardMapping) (ctx : QueryContext)
    (sources : List InfluxSource) (opts : ProcessorOptions) :
    Except Fault (Option QueryNode) :=
  let opts := recordQuery ctx opts
  match groupSources mc csm sources {} with
  | .error f => .error f
  | .ok grouping =>
    let opts := clampTimes csm opts
    let tasks := launchTasks grouping.shardsMapByNode
    match gather mc ctx grouping.sourcesMapByPtId (arrival tasks) { opts := opts } with
    | .error f => .error f
    | .ok g => afterFanOut x b g

/-- The node is an Exchange of type `SHARD_EXCHANGE` (the test of line 1343). -/
def isShardExchange : QueryNode → Bool
  | QueryNode.LogicalExchange _ ExchangeType.SHARD_EXCHANGE _ => true
  | _ => false

/-! ## The fan-out as interleaved tasks -/

/-- The state that the tasks of the fan-out share (lines 408-410 and the
captured variables of the closure). -/
inductive SharedVar where
  | sourcesMapByPtId
  | opts
  | errs
  | eTraits
  deriving DecidableEq, Repr

/-- One step of a task that touches the lock or the shared state. -/
inductive TaskStep where
  | Lock
  | Unlock
  | Read (v : SharedVar)
  | Write (v : SharedVar)
  deriving DecidableEq, Repr

/-- The body of one task (lines 414-429) as the sequence of its steps: the
lookup in `sourcesMapByPtId`, the copy `*opts` passed to `makeRemoteQuery`, and
then, by whether the call `failed`, the locked append to `errs` or the locked
store into `opts.Sources` and append to `eTraits`. -/
def taskSteps (failed : Bool) : List TaskStep :=
  [TaskStep.Read SharedVar.sourcesMapByPtId, TaskStep.Read SharedVar.opts] ++
  if failed then
    [TaskStep.Lock, TaskStep.Read SharedVar.errs, TaskStep.Write SharedVar.errs, TaskStep.Unlock]
  else
    [TaskStep.Lock, TaskStep.Write SharedVar.opts, TaskStep.Read SharedVar.eTraits,
     TaskStep.Write SharedVar.eTraits, TaskStep.Unlock]

/-- The reads and writes among the steps that are made while the task does not
hold the lock; `held` tells whether it holds the lock at the start. -/
def unlockedAccesses : List TaskStep → Bool → List TaskStep
  | [], _ => []
  | TaskStep.Lock :: rest, _ => unlockedAccesses rest true
  | TaskStep.Unlock :: rest, _ => unlockedAccesses rest false
  | step :: rest, held =>
    if held then unlockedAccesses rest held else step :: unlockedAccesses rest held

/-- The tasks under way: the steps each task still has to make, and the task
that holds `muList`, if any. -/
structure FanOut where
  pending : List (List TaskStep)
  holder : Option Nat
  deriving DecidableEq, Repr

/-- The fan-out at its start, one task for each entry of `failed`. -/
def FanOut.start (failed : List Bool) : FanOut :=
  { pending := failed.map taskSteps, holder := none }

/-- The task `i` makes its next step; `none` when it has none left or waits for
the lock. -/
def FanOut.step (s : FanOut) (i : Nat) : Option FanOut :=
  match s.pending[i]? with
  | some (TaskStep.Lock :: rest) =>
    match s.holder with
    | none => some { pending := s.pending.set i rest, holder := some i }
    | some _ => none
  | some (TaskStep.Unlock :: rest) => some { pending := s.pending.set i rest, holder := none }
  | some (_ :: rest) => some { s with pending := s.pending.set i rest }
  | _ => none

/-- The tasks make their steps in the order of the schedule. -/
def FanOut.run : FanOut → List Nat → Option FanOut
  | s, [] => some s
  | s, i :: rest =>
    match s.step i with
    | none => none
    | some s1 => s1.run rest

/-- Two steps that touch the same shared variable, one of them writing it. -/
def TaskStep.conflicts : TaskStep → TaskStep → Bool
  | TaskStep.Write v, TaskStep.Write w => decide (v = w)
  | TaskStep.Write v, TaskStep.Read w => decide (v = w)
  | TaskStep.Read v, TaskStep.Write w => decide (v = w)
  | _, _ => false

/-- The next steps of the tasks `i` and `j` conflict: nothing orders the two
accesses. -/
def FanOut.races (s : FanOut) (i j : Nat) : Bool :=
  decide (i ≠ j) &&
  match s.pending[i]?, s.pending[j]? with
  | some (a :: _), some (b :: _) => a.conflicts b
  | _, _ => false

/-! ## Query text for the logs: `HideQueryPassword` -/

/-- The function `unicode.IsSpace`, by code point. -/
def unicodeIsSpace (c : Char) : Bool :=
  decide (c.toNat ∈ [0x09, 0x0A, 0x0B, 0x0C, 0x0D, 0x20, 0x85, 0xA0, 0x1680, 0x2000, 0x2001,
    0x2002, 0x2003, 0x2004, 0x2005, 0x2006, 0x2007, 0x2008, 0x2009, 0x200A, 0x2028, 0x2029,
    0x202F, 0x205F, 0x3000])

/-- The letters outside ASCII that have a lower-case form in the Unicode
character database (version 14.0), as runs `(first, last, step, offset)`: every
`step`-th code point from `first` to `last` has its lower-case form `offset`
code points further on.  This is the content of the table `unicode.CaseRanges`
of the standard library for the lower case. -/
def lowerCaseRanges : List (Nat × Nat × Nat × Int) :=
  [(0xC0, 0xD6, 1, 32), (0xD8, 0xDE, 1, 32), (0x100, 0x12E, 2, 1), (0x130, 0x130, 1, -199),
   (0x132, 0x136, 2, 1), (0x139, 0x147, 2, 1), (0x14A, 0x176, 2, 1), (0x178, 0x178, 1, -121),
   (0x179, 0x17D, 2, 1), (0x181, 0x181, 1, 210), (0x182, 0x184, 2, 1), (0x186, 0x186, 1, 206),
   (0x187, 0x187, 1, 1), (0x189, 0x18A, 1, 205), (0x18B, 0x18B, 1, 1), (0x18E, 0x18E, 1, 79),
   (0x18F, 0x18F, 1, 202), (0x190, 0x190, 1, 203), (0x191, 0x191, 1, 1), (0x193, 0x193, 1, 205),
   (0x194, 0x194, 1, 207), (0x196, 0x196, 1, 211), (0x197, 0x197, 1, 209), (0x198, 0x198, 1, 1),
   (0x19C, 0x19C, 1, 211), (0x19D, 0x19D, 1, 213), (0x19F, 0x19F, 1, 214), (0x1A0, 0x1A4, 2, 1),
   (0x1A6, 0x1A6, 1, 218), (0x1A7, 0x1A7, 1, 1), (0x1A9, 0x1A9, 1, 218), (0x1AC, 0x1AC, 1, 1),
   (0x1AE, 0x1AE, 1, 218), (0x1AF, 0x1AF, 1, 1), (0x1B1, 0x1B2, 1, 217), (0x1B3, 0x1B5, 2, 1),
   (0x1B7, 0x1B7, 1, 219), (0x1B8, 0x1B8, 1, 1), (0x1BC, 0x1BC, 1, 1), (0x1C4, 0x1C4, 1, 2),
   (0x1C5, 0x1C5, 1, 1), (0x1C7, 0x1C7, 1, 2), (0x1C8, 0x1C8, 1, 1), (0x1CA, 0x1CA, 1, 2),
   (0x1CB, 0x1DB, 2, 1), (0x1DE, 0x1EE, 2, 1), (0x1F1, 0x1F1, 1, 2), (0x1F2, 0x1F4, 2, 1),
   (0x1F6, 0x1F6, 1, -97), (0x1F7, 0x1F7, 1, -56), (0x1F8, 0x21E, 2, 1), (0x220, 0x220, 1, -130),
   (0x222, 0x232, 2, 1), (0x23A, 0x23A, 1, 10795), (0x23B, 0x23B, 1, 1), (0x23D, 0x23D, 1, -163),
   (0x23E, 0x23E, 1, 10792), (0x241, 0x241, 1, 1), (0x243, 0x243, 1, -195),
   (0x244, 0x244, 1, 69), (0x245, 0x245, 1, 71), (0x246, 0x24E, 2, 1), (0x370, 0x372, 2, 1),
   (0x376, 0x376, 1, 1), (0x37F, 0x37F, 1, 116), (0x386, 0x386, 1, 38), (0x388, 0x38A, 1, 37),
   (0x38C, 0x38C, 1, 64), (0x38E, 0x38F, 1, 63), (0x391, 0x3A1, 1, 32), (0x3A3, 0x3AB, 1, 32),
   (0x3CF, 0x3CF, 1, 8), (0x3D8, 0x3EE, 2, 1), (0x3F4, 0x3F4, 1, -60), (0x3F7, 0x3F7, 1, 1),
   (0x3F9, 0x3F9, 1, -7), (0x3FA, 0x3FA, 1, 1), (0x3FD, 0x3FF, 1, -130), (0x400, 0x40F, 1, 80),
   (0x410, 0x42F, 1, 32), (0x460, 0x480, 2, 1), (0x48A, 0x4BE, 2, 1), (0x4C0, 0x4C0, 1, 15),
   (0x4C1, 0x4CD, 2, 1), (0x4D0, 0x52E, 2, 1), (0x531, 0x556, 1, 48), (0x10A0, 0x10C5, 1, 7264),
   (0x10C7, 0x10C7, 1, 7264), (0x10CD, 0x10CD, 1, 7264), (0x13A0, 0x13EF, 1, 38864),
   (0x13F0, 0x13F5, 1, 8), (0x1C90, 0x1CBA, 1, -3008), (0x1CBD, 0x1CBF, 1, -3008),
   (0x1E00, 0x1E94, 2, 1), (0x1E9E, 0x1E9E, 1, -7615), (0x1EA0, 0x1EFE, 2, 1),
   (0x1F08, 0x1F0F, 1, -8), (0x1F18, 0x1F1D, 1, -8), (0x1F28, 0x1F2F, 1, -8),
   (0x1F38, 0x1F3F, 1, -8), (0x1F48, 0x1F4D, 1, -8), (0x1F59, 0x1F5F, 2, -8),
   (0x1F68, 0x1F6F, 1, -8), (0x1F88, 0x1F8F, 1, -8), (0x1F98, 0x1F9F, 1, -8),
   (0x1FA8, 0x1FAF, 1, -8), (0x1FB8, 0x1FB9, 1, -8), (0x1FBA, 0x1FBB, 1, -74),
   (0x1FBC, 0x1FBC, 1, -9), (0x1FC8, 0x1FCB, 1, -86), (0x1FCC, 0x1FCC, 1, -9),
   (0x1FD8, 0x1FD9, 1, -8), (0x1FDA, 0x1FDB, 1, -100), (0x1FE8, 0x1FE9, 1, -8),
   (0x1FEA, 0x1FEB, 1, -112), (0x1FEC, 0x1FEC, 1, -7), (0x1FF8, 0x1FF9, 1, -128),
   (0x1FFA, 0x1FFB, 1, -126), (0x1FFC, 0x1FFC, 1, -9), (0x2126, 0x2126, 1, -7517),
   (0x212A, 0x212A, 1, -8383), (0x212B, 0x212B, 1, -8262), (0x2132, 0x2132, 1, 28),
   (0x2160, 0x216F, 1, 16), (0x2183, 0x2183, 1, 1), (0x24B6, 0x24CF, 1, 26),
   (0x2C00, 0x2C2F, 1, 48), (0x2C60, 0x2C60, 1, 1), (0x2C62, 0x2C62, 1, -10743),
   (0x2C63, 0x2C63, 1, -3814), (0x2C64, 0x2C64, 1, -10727), (0x2C67, 0x2C6B, 2, 1),
   (0x2C6D, 0x2C6D, 1, -10780), (0x2C6E, 0x2C6E, 1, -10749), (0x2C6F, 0x2C6F, 1, -10783),
   (0x2C70, 0x2C70, 1, -10782), (0x2C72, 0x2C72, 1, 1), (0x2C75, 0x2C75, 1, 1),
   (0x2C7E, 0x2C7F, 1, -10815), (0x2C80, 0x2CE2, 2, 1), (0x2CEB, 0x2CED, 2, 1),
   (0x2CF2, 0x2CF2, 1, 1), (0xA640, 0xA66C, 2, 1), (0xA680, 0xA69A, 2, 1),
   (0xA722, 0xA72E, 2, 1), (0xA732, 0xA76E, 2, 1), (0xA779, 0xA77B, 2, 1),
   (0xA77D, 0xA77D, 1, -35332), (0xA77E, 0xA786, 2, 1), (0xA78B, 0xA78B, 1, 1),
   (0xA78D, 0xA78D, 1, -42280), (0xA790, 0xA792, 2, 1), (0xA796, 0xA7A8, 2, 1),
   (0xA7AA, 0xA7AA, 1, -42308), (0xA7AB, 0xA7AB, 1, -42319), (0xA7AC, 0xA7AC, 1, -42315),
   (0xA7AD, 0xA7AD, 1, -42305), (0xA7AE, 0xA7AE, 1, -42308), (0xA7B0, 0xA7B0, 1, -42258),
   (0xA7B1, 0xA7B1, 1, -42282), (0xA7B2, 0xA7B2, 1, -42261), (0xA7B3, 0xA7B3, 1, 928),
   (0xA7B4, 0xA7C2, 2, 1), (0xA7C4, 0xA7C4, 1, -48), (0xA7C5, 0xA7C5, 1, -42307),
   (0xA7C6, 0xA7C6, 1, -35384), (0xA7C7, 0xA7C9, 2, 1), (0xA7D0, 0xA7D0, 1, 1),
   (0xA7D6, 0xA7D8, 2, 1), (0xA7F5, 0xA7F5, 1, 1), (0xFF21, 0xFF3A, 1, 32),
   (0x10400, 0x10427, 1, 40), (0x104B0, 0x104D3, 1, 40), (0x10570, 0x1057A, 1, 39),
   (0x1057C, 0x1058A, 1, 39), (0x1058C, 0x10592, 1, 39), (0x10594, 0x10595, 1, 39),
   (0x10C80, 0x10CB2, 1, 64), (0x118A0, 0x118BF, 1, 32), (0x16E40, 0x16E5F, 1, 32),
   (0x1E900, 0x1E921, 1, 34)]

/-- The function `unicode.ToLower`: the letters A to Z are folded directly, the
other characters through the table. -/
def unicodeToLower (c : Char) : Char :=
  if c.toNat ≤ 0x7F then Char.toLower c
  else
    match lowerCaseRanges.find? fun r =>
        decide (r.1 ≤ c.toNat) && decide (c.toNat ≤ r.2.1) &&
          decide ((c.toNat - r.1) % r.2.2.1 = 0) with
    | some r => Char.ofNat (Int.toNat (c.toNat + r.2.2.2))
    | none => c

/-- The function `strings.ToLower`: every character is mapped through
`unicode.ToLower`. -/
def stringsToLower (s : String) : String := ⟨s.data.map unicodeToLower⟩

/-- The scan of `strings.Fields`; `cur` is the field under way, last character
first. -/
def fieldsLoop : List Char → List Char → List String
  | [], cur => if cur.isEmpty then [] else [⟨cur.reverse⟩]
  | c :: cs, cur =>
    if unicodeIsSpace c then
      if cur.isEmpty then fieldsLoop cs [] else ⟨cur.reverse⟩ :: fieldsLoop cs []
    else fieldsLoop cs (c :: cur)

/-- The function `strings.Fields`: the pieces of `s` between runs of white
space. -/
def stringsFields (s : String) : List String := fieldsLoop s.data []

/-- The function `strings.Join`. -/
def stringsJoin (elems : List String) (sep : String) : String :=
  ⟨List.intercalate sep.data (elems.map String.data)⟩

/-- The first piece of `strings.SplitAfter(s, sep)` for a separator of one
character: `s` up to and including the first separator, or all of `s`. -/
def splitAfterFirst (sep : Char) : List Char → List Char
  | [] => []
  | c :: cs => if c = sep then [c] else c :: splitAfterFirst sep cs

/-- The function `hasSensitiveWord`. -/
def hasSensitiveWord (url : String) : Bool :=
  stringsContains (stringsToLower url) "password"

/-- What `HideQueryPassword` writes at the field `i` (lines 243-248). -/
def redactAt (fields : List String) (i : Nat) : String :=
  stringsJoin (fields.take (i + 1)) " " ++ " [REDACTED] " ++
    (if i + 2 < fields.length then stringsJoin (fields.drop (i + 2)) " " else "")

/-- The loop `for i, s := range fields` of `HideQueryPassword` (lines 241-250)
from the field `i` on: the string returned at the first field that is
`password`, or `none` when the loop ends without one. -/
def redactFields (fields : List String) : List String → Nat → Option String
  | [], _ => none
  | s :: rest, i =>
    if s = "password" then some (redactAt fields i) else redactFields fields rest (i + 1)

/-- The function `HideQueryPassword`. -/
def HideQueryPassword (url : String) : String :=
  if !hasSensitiveWord url then url
  else
    let url := stringsToLower url
    let created : Option String :=
      if stringsContains url "with password" then
        redactFields (stringsFields url) (stringsFields url) 0
      else none
    match created with
    | some out => out
    | none =>
      if stringsContains url "set password" then
        ⟨splitAfterFirst '=' url.data⟩ ++ " [REDACTED]"
      else url

/-! ## Sample planner data -/

/-- A builder whose calls all succeed, putting the new node above the input
vertex. -/
def sampleBuilder : LogicalPlanBuilder where
  CreateLimit := fun s v => .ok (QueryNode.LogicalLimit s [v.node])
  CreateAggregate := fun s v => .ok (QueryNode.LogicalAggregate s [] [v.node])
  CreateSlideWindow := fun s v => .ok (QueryNode.LogicalSlidingWindow s [] [v.node])
  CreateInterval := fun s v => .ok (QueryNode.LogicalInterval s [v.node])
  CreateSeriesPlan := fun s => .ok (QueryNode.LogicalSeries s)
  CreateMeasurementPlan := fun s p => .ok (QueryNode.LogicalReader s [p])

/-- The vertex lookup of a DAG that holds the Series, Reader and Exchange nodes
of a plan and no node above them yet. -/
def sampleVertex : QueryNode → Option HeuVertex
  | QueryNode.LogicalSeries s => some ⟨QueryNode.LogicalSeries s⟩
  | QueryNode.LogicalReader s i => some ⟨QueryNode.LogicalReader s i⟩
  | QueryNode.LogicalExchange s t i => some ⟨QueryNode.LogicalExchange s t i⟩
  | _ => none

/-- A schema with a limit and no call. -/
def limitSchema : QuerySchema := { HasLimit := true }

/-- A schema with a pushdown-eligible call that also matches pre-aggregation. -/
def preAggSchema : QuerySchema := { HasCall := true, CanCallsPushdown := true, MatchPreAgg := true }

/-- A schema with a pushdown-eligible call and no ML-operator call. -/
def countSchema : QuerySchema := { HasCall := true, CanCallsPushdown := true }

/-- The call `count(value)`. -/
def countCall : Call := { Name := "count", Args := [Expr.VarRef "value" DataType.Integer] }

/-- An argument rewriting that leaves the calls as they are. -/
def sampleForwardCallArgs : QuerySchema → List Call → List Call := fun _ cs => cs

/-- An Aggregate with `count(value)` directly above an Exchange of type `t`. -/
def countAggAbove (t : ExchangeType) : QueryNode :=
  QueryNode.LogicalAggregate countSchema [countCall]
    [QueryNode.LogicalExchange countSchema t [QueryNode.LogicalReader countSchema []]]

/-! ## Sample catalog data -/

/-- Three shard groups with two shards each, every shard owned by two
partitions. -/
def sampleGroups : List ShardGroupInfo :=
  [⟨1, 0, 100, [⟨11, [0, 1]⟩, ⟨12, [2, 3]⟩]⟩,
   ⟨2, 100, 200, [⟨21, [0, 1]⟩, ⟨22, [2, 3]⟩]⟩,
   ⟨3, 200, 300, [⟨31, [0, 1]⟩, ⟨32, [2, 3]⟩]⟩]

/-- A catalog with one measurement per name (none for the name `absent`), the
three sample groups for every database but `idle`, which has none, partition
`i` owned by node `i`, and data nodes 1 and 3 unreachable because their
partition is not found.  The measurement `cpu` reports `host` both as a field
and as a tag. -/
def sampleMeta : MetaClient where
  Database := fun _ => .ok ⟨⟨[]⟩⟩
  GetMeasurements := fun m => if m.Name = "absent" then .ok [] else .ok [⟨m.Name⟩]
  ShardGroupsByTimeRange := fun db _ _ _ => if db = "idle" then .ok [] else .ok sampleGroups
  GetAliveShards := fun _ _ => []
  GetShardKey := fun _ _ => none
  TargetShards := fun g _ _ _ _ _ => g.Shards
  TargetShardsHintQuery := fun g _ _ _ _ _ => (g.Shards, [])
  Intn := fun k _ => k
  Schema := fun _ _ mst _ =>
    if mst = "cpu" then .ok ⟨some [("usage", 3), ("host", 4)], some ["host", "region"]⟩
    else .ok ⟨some [("value", 1)], some ["host"]⟩
  Since := fun _ _ _ n => n * 1000000000
  RangeOrder := fun _ ks => ks
  DBPtView := fun _ => .ok [⟨0⟩, ⟨1⟩, ⟨2⟩, ⟨3⟩, ⟨4⟩]
  DataNode := fun id =>
    if id = 1 then .error "partition not found: pt 1"
    else if id = 3 then .error "partition not found: pt 3"
    else .ok "127.0.0.1:8400"

/-- The sample catalog with every data node reachable except node 1, whose
connection is reset. -/
def resetMeta : MetaClient :=
  { sampleMeta with
    DataNode := fun id =>
      if id = 1 then .error "read tcp: connection reset by peer" else .ok "127.0.0.1:8400" }

/-- The sample catalog with every partition owned by node 5. -/
def sharedNodeMeta : MetaClient :=
  { sampleMeta with DBPtView := fun _ => .ok [⟨5⟩, ⟨5⟩, ⟨5⟩] }

/-- Sample values of the external constants. -/
def sampleExternals : Externals where
  ErrPartitionNotFound := "partition not found"
  ErrDBPTClose := "partition closing"
  DMLTimeOutSecond := 30
  ToInfluxqlTypes := fun t => if t = 3 then DataType.Float else DataType.Integer

/-- A node-plan builder whose calls all succeed. -/
def sampleNodeBuilder : NodePlanBuilder where
  CreateSeriesPlan := fun _ => .ok (QueryNode.LogicalSeries {})
  CreateMeasurementPlan := fun _ p => .ok (QueryNode.LogicalReader {} [p])
  CreateScanPlan := fun _ p => .ok p
  CreateShardPlan := fun _ p => .ok (QueryNode.LogicalExchange {} ExchangeType.SHARD_EXCHANGE [p])
  CreateNodePlan := fun _ p _ => .ok (QueryNode.LogicalExchange {} ExchangeType.NODE_EXCHANGE [p])

/-- The measurement `mst` of database `db0`, retention policy `rp0`. -/
def sampleMeasurement : Measurement := { Database := "db0", RetentionPolicy := "rp0", Name := "mst" }

/-- A mapping whose entry for `db0`/`rp0` has five partitions with one shard
each. -/
def fivePartitions : ClusterShardMapping :=
  { ShardMap := [(⟨"db0", "rp0"⟩, some [(0, [10]), (1, [11]), (2, [12]), (3, [13]), (4, [14])])] }

/-- A mapping whose entry for `db0`/`rp0` has the partitions 1 and 2. -/
def twoPartitions : ClusterShardMapping :=
  { ShardMap := [(⟨"db0", "rp0"⟩, some [(1, [10]), (2, [20])])] }

/-- The value under an `ok`, and `d` otherwise. -/
def okOr {ε α : Type} (d : α) : Except ε α → α
  | .ok a => a
  | .error _ => d

/-- A measurement of the database `idle`, which has no shard group. -/
def idleMeasurement : Measurement := { Database := "idle", RetentionPolicy := "rp0", Name := "mst" }

/-- The measurement `cpu` of the sample database. -/
def cpuMeasurement : Measurement := { Database := "db0", RetentionPolicy := "rp0", Name := "cpu" }

/-- The sample catalog with the two measurements `m1` and `m2` behind every
source: `host` is a field of `m1` and a tag of `m2`. -/
def crossMeta : MetaClient :=
  { sampleMeta with
    GetMeasurements := fun _ => .ok [⟨"m1"⟩, ⟨"m2"⟩]
    Schema := fun _ _ mst _ =>
      if mst = "m1" then .ok ⟨some [("host", 4)], some []⟩
      else .ok ⟨some [("value", 1)], some ["host"]⟩ }

/-- The sample catalog with a schema service that fails: for `gone` with an
error outside the allow-list, for `down` with a refused connection at every
call, for `flaky` with a broken pipe at the first two calls.  The clock shows
`n` seconds after the `n`-th call. -/
def flakyMeta : MetaClient :=
  { sampleMeta with
    Schema := fun _ _ mst n =>
      if mst = "gone" then .error "measurement not found"
      else if mst = "down" then .error "dial tcp: connection refused"
      else if mst = "flaky" ∧ n < 2 then .error "write: broken pipe"
      else .ok ⟨some [("value", 1)], some ["host"]⟩ }

/-- The sample catalog with a single shard group, from 0 to 100, behind every
database. -/
def oneGroupMeta : MetaClient :=
  { sampleMeta with
    ShardGroupsByTimeRange := fun _ _ _ _ => .ok [⟨1, 0, 100, [⟨11, [0, 1]⟩, ⟨12, [2, 3]⟩]⟩] }

/-- An aggregate-cut and sub-query helper set in which every vertex has a parent
and every expression is of type float. -/
def sampleHelpers : SubQueryHelpers where
  GetParentVertex := fun v => some v
  deriveType := fun _ _ => .ok DataType.Float

/-- The vertex lookup of a DAG that holds every node asked for. -/
def fullVertex : QueryNode → Option HeuVertex := fun n => some ⟨n⟩

/-- A schema with a limit and a call. -/
def limitCallSchema : QuerySchema := { HasLimit := true, HasCall := true }

/-- A schema with a pushdown-eligible ML-operator call, grouping not spanning
all dimensions. -/
def castorSchema : QuerySchema :=
  { HasCall := true, CanCallsPushdown := true, HasCastorCall := true }

/-- A schema with a pushdown-eligible ML-operator call, grouping spanning all
dimensions. -/
def castorAllDimsSchema : QuerySchema :=
  { HasCall := true, CanCallsPushdown := true, HasCastorCall := true, IsGroupByAllDims := true }

/-- A schema of an aggregate that passes the tests `canPush` makes on it. -/
def pushableAggSchema : QuerySchema :=
  { HasCall := true, CanCallsPushdown := true,
    QueryFields := [{ Expr := Expr.Call "max" [Expr.VarRef "v" DataType.Float] }],
    ColumnNames := ["max"] }

/-- A schema of a project with a limit and the field `value AS v`. -/
def limitedProjectSchema : QuerySchema :=
  { HasLimit := true,
    QueryFields := [{ Expr := Expr.VarRef "value" DataType.Float, Alias := "v" }],
    ColumnNames := ["v"] }

/-- An Aggregate above a sub-query above a Project with a limit, bound as the
operand pattern of `AggPushDownToSubQueryRule` binds them. -/
def limitedSubQueryCall : OptRuleCall :=
  ⟨[QueryNode.LogicalAggregate pushableAggSchema []
      [QueryNode.LogicalSubQuery {} [QueryNode.LogicalProject limitedProjectSchema []]],
    QueryNode.LogicalSubQuery {} [QueryNode.LogicalProject limitedProjectSchema []],
    QueryNode.LogicalProject limitedProjectSchema []], fullVertex⟩

/-- An Aggregate with an ML-operator call and grouping over all dimensions,
directly above an Exchange of type `t`. -/
def castorAggAbove (t : ExchangeType) : QueryNode :=
  QueryNode.LogicalAggregate castorAllDimsSchema []
    [QueryNode.LogicalExchange castorAllDimsSchema t []]

/-- A builder whose calls all fail with the error `err`. -/
def failingBuilder (err : String) : LogicalPlanBuilder where
  CreateLimit := fun _ _ => .error err
  CreateAggregate := fun _ _ => .error err
  CreateSlideWindow := fun _ _ => .error err
  CreateInterval := fun _ _ => .error err
  CreateSeriesPlan := fun _ => .error err
  CreateMeasurementPlan := fun _ _ => .error err

/-- A sub-tree comparison that finds the new plan different from the node. -/
def sampleIsSubTreeEqual : QueryNode → QueryNode → Bool := fun _ _ => false

/-- A schema of a project with the field `value AS v` and no limit. -/
def projectSchema : QuerySchema :=
  { QueryFields := [{ Expr := Expr.VarRef "value" DataType.Float, Alias := "v" }],
    ColumnNames := ["v"] }

/-- A binary expression (operator token 0) of the bare variable references `v`
and `w`. -/
def sumOfVarRefs : Expr :=
  Expr.BinaryExpr 0 (Expr.VarRef "v" DataType.Float) (Expr.VarRef "w" DataType.Float)

/-- A binary expression (operator token 0) of `max(v)` and `max(w)`. -/
def sumOfCalls : Expr :=
  Expr.BinaryExpr 0 (Expr.Call "max" [Expr.VarRef "v" DataType.Float])
    (Expr.Call "max" [Expr.VarRef "w" DataType.Float])

/-- The projected fields `a AS b` and `c AS a`, in this order. -/
def chainedFields : List Field :=
  [{ Expr := Expr.VarRef "a" DataType.Float, Alias := "b" },
   { Expr := Expr.VarRef "c" DataType.Float, Alias := "a" }]

/-- A schema of a project with the fields `value AS v` and `v`. -/
def twiceProjectSchema : QuerySchema :=
  { QueryFields := [{ Expr := Expr.VarRef "value" DataType.Float, Alias := "v" },
                    { Expr := Expr.VarRef "v" DataType.Float }],
    ColumnNames := ["v", "v_1"] }

/-- An Aggregate with `max(v)` above a sub-query above the Project with the
fields `value AS v` and `v`. -/
def twiceSubQueryCall : OptRuleCall :=
  ⟨[QueryNode.LogicalAggregate pushableAggSchema []
      [QueryNode.LogicalSubQuery {} [QueryNode.LogicalProject twiceProjectSchema []]],
    QueryNode.LogicalSubQuery {} [QueryNode.LogicalProject twiceProjectSchema []],
    QueryNode.LogicalProject twiceProjectSchema []], fullVertex⟩

/-- The sample catalog with one shard group from 0 to 100 behind the database
`db0` and one from 200 to 300 behind every other database. -/
def twoWindowMeta : MetaClient :=
  { sampleMeta with
    ShardGroupsByTimeRange := fun db _ _ _ =>
      if db = "db0" then .ok [⟨1, 0, 100, [⟨11, [0, 1]⟩]⟩]
      else .ok [⟨2, 200, 300, [⟨21, [2, 3]⟩]⟩] }

/-- The measurement `mst` of database `db1`, retention policy `rp0`. -/
def otherMeasurement : Measurement := { Database := "db1", RetentionPolicy := "rp0", Name := "mst" }

/-- The catalog `crossMeta` with a schema service that fails for `m2`. -/
def halfMeta : MetaClient :=
  { crossMeta with
    Schema := fun _ _ mst _ =>
      if mst = "m1" then .ok ⟨some [("host", 4)], some []⟩
      else .error "measurement not found" }

/-! ## Properties of the rewrite rules -/

/-- No call named `count` is left by `CountToSum`. -/
theorem CountToSum_no_count (calls : List Call) :
    ∀ c ∈ LogicalAggregate.CountToSum calls, c.Name ≠ "count" := by
  intro c hc
  simp only [LogicalAggregate.CountToSum, List.mem_map] at hc
  obtain ⟨d, _, rfl⟩ := hc
  by_cases h : d.Name = "count"
  · simp [h]
  · simp [h]

/-- The calls keep their number and their arguments under `CountToSum`. -/
theorem CountToSum_args (calls : List Call) :
    (LogicalAggregate.CountToSum calls).map Call.Args = calls.map Call.Args := by
  simp only [LogicalAggregate.CountToSum, List.map_map]
  apply List.map_congr_left
  intro c _
  by_cases h : c.Name = "count" <;> simp [h]

/-- C1: on a LogicalExchange of type NODE_EXCHANGE or SERIES_EXCHANGE,
`LimitPushdownToExchangeRule.OnMatch` returns without issuing any planner
operation (no `TransformTo`, DAG untouched), whatever `HasLimit` and `HasCall`
are and whatever the builder and the DAG lookup do. -/
theorem LimitPushdownToExchangeRule_declines_node_series
    (b : LogicalPlanBuilder) (call : OptRuleCall)
    (schema : QuerySchema) (eType : ExchangeType) (inputs : List QueryNode)
    (hNode : call.Node 0 = some (QueryNode.LogicalExchange schema eType inputs))
    (hType : eType = ExchangeType.NODE_EXCHANGE ∨ eType = ExchangeType.SERIES_EXCHANGE) :
    LimitPushdownToExchangeRule.OnMatch b call = .ok [] := by
  unfold LimitPushdownToExchangeRule.OnMatch
  rw [hNode]
  rcases hType with h | h <;> subst h <;> simp

/-- Witness of C1: a node-level Exchange with a limit and no call is declined. -/
theorem LimitPushdownToExchangeRule_declines_node_series_witness :
    limitSchema.HasLimit = true ∧ limitSchema.HasCall = false ∧
    LimitPushdownToExchangeRule.OnMatch sampleBuilder
      ⟨[QueryNode.LogicalExchange limitSchema ExchangeType.NODE_EXCHANGE []], sampleVertex⟩
      = .ok [] :=
  ⟨rfl, rfl, LimitPushdownToExchangeRule_declines_node_series sampleBuilder
    ⟨[QueryNode.LogicalExchange limitSchema ExchangeType.NODE_EXCHANGE []], sampleVertex⟩
    limitSchema ExchangeType.NODE_EXCHANGE [] rfl (Or.inl rfl)⟩

/-- C2, refuted as stated: with `MatchPreAgg` true, `AggPushdownToExchangeRule`
(on a shard-level Exchange) and `AggPushdownToSeriesRule` both hand a new
Aggregate to `TransformTo`. -/
theorem AggPushdown_MatchPreAgg_counterexample :
    preAggSchema.MatchPreAgg = true ∧
    AggPushdownToExchangeRule.OnMatch sampleBuilder
      ⟨[QueryNode.LogicalExchange preAggSchema ExchangeType.SHARD_EXCHANGE []], sampleVertex⟩
      = .ok [PlannerOp.TransformTo (QueryNode.LogicalAggregate preAggSchema []
          [QueryNode.LogicalExchange preAggSchema ExchangeType.SHARD_EXCHANGE []])] ∧
    AggPushdownToSeriesRule.OnMatch sampleBuilder
      ⟨[QueryNode.LogicalSeries preAggSchema], sampleVertex⟩
      = .ok [PlannerOp.TransformTo (QueryNode.LogicalAggregate preAggSchema []
          [QueryNode.LogicalSeries preAggSchema])] :=
  ⟨rfl, rfl, rfl⟩

/-- C2, amended: `AggPushdownToReaderRule.OnMatch` issues no planner operation on
a Reader whose schema has `MatchPreAgg` true, whatever the switches, the builder
and the DAG lookup are.  `AggPushdownToExchangeRule` and
`AggPushdownToSeriesRule` do not consult `MatchPreAgg`: once their own guards
pass and the built Aggregate is new to the DAG, they hand it to `TransformTo`,
be `MatchPreAgg` true or false. -/
theorem AggPushdownToReaderRule_declines_MatchPreAgg
    (sw : RuleSwitches) (b : LogicalPlanBuilder) (call : OptRuleCall)
    (schema : QuerySchema) (inputs : List QueryNode)
    (hNode : call.Node 0 = some (QueryNode.LogicalReader schema inputs))
    (hPre : schema.MatchPreAgg = true) :
    AggPushdownToReaderRule.OnMatch sw b call = .ok [] ∧
    (∀ (c : OptRuleCall) (s : QuerySchema) (eType : ExchangeType) (ins : List QueryNode)
        (vertex : HeuVertex) (node : QueryNode),
      c.Node 0 = some (QueryNode.LogicalExchange s eType ins) →
      s.HasCall = true → s.CanCallsPushdown = true →
      eType ≠ ExchangeType.NODE_EXCHANGE → eType ≠ ExchangeType.SERIES_EXCHANGE →
      (s.HasCastorCall = false ∨ s.IsGroupByAllDims = true) →
      c.Vertex (QueryNode.LogicalExchange s eType ins) = some vertex →
      b.CreateAggregate s vertex = .ok node → c.Vertex node = none →
      AggPushdownToExchangeRule.OnMatch b c = .ok [PlannerOp.TransformTo node]) ∧
    (∀ (c : OptRuleCall) (s : QuerySchema) (vertex : HeuVertex) (node : QueryNode),
      c.Node 0 = some (QueryNode.LogicalSeries s) →
      s.HasCall = true → s.CanCallsPushdown = true → s.ContainSeriesIgnoreCall = false →
      c.Vertex (QueryNode.LogicalSeries s) = some vertex →
      b.CreateAggregate s vertex = .ok node → c.Vertex node = none →
      AggPushdownToSeriesRule.OnMatch b c = .ok [PlannerOp.TransformTo node]) := by
  refine ⟨?_, ?_, ?_⟩
  · unfold AggPushdownToReaderRule.OnMatch
    rw [hNode]
    simp [hPre]
  · intro c s eType ins vertex node hN hCall hPush hT1 hT2 hCastor hV hB hNew
    unfold AggPushdownToExchangeRule.OnMatch
    rw [hN]
    have hC : (s.HasCastorCall && !s.IsGroupByAllDims) = false := by
      rcases hCastor with h | h <;> simp [h]
    cases eType <;>
      simp_all [transformUnlessPresent]
  · intro c s vertex node hN hCall hPush hIgn hV hB hNew
    unfold AggPushdownToSeriesRule.OnMatch
    rw [hN]
    simp [hCall, hPush, hIgn, hV, hB, hNew, transformUnlessPresent]

/-- Witness of the amended C2: a Reader with a pushdown-eligible call that
matches pre-aggregation is declined. -/
theorem AggPushdownToReaderRule_declines_MatchPreAgg_witness :
    AggPushdownToReaderRule.OnMatch {} sampleBuilder
      ⟨[QueryNode.LogicalReader preAggSchema []], sampleVertex⟩ = .ok [] :=
  (AggPushdownToReaderRule_declines_MatchPreAgg {} sampleBuilder
    ⟨[QueryNode.LogicalReader preAggSchema []], sampleVertex⟩ preAggSchema [] rfl rfl).1

/-- C3, refuted as stated: an Aggregate with a COUNT call directly above a
NODE_EXCHANGE is spread; `TransformTo` receives the clone with `count` turned
into `sum`. -/
theorem AggSpreadToExchangeRule_node_counterexample :
    AggSpreadToExchangeRule.OnMatch sampleForwardCallArgs
      ⟨[countAggAbove ExchangeType.NODE_EXCHANGE], sampleVertex⟩
      = .ok [PlannerOp.TransformTo (QueryNode.LogicalAggregate countSchema
          [{ Name := "sum", Args := [Expr.VarRef "value" DataType.Integer] }]
          [QueryNode.LogicalExchange countSchema ExchangeType.NODE_EXCHANGE
            [QueryNode.LogicalReader countSchema []]])] := by
  rfl

/-- C3, amended: `AggSpreadToExchangeRule.OnMatch` never looks at the type of
the Exchange below the Aggregate.  Above an Exchange of any type it issues no
planner operation exactly when the schema has no call, calls that are not
pushdown-eligible, or an ML-operator call; otherwise it calls `TransformTo` once
with the rewritten clone. -/
theorem AggSpreadToExchangeRule_any_exchange_type
    (fwd : QuerySchema → List Call → List Call) (call : OptRuleCall)
    (schema : QuerySchema) (calls : List Call)
    (es : QuerySchema) (eType : ExchangeType) (eInputs : List QueryNode) :
    call.Node 0 = some (QueryNode.LogicalAggregate schema calls
        [QueryNode.LogicalExchange es eType eInputs]) →
    AggSpreadToExchangeRule.OnMatch fwd call =
      if schema.HasCall = false ∨ schema.CanCallsPushdown = false ∨ schema.HasCastorCall = true
      then .ok []
      else .ok [PlannerOp.TransformTo (QueryNode.LogicalAggregate schema
        (LogicalAggregate.CountToSum (fwd schema calls))
        [QueryNode.LogicalExchange es eType eInputs])] := by
  intro hNode
  unfold AggSpreadToExchangeRule.OnMatch
  rw [hNode]
  cases h1 : schema.HasCall <;> cases h2 : schema.CanCallsPushdown <;>
    cases h3 : schema.HasCastorCall <;> simp [h1, h2, h3, LogicalAggregate.Clone]

/-- Witness of the amended C3, at the COUNT aggregate above a NODE_EXCHANGE. -/
theorem AggSpreadToExchangeRule_any_exchange_type_witness :
    AggSpreadToExchangeRule.OnMatch sampleForwardCallArgs
      ⟨[countAggAbove ExchangeType.NODE_EXCHANGE], sampleVertex⟩ =
      if countSchema.HasCall = false ∨ countSchema.CanCallsPushdown = false ∨
          countSchema.HasCastorCall = true
      then .ok []
      else .ok [PlannerOp.TransformTo (QueryNode.LogicalAggregate countSchema
        (LogicalAggregate.CountToSum (sampleForwardCallArgs countSchema [countCall]))
        [QueryNode.LogicalExchange countSchema ExchangeType.NODE_EXCHANGE
          [QueryNode.LogicalReader countSchema []]])] :=
  AggSpreadToExchangeRule_any_exchange_type sampleForwardCallArgs
    ⟨[countAggAbove ExchangeType.NODE_EXCHANGE], sampleVertex⟩ countSchema [countCall]
    countSchema ExchangeType.NODE_EXCHANGE [QueryNode.LogicalReader countSchema []] rfl

/-- C4: for an Aggregate directly above a READER_EXCHANGE whose schema has calls
that are pushdown-eligible and no ML-operator call,
`AggSpreadToExchangeRule.OnMatch` issues exactly one planner operation, a
`TransformTo` whose argument is the clone of the Aggregate (same schema, same
inputs) with `ForwardCallArgs` and then `CountToSum` applied to its calls; no
call named `count` is left in it and the arguments are those `ForwardCallArgs`
produced. -/
theorem AggSpreadToExchangeRule_spreads_above_reader_exchange
    (fwd : QuerySchema → List Call → List Call) (call : OptRuleCall)
    (schema : QuerySchema) (calls : List Call)
    (es : QuerySchema) (eInputs : List QueryNode)
    (hNode : call.Node 0 = some (QueryNode.LogicalAggregate schema calls
        [QueryNode.LogicalExchange es ExchangeType.READER_EXCHANGE eInputs]))
    (hCall : schema.HasCall = true) (hPush : schema.CanCallsPushdown = true)
    (hCastor : schema.HasCastorCall = false) :
    AggSpreadToExchangeRule.OnMatch fwd call =
      .ok [PlannerOp.TransformTo (QueryNode.LogicalAggregate schema
        (LogicalAggregate.CountToSum (fwd schema calls))
        [QueryNode.LogicalExchange es ExchangeType.READER_EXCHANGE eInputs])] ∧
    (∀ c ∈ LogicalAggregate.CountToSum (fwd schema calls), c.Name ≠ "count") ∧
    (LogicalAggregate.CountToSum (fwd schema calls)).map Call.Args
      = (fwd schema calls).map Call.Args := by
  refine ⟨?_, CountToSum_no_count _, CountToSum_args _⟩
  unfold AggSpreadToExchangeRule.OnMatch
  rw [hNode]
  simp [hCall, hPush, hCastor, LogicalAggregate.Clone]

/-- Witness of C4: the COUNT aggregate above a READER_EXCHANGE. -/
theorem AggSpreadToExchangeRule_spreads_above_reader_exchange_witness :
    AggSpreadToExchangeRule.OnMatch sampleForwardCallArgs
      ⟨[countAggAbove ExchangeType.READER_EXCHANGE], sampleVertex⟩ =
      .ok [PlannerOp.TransformTo (QueryNode.LogicalAggregate countSchema
        (LogicalAggregate.CountToSum (sampleForwardCallArgs countSchema [countCall]))
        [QueryNode.LogicalExchange countSchema ExchangeType.READER_EXCHANGE
          [QueryNode.LogicalReader countSchema []]])] :=
  (AggSpreadToExchangeRule_spreads_above_reader_exchange sampleForwardCallArgs
    ⟨[countAggAbove ExchangeType.READER_EXCHANGE], sampleVertex⟩ countSchema [countCall]
    countSchema [QueryNode.LogicalReader countSchema []] rfl rfl rfl rfl).1

/-! ## Properties of `CreateLogicalPlan` -/

/-- The options apart from `Sources` do not change what a task builds: the task
overwrites `Sources` before it uses them. -/
theorem runTask_sources_irrelevant (mc : MetaClient) (ctx : QueryContext)
    (srcMap : List (Nat × List InfluxSource)) (opts : ProcessorOptions)
    (srcs : Option (List InfluxSource)) (t : Task) :
    runTask mc ctx srcMap { opts with Sources := srcs } t = runTask mc ctx srcMap opts t := by
  unfold runTask makeRemoteQuery
  split <;> rfl

/-- The error scan returns the first collected error that contains the
partition-not-found text. -/
theorem firstFatal_eq_find (x : Externals) (errs : List Error) :
    firstFatal x errs = errs.find? fun e => stringsContains e x.ErrPartitionNotFound := by
  induction errs with
  | nil => rfl
  | cons e rest ih =>
    unfold firstFatal
    by_cases h : stringsContains e x.ErrPartitionNotFound = true
    · simp [h]
    · simp [h, ih]

/-- What the tasks leave behind: the errors of the failed tasks and the leaves
of the successful ones, each in arrival order, after what was there before. -/
theorem gather_collects (mc : MetaClient) (ctx : QueryContext)
    (srcMap : List (Nat × List InfluxSource)) (opts : ProcessorOptions) :
    ∀ (ts : List Task) (g0 g : Gathered),
      (∃ srcs, g0.opts = { opts with Sources := srcs }) →
      gather mc ctx srcMap ts g0 = .ok g →
      g.errs = g0.errs ++ ts.filterMap (fun t => taskError (runTask mc ctx srcMap opts t)) ∧
      g.eTraits = g0.eTraits ++ ts.filterMap (fun t => taskLeaf (runTask mc ctx srcMap opts t)) ∧
      ∃ srcs, g.opts = { opts with Sources := srcs } := by
  intro ts
  induction ts with
  | nil =>
    intro g0 g h0 h
    simp only [gather, Except.ok.injEq] at h
    subst h
    simp [h0]
  | cons t rest ih =>
    intro g0 g h0 h
    obtain ⟨srcs, hs⟩ := h0
    have hrun : runTask mc ctx srcMap g0.opts t = runTask mc ctx srcMap opts t := by
      rw [hs]; exact runTask_sources_irrelevant mc ctx srcMap opts srcs t
    unfold gather at h
    rw [hrun] at h
    cases hr : runTask mc ctx srcMap opts t with
    | error f =>
      rw [hr] at h
      cases f with
      | error err =>
        simp only at h
        obtain ⟨h1, h2, h3⟩ := ih _ g (by exact ⟨srcs, hs⟩) h
        refine ⟨?_, ?_, h3⟩
        · simp [h1, List.filterMap_cons, hr, taskError]
        · simp [h2, List.filterMap_cons, hr, taskLeaf]
      | panicked msg => simp at h
      | outOfFuel => simp at h
    | ok rq =>
      rw [hr] at h
      simp only at h
      obtain ⟨h1, h2, h3⟩ := ih _ g
        (by exact ⟨some ((GoMap.get srcMap t.ptID).getD []), by simp [hs]⟩) h
      refine ⟨?_, ?_, h3⟩
      · simp [h1, List.filterMap_cons, hr, taskError]
      · simp [h2, List.filterMap_cons, hr, taskLeaf]

/-- C5, refuted as stated: one task fails with a connection reset, which does
not contain the partition-not-found text, and four succeed; the plan builder
then fails at `CreateNodePlan`, and the call fails with the error of the
builder although no task error contains the text. -/
theorem CreateLogicalPlan_builder_error_counterexample :
    (okOr { opts := {} } (gather resetMeta {}
        (okOr {} (groupSources resetMeta fivePartitions
          [InfluxSource.Measurement sampleMeasurement] {})).sourcesMapByPtId
        (List.reverse (launchTasks (okOr {} (groupSources resetMeta fivePartitions
          [InfluxSource.Measurement sampleMeasurement] {})).shardsMapByNode))
        { opts := clampTimes fivePartitions (recordQuery {} {}) })).errs
      = ["read tcp: connection reset by peer"] ∧
    stringsContains "read tcp: connection reset by peer"
      sampleExternals.ErrPartitionNotFound = false ∧
    CreateLogicalPlan resetMeta sampleExternals
        { sampleNodeBuilder with CreateNodePlan := fun _ _ _ => .error "no node plan" }
        List.reverse fivePartitions {} [InfluxSource.Measurement sampleMeasurement] {}
      = .error (Fault.error "no node plan") :=
  ⟨by decide, by decide, rfl⟩

/-- C5, amended: once the fan-out of `CreateLogicalPlan` is over, with `errs` the
errors of the failed tasks and `eTraits` the leaves of the successful tasks,
both in arrival order: the call returns at the error check exactly when some
collected error contains the partition-not-found text, and then with a nil plan
and the first such error, whatever leaves were collected.  When no collected
error contains the text the errors play no further part: the call returns a nil
plan with a nil error when the options hold no sources, and otherwise makes the
five builder calls in turn, the last of them `CreateNodePlan` on exactly the
collected leaves, and fails with the error of the first builder call that
fails.  Where the five builder calls succeed, the call as a whole fails if and
only if some collected error contains the text. -/
theorem CreateLogicalPlan_partition_not_found
    (mc : MetaClient) (x : Externals) (b : NodePlanBuilder) (arrival : List Task → List Task)
    (csm : ClusterShardMapping) (ctx : QueryContext) (sources : List InfluxSource)
    (opts : ProcessorOptions) (grouping : Grouping) (g : Gathered)
    (hGroup : groupSources mc csm sources {} = .ok grouping)
    (hGather : gather mc ctx grouping.sourcesMapByPtId
        (arrival (launchTasks grouping.shardsMapByNode))
        { opts := clampTimes csm (recordQuery ctx opts) } = .ok g) :
    (g.errs = (arrival (launchTasks grouping.shardsMapByNode)).filterMap
        (fun t => taskError (runTask mc ctx grouping.sourcesMapByPtId
          (clampTimes csm (recordQuery ctx opts)) t))) ∧
    (g.eTraits = (arrival (launchTasks grouping.shardsMapByNode)).filterMap
        (fun t => taskLeaf (runTask mc ctx grouping.sourcesMapByPtId
          (clampTimes csm (recordQuery ctx opts)) t))) ∧
    ((∃ err, CreateLogicalPlan mc x b arrival csm ctx sources opts = .error (Fault.error err) ∧
        g.errs.find? (fun e => stringsContains e x.ErrPartitionNotFound) = some err) ↔
      ∃ e ∈ g.errs, stringsContains e x.ErrPartitionNotFound = true) ∧
    ((∀ e ∈ g.errs, stringsContains e x.ErrPartitionNotFound = false) →
      CreateLogicalPlan mc x b arrival csm ctx sources opts =
        match g.opts.Sources with
        | none => .ok none
        | some _ =>
          match b.CreateSeriesPlan g.opts with
          | .error pErr => .error (Fault.error pErr)
          | .ok series =>
            match b.CreateMeasurementPlan g.opts series with
            | .error pErr => .error (Fault.error pErr)
            | .ok reader =>
              match b.CreateScanPlan g.opts reader with
              | .error pErr => .error (Fault.error pErr)
              | .ok scan =>
                match b.CreateShardPlan g.opts scan with
                | .error pErr => .error (Fault.error pErr)
                | .ok shard =>
                  match b.CreateNodePlan g.opts shard g.eTraits with
                  | .error pErr => .error (Fault.error pErr)
                  | .ok plan => .ok (some plan)) ∧
    ((∃ series reader scan shard plan, b.CreateSeriesPlan g.opts = .ok series ∧
        b.CreateMeasurementPlan g.opts series = .ok reader ∧
        b.CreateScanPlan g.opts reader = .ok scan ∧
        b.CreateShardPlan g.opts scan = .ok shard ∧
        b.CreateNodePlan g.opts shard g.eTraits = .ok plan) →
      ((∃ f, CreateLogicalPlan mc x b arrival csm ctx sources opts = .error f) ↔
        ∃ e ∈ g.errs, stringsContains e x.ErrPartitionNotFound = true)) := by
  have hG := gather_collects mc ctx grouping.sourcesMapByPtId (clampTimes csm (recordQuery ctx opts))
    _ _ g ⟨(clampTimes csm (recordQuery ctx opts)).Sources, rfl⟩ hGather
  have hCLP : CreateLogicalPlan mc x b arrival csm ctx sources opts = afterFanOut x b g := by
    unfold CreateLogicalPlan
    simp only [hGroup, hGather]
  have hFatal : (∃ e ∈ g.errs, stringsContains e x.ErrPartitionNotFound = true) →
      ∃ err, CreateLogicalPlan mc x b arrival csm ctx sources opts = .error (Fault.error err) ∧
        g.errs.find? (fun e => stringsContains e x.ErrPartitionNotFound) = some err := by
    rintro ⟨e, he, hc⟩
    cases hf : g.errs.find? (fun e => stringsContains e x.ErrPartitionNotFound) with
    | none =>
      rw [List.find?_eq_none] at hf
      exact absurd hc (by simpa using hf e he)
    | some err =>
      refine ⟨err, ?_, rfl⟩
      rw [hCLP]
      unfold afterFanOut
      rw [firstFatal_eq_find, hf]
  have hNone : (∀ e ∈ g.errs, stringsContains e x.ErrPartitionNotFound = false) →
      CreateLogicalPlan mc x b arrival csm ctx sources opts =
        match g.opts.Sources with
        | none => .ok none
        | some _ => buildLayers b g.opts g.eTraits := by
    intro hnone
    rw [hCLP]
    unfold afterFanOut
    have : firstFatal x g.errs = none := by
      rw [firstFatal_eq_find, List.find?_eq_none]
      intro e he
      simp [hnone e he]
    rw [this]
  refine ⟨by simpa using hG.1, by simpa using hG.2.1, ?_, ?_, ?_⟩
  · constructor
    · rintro ⟨err, _, hfind⟩
      exact ⟨err, List.mem_of_find?_eq_some hfind, by simpa using List.find?_some hfind⟩
    · exact hFatal
  · intro hnone
    rw [hNone hnone]
    cases g.opts.Sources <;> rfl
  · rintro ⟨series, reader, scan, shard, plan, h1, h2, h3, h4, h5⟩
    have hplan : buildLayers b g.opts g.eTraits = .ok (some plan) := by
      simp [buildLayers, h1, h2, h3, h4, h5]
    constructor
    · rintro ⟨f, hf⟩
      by_contra hno
      have hall : ∀ e ∈ g.errs, stringsContains e x.ErrPartitionNotFound = false := by
        intro e he
        cases hc : stringsContains e x.ErrPartitionNotFound with
        | false => rfl
        | true => exact absurd ⟨e, he, hc⟩ hno
      rw [hNone hall] at hf
      cases hsrc : g.opts.Sources with
      | none => simp [hsrc] at hf
      | some v => simp [hsrc, hplan] at hf
    · intro h
      obtain ⟨err, herr, _⟩ := hFatal h
      exact ⟨_, herr⟩

/-- Witness of the amended C5.  Scenario C: five tasks arriving in reverse order
of launch, the tasks for nodes 1 and 3 fail with a partition-not-found error
and three succeed; the call fails with the error of node 3, the first to
arrive.  Scenario D: the one failed task has a connection reset, and the call
goes on through the five builder calls to the plan. -/
theorem CreateLogicalPlan_partition_not_found_witness :
    (∃ err, CreateLogicalPlan sampleMeta sampleExternals sampleNodeBuilder List.reverse
        fivePartitions {} [InfluxSource.Measurement sampleMeasurement] {}
        = .error (Fault.error err) ∧
      (okOr { opts := {} } (gather sampleMeta {}
          (okOr {} (groupSources sampleMeta fivePartitions
            [InfluxSource.Measurement sampleMeasurement] {})).sourcesMapByPtId
          (List.reverse (launchTasks (okOr {} (groupSources sampleMeta fivePartitions
            [InfluxSource.Measurement sampleMeasurement] {})).shardsMapByNode))
          { opts := clampTimes fivePartitions (recordQuery {} {}) })).errs.find?
        (fun e => stringsContains e sampleExternals.ErrPartitionNotFound) = some err) ∧
    CreateLogicalPlan resetMeta sampleExternals sampleNodeBuilder List.reverse
        fivePartitions {} [InfluxSource.Measurement sampleMeasurement] {}
      = .ok (some (QueryNode.LogicalExchange {} ExchangeType.NODE_EXCHANGE
          [QueryNode.LogicalExchange {} ExchangeType.SHARD_EXCHANGE
            [QueryNode.LogicalReader {} [QueryNode.LogicalSeries {}]]])) :=
  ⟨(CreateLogicalPlan_partition_not_found sampleMeta sampleExternals sampleNodeBuilder
    List.reverse fivePartitions {} [InfluxSource.Measurement sampleMeasurement] {}
    (okOr {} (groupSources sampleMeta fivePartitions
      [InfluxSource.Measurement sampleMeasurement] {}))
    (okOr { opts := {} } (gather sampleMeta {}
      (okOr {} (groupSources sampleMeta fivePartitions
        [InfluxSource.Measurement sampleMeasurement] {})).sourcesMapByPtId
      (List.reverse (launchTasks (okOr {} (groupSources sampleMeta fivePartitions
        [InfluxSource.Measurement sampleMeasurement] {})).shardsMapByNode))
      { opts := clampTimes fivePartitions (recordQuery {} {}) }))
    rfl rfl).2.2.1.mpr ⟨"partition not found: pt 3", by decide, by decide⟩,
   (CreateLogicalPlan_partition_not_found resetMeta sampleExternals sampleNodeBuilder
    List.reverse fivePartitions {} [InfluxSource.Measurement sampleMeasurement] {}
    (okOr {} (groupSources resetMeta fivePartitions
      [InfluxSource.Measurement sampleMeasurement] {}))
    (okOr { opts := {} } (gather resetMeta {}
      (okOr {} (groupSources resetMeta fivePartitions
        [InfluxSource.Measurement sampleMeasurement] {})).sourcesMapByPtId
      (List.reverse (launchTasks (okOr {} (groupSources resetMeta fivePartitions
        [InfluxSource.Measurement sampleMeasurement] {})).shardsMapByNode))
      { opts := clampTimes fivePartitions (recordQuery {} {}) }))
    rfl rfl).2.2.2.1 (by decide)⟩

/-- Scenario C evaluated: the error returned is that of node 3. -/
theorem CreateLogicalPlan_scenario_C :
    CreateLogicalPlan sampleMeta sampleExternals sampleNodeBuilder List.reverse
        fivePartitions {} [InfluxSource.Measurement sampleMeasurement] {}
      = .error (Fault.error "partition not found: pt 3") := by
  rfl

/-- Scenario D evaluated: one task fails with a connection reset and four
succeed; the call returns the plan built from the four leaves. -/
theorem CreateLogicalPlan_scenario_D :
    CreateLogicalPlan resetMeta sampleExternals sampleNodeBuilder List.reverse
        fivePartitions {} [InfluxSource.Measurement sampleMeasurement] {}
      = .ok (some (QueryNode.LogicalExchange {} ExchangeType.NODE_EXCHANGE
          [QueryNode.LogicalExchange {} ExchangeType.SHARD_EXCHANGE
            [QueryNode.LogicalReader {} [QueryNode.LogicalSeries {}]]])) := by
  rfl

/-- C6, the code at a failing input: the entry of the source has the partitions
1 and 2, both owned by node 5.  Only the partition visited first gets a task,
in either visiting order; the other one is left without. -/
theorem CreateLogicalPlan_shared_node_drops_partition :
    (groupSources sharedNodeMeta twoPartitions
        [InfluxSource.Measurement sampleMeasurement] {}).map
      (fun g => launchTasks g.shardsMapByNode) = .ok [⟨5, 1, [10]⟩] ∧
    (groupSources sharedNodeMeta
        { ShardMap := [(⟨"db0", "rp0"⟩, some [(2, [20]), (1, [10])])] }
        [InfluxSource.Measurement sampleMeasurement] {}).map
      (fun g => launchTasks g.shardsMapByNode) = .ok [⟨5, 2, [20]⟩] :=
  ⟨rfl, rfl⟩

/-! ## Properties of `MapShards` -/

/-- Appending `v` to the list under `k` adds `v` once to the values of the map. -/
theorem GoMap_append_flat {K : Type} [DecidableEq K] (m : List (K × List Nat)) (k : K) (v : Nat) :
    ((GoMap.set m k ((GoMap.get m k).getD [] ++ [v])).flatMap Prod.snd).Perm
      (m.flatMap Prod.snd ++ [v]) := by
  induction m with
  | nil => simp [GoMap.set, GoMap.get]
  | cons e rest ih =>
    obtain ⟨k0, v0⟩ := e
    by_cases h : k0 = k
    · subst h
      simp [GoMap.set, GoMap.get, List.find?]
      exact (List.perm_append_singleton v (rest.flatMap Prod.snd)).symm.append_left v0
    · have hget : GoMap.get ((k0, v0) :: rest) k = GoMap.get rest k := by
        simp [GoMap.get, List.find?, h]
      rw [hget]
      simp only [GoMap.set, h, if_false, List.flatMap_cons, List.append_assoc]
      exact ih.append_left _

/-- The shard ids after the loop over `shs` are those before it together with
the id of every shard that has an owner, each added once. -/
theorem assignShards_flat (mc : MetaClient) :
    ∀ (shs : List ShardInfo) (acc : PtShards × Nat),
      ((assignShards mc shs acc).1.flatMap Prod.snd).Perm
        (acc.1.flatMap Prod.snd ++
          (shs.filter fun sh => decide (sh.Owners.length > 0)).map ShardInfo.ID) := by
  intro shs
  induction shs with
  | nil => intro acc; simp [assignShards]
  | cons sh rest ih =>
    intro acc
    obtain ⟨m, d⟩ := acc
    unfold assignShards
    by_cases h : sh.Owners.length > 0
    · simp only [h, if_true, List.filter_cons, decide_True, List.map_cons]
      refine (ih _).trans ?_
      simp only
      refine ((GoMap_append_flat m _ sh.ID).append_right _).trans ?_
      simp
    · simp only [h, if_false, List.filter_cons, decide_False]
      exact ih _

/-- The shard ids after the loop over the groups are those before it together
with the id of every looked-up shard that has an owner, each added once. -/
theorem groupLoop_flat (mc : MetaClient) (s : Measurement) (m0 : MeasurementInfo)
    (condition : Option Expr) (opt : SelectOptions) :
    ∀ (groups : List ShardGroupInfo) (i : Nat) (st : GroupLoop),
      ((groupLoop mc s m0 condition opt groups i st).shardIDsByPtID.flatMap Prod.snd).Perm
        (st.shardIDsByPtID.flatMap Prod.snd ++
          ((targetedShards mc s m0 condition opt groups st.shardKeyInfo st.SeriesKey).filter
            fun sh => decide (sh.Owners.length > 0)).map ShardInfo.ID) := by
  intro groups
  induction groups with
  | nil => intro i st; simp [groupLoop, targetedShards]
  | cons g rest ih =>
    intro i st
    unfold groupLoop targetedShards
    refine (ih _ _).trans ?_
    simp only [List.filter_append, List.map_append, ← List.append_assoc]
    exact (assignShards_flat mc _ _).append_right _

/-- The shard ids that `MapShards` stores for a single measurement source are
the ids of the looked-up shards that have an owner, each once. -/
theorem MapShards_single_flat (mc : MetaClient) (s : Measurement) (t : TimeRange)
    (opt : SelectOptions) (condition : Option Expr) (a : ClusterShardMapping)
    (hOk : MapShards mc [InfluxSource.Measurement s] t opt condition = .ok a) :
    (a.shardIDs ⟨s.Database, s.RetentionPolicy⟩).Perm
      (((lookedUpShards mc s t opt condition).filter
        fun sh => decide (sh.Owners.length > 0)).map ShardInfo.ID) := by
  unfold MapShards at hOk
  simp only [mapShards, mapShardsSource, mapMeasurement] at hOk
  unfold lookedUpShards
  cases hdb : mc.Database s.Database with
  | error e => simp [hdb] at hOk
  | ok dbi =>
    cases hms : mc.GetMeasurements s with
    | error e => simp [hdb, hms] at hOk
    | ok ms =>
      cases ms with
      | nil =>
        simp [hdb, hms] at hOk
        subst hOk
        simp [ClusterShardMapping.shardIDs, ClusterShardMapping.shardMapAt, GoMap.get]
      | cons m0 ms =>
        cases hg : mc.ShardGroupsByTimeRange s.Database s.RetentionPolicy t.Min t.Max with
        | error e => simp [hdb, hms, hg, GoMap.get] at hOk
        | ok groups =>
          cases groups with
          | nil =>
            simp [hdb, hms, hg, GoMap.get, GoMap.set] at hOk
            subst hOk
            simp [ClusterShardMapping.shardIDs, ClusterShardMapping.shardMapAt, GoMap.get,
              targetedShards]
          | cons g gs =>
            simp [hdb, hms, hg, GoMap.get, GoMap.set] at hOk
            subst hOk
            simp only [ClusterShardMapping.shardIDs, ClusterShardMapping.shardMapAt, GoMap.get,
              List.find?, decide_True, Option.map_some', Option.bind_some, id, Option.getD_some]
            have h := groupLoop_flat mc s m0 condition opt (g :: gs) 0
              { ShardsTimeRage := ⟨zeroTime, zeroTime⟩,
                shardKeyInfo := if dbi.ShardKey.ShardKey.length > 0 then some dbi.ShardKey else none,
                SeriesKey := [], shardIDsByPtID := [], draws := 0 }
            simpa using h

/-- C7: for a single measurement source, if every shard returned by the
target-shard lookups of its overlapping shard groups has an owner and the shard
ids are pairwise distinct, then after `MapShards` the shard lists of the
source's partitions hold, taken together, exactly those shard ids, each of them
once, whatever `rand.Intn` returns. -/
theorem MapShards_lists_each_shard_once (mc : MetaClient) (s : Measurement) (t : TimeRange)
    (opt : SelectOptions) (condition : Option Expr) (a : ClusterShardMapping)
    (hOk : MapShards mc [InfluxSource.Measurement s] t opt condition = .ok a)
    (hOwners : ∀ sh ∈ lookedUpShards mc s t opt condition, sh.Owners ≠ [])
    (hDistinct : ((lookedUpShards mc s t opt condition).map ShardInfo.ID).Nodup) :
    (a.shardIDs ⟨s.Database, s.RetentionPolicy⟩).Perm
      ((lookedUpShards mc s t opt condition).map ShardInfo.ID) ∧
    (∀ id ∈ (lookedUpShards mc s t opt condition).map ShardInfo.ID,
      (a.shardIDs ⟨s.Database, s.RetentionPolicy⟩).count id = 1) ∧
    (∀ id, id ∉ (lookedUpShards mc s t opt condition).map ShardInfo.ID →
      (a.shardIDs ⟨s.Database, s.RetentionPolicy⟩).count id = 0) := by
  have hflat := MapShards_single_flat mc s t opt condition a hOk
  have hfilter : (lookedUpShards mc s t opt condition).filter
      (fun sh => decide (sh.Owners.length > 0)) = lookedUpShards mc s t opt condition := by
    rw [List.filter_eq_self]
    intro sh hsh
    have := hOwners sh hsh
    simpa [List.length_pos] using this
  rw [hfilter] at hflat
  refine ⟨hflat, ?_, ?_⟩
  · intro id hid
    rw [hflat.count_eq]
    exact List.count_eq_one_of_mem hDistinct hid
  · intro id hid
    rw [hflat.count_eq]
    exact List.count_eq_zero_of_not_mem hid

/-- Witness of C7 (scenario A): three groups of two shards, each shard owned by
two partitions; the six shard ids are listed once each. -/
theorem MapShards_lists_each_shard_once_witness :
    ((okOr {} (MapShards sampleMeta [InfluxSource.Measurement sampleMeasurement]
        ⟨0, 300⟩ {} none)).shardIDs ⟨"db0", "rp0"⟩).Perm [11, 12, 21, 22, 31, 32] :=
  (MapShards_lists_each_shard_once sampleMeta sampleMeasurement ⟨0, 300⟩ {} none
    (okOr {} (MapShards sampleMeta [InfluxSource.Measurement sampleMeasurement]
      ⟨0, 300⟩ {} none))
    rfl (by decide) (by decide)).1

/-- Scenario A evaluated with the draws 0, 1, 2, ...: the map that is stored. -/
theorem MapShards_scenario_A :
    (MapShards sampleMeta [InfluxSource.Measurement sampleMeasurement] ⟨0, 300⟩ {} none).map
      (fun a => a.ShardMap) = .ok [(⟨"db0", "rp0"⟩, some [(0, [11, 21, 31]), (3, [12, 22, 32])])] := by
  rfl

/-- Reading a key just written. -/
theorem GoMap_get_set_same {K V : Type} [DecidableEq K] (m : List (K × V)) (k : K) (v : V) :
    GoMap.get (GoMap.set m k v) k = some v := by
  induction m with
  | nil => simp [GoMap.set, GoMap.get]
  | cons e rest ih =>
    obtain ⟨k0, v0⟩ := e
    by_cases h : k0 = k
    · simp [GoMap.set, GoMap.get, h]
    · have : GoMap.get ((k0, v0) :: GoMap.set rest k v) k = GoMap.get (GoMap.set rest k v) k := by
        simp [GoMap.get, List.find?, h]
      simp only [GoMap.set, h, if_false, this, ih]

/-- Reading another key than the one just written. -/
theorem GoMap_get_set_other {K V : Type} [DecidableEq K] (m : List (K × V)) (k k1 : K) (v : V)
    (hk : k1 ≠ k) : GoMap.get (GoMap.set m k v) k1 = GoMap.get m k1 := by
  induction m with
  | nil =>
    have : ¬ k = k1 := fun h => hk h.symm
    simp [GoMap.set, GoMap.get, List.find?, this]
  | cons e rest ih =>
    obtain ⟨k0, v0⟩ := e
    by_cases h : k0 = k
    · subst h
      have h1 : ¬ k0 = k1 := fun h => hk h.symm
      simp [GoMap.set, GoMap.get, List.find?, h1]
    · by_cases h2 : k0 = k1
      · subst h2
        simp [GoMap.set, GoMap.get, List.find?, h]
      · simp only [GoMap.set, h, if_false]
        have e1 : GoMap.get ((k0, v0) :: GoMap.set rest k v) k1 = GoMap.get (GoMap.set rest k v) k1 := by
          simp [GoMap.get, List.find?, h2]
        have e2 : GoMap.get ((k0, v0) :: rest) k1 = GoMap.get rest k1 := by
          simp [GoMap.get, List.find?, h2]
        rw [e1, e2, ih]

/-- Going through no source changes nothing. -/
theorem MapExtends_nil (mc : MetaClient) (tmin tmax : Time) (m : List (Source × Option PtShards)) :
    MapExtends mc tmin tmax [] m m :=
  ⟨fun _ _ h => h, fun _ _ h => Or.inl h, fun _ hs => by simp at hs⟩

/-- Going through two runs of sources, one after the other. -/
theorem MapExtends_append (mc : MetaClient) (tmin tmax : Time) (ms1 ms2 : List Measurement)
    (m0 m1 m2 : List (Source × Option PtShards))
    (h1 : MapExtends mc tmin tmax ms1 m0 m1) (h2 : MapExtends mc tmin tmax ms2 m1 m2) :
    MapExtends mc tmin tmax (ms1 ++ ms2) m0 m2 := by
  refine ⟨fun key v h => h2.1 key v (h1.1 key v h), ?_, ?_⟩
  · intro key v h
    rcases h2.2.1 key v h with h | ⟨s, hs, hk, hv⟩
    · rcases h1.2.1 key v h with h | ⟨s, hs, hk, hv⟩
      · exact Or.inl h
      · exact Or.inr ⟨s, List.mem_append_left _ hs, hk, hv⟩
    · exact Or.inr ⟨s, List.mem_append_right _ hs, hk, hv⟩
  · intro s hs m rest hm
    rcases List.mem_append.mp hs with hs | hs
    · have := h1.2.2 s hs m rest hm
      cases hget : GoMap.get m1 s.source with
      | none => exact absurd hget this
      | some v => rw [h2.1 _ v hget]; simp
    · exact h2.2.2 s hs m rest hm

/-- One measurement source: what `mapMeasurement` does to `ShardMap`. -/
theorem mapMeasurement_extends (mc : MetaClient) (tmin tmax : Time) (condition : Option Expr)
    (opt : SelectOptions) (s : Measurement) (st st1 : MapState)
    (h : mapMeasurement mc tmin tmax condition opt s st = .ok st1) :
    MapExtends mc tmin tmax [s] st.a.ShardMap st1.a.ShardMap := by
  unfold mapMeasurement at h
  cases hdb : mc.Database s.Database with
  | error e => simp [hdb] at h
  | ok dbi =>
    cases hms : mc.GetMeasurements s with
    | error e => simp [hdb, hms] at h
    | ok ms =>
      cases ms with
      | nil =>
        simp [hdb, hms] at h
        subst h
        exact ⟨fun _ _ h => h, fun _ _ h => Or.inl h, fun s1 hs m rest hm => by
          simp at hs; subst hs; simp [hms] at hm⟩
      | cons m0 ms =>
        cases hget : GoMap.get st.a.ShardMap ⟨s.Database, s.RetentionPolicy⟩ with
        | some v =>
          simp [hdb, hms, hget] at h
          subst h
          exact ⟨fun _ _ h => h, fun _ _ h => Or.inl h, fun s1 hs m rest _ => by
            simp at hs; subst hs; simp [Measurement.source, hget]⟩
        | none =>
          have key_new : ∀ (v : Option PtShards)
              (hv : mc.ShardGroupsByTimeRange s.Database s.RetentionPolicy tmin tmax = .ok [] →
                v = none),
              MapExtends mc tmin tmax [s] st.a.ShardMap
                (GoMap.set st.a.ShardMap ⟨s.Database, s.RetentionPolicy⟩ v) := by
            intro v hv
            refine ⟨?_, ?_, ?_⟩
            · intro key w hw
              by_cases hk : key = ⟨s.Database, s.RetentionPolicy⟩
              · subst hk; rw [hget] at hw; cases hw
              · rw [GoMap_get_set_other _ _ _ _ hk]; exact hw
            · intro key w hw
              by_cases hk : key = ⟨s.Database, s.RetentionPolicy⟩
              · subst hk
                rw [GoMap_get_set_same] at hw
                cases hw
                exact Or.inr ⟨s, by simp, rfl, hv⟩
              · rw [GoMap_get_set_other _ _ _ _ hk] at hw; exact Or.inl hw
            · intro s1 hs m rest _
              simp at hs; subst hs
              simp [Measurement.source, GoMap_get_set_same]
          cases hg : mc.ShardGroupsByTimeRange s.Database s.RetentionPolicy tmin tmax with
          | error e => simp [hdb, hms, hget, hg] at h
          | ok groups =>
            cases groups with
            | nil =>
              simp [hdb, hms, hget, hg] at h
              subst h
              exact key_new none (fun _ => rfl)
            | cons g gs =>
              simp [hdb, hms, hget, hg] at h
              subst h
              exact key_new _ (fun hnil => by simp [hg] at hnil)

mutual
/-- What `mapShards` does to `ShardMap`. -/
theorem mapShards_extends (mc : MetaClient) (tmin tmax : Time) (condition : Option Expr)
    (opt : SelectOptions) :
    ∀ (sources : List InfluxSource) (st st1 : MapState),
      mapShards mc tmin tmax condition opt sources st = .ok st1 →
      MapExtends mc tmin tmax (sourcesMeasurements sources) st.a.ShardMap st1.a.ShardMap
  | [], st, st1, h => by
    simp [mapShards] at h
    subst h
    exact MapExtends_nil mc tmin tmax _
  | s :: rest, st, st1, h => by
    simp only [mapShards] at h
    cases hs : mapShardsSource mc tmin tmax condition opt s st with
    | error e => simp [hs] at h
    | ok st2 =>
      simp only [hs] at h
      simp only [sourcesMeasurements]
      exact MapExtends_append mc tmin tmax _ _ _ _ _
        (mapShardsSource_extends mc tmin tmax condition opt s st st2 hs)
        (mapShards_extends mc tmin tmax condition opt rest st2 st1 h)
/-- What one round of `mapShards` does to `ShardMap`. -/
theorem mapShardsSource_extends (mc : MetaClient) (tmin tmax : Time) (condition : Option Expr)
    (opt : SelectOptions) :
    ∀ (s : InfluxSource) (st st1 : MapState),
      mapShardsSource mc tmin tmax condition opt s st = .ok st1 →
      MapExtends mc tmin tmax (sourceMeasurements s) st.a.ShardMap st1.a.ShardMap
  | InfluxSource.Measurement m, st, st1, h => by
    simp only [mapShardsSource] at h
    simp only [sourceMeasurements]
    exact mapMeasurement_extends mc tmin tmax condition opt m st st1 h
  | InfluxSource.SubQuery sources, st, st1, h => by
    simp only [mapShardsSource] at h
    simp only [sourceMeasurements]
    exact mapShards_extends mc tmin tmax condition opt sources st st1 h
end

/-- The map of a finished `MapShards` against the empty map it starts from. -/
theorem MapShards_extends (mc : MetaClient) (sources : List InfluxSource) (t : TimeRange)
    (opt : SelectOptions) (condition : Option Expr) (a : ClusterShardMapping)
    (hOk : MapShards mc sources t opt condition = .ok a) :
    MapExtends mc t.Min t.Max (sourcesMeasurements sources) [] a.ShardMap := by
  unfold MapShards at hOk
  cases h : mapShards mc t.Min t.Max condition opt sources { a := {} } with
  | error e => simp [h] at hOk
  | ok st =>
    simp [h] at hOk
    subst hOk
    exact mapShards_extends mc t.Min t.Max condition opt sources _ st h

/-- The entry of a source without shard groups is present and nil. -/
theorem MapShards_idle_entry (mc : MetaClient) (sources : List InfluxSource) (t : TimeRange)
    (opt : SelectOptions) (condition : Option Expr) (a : ClusterShardMapping)
    (hOk : MapShards mc sources t opt condition = .ok a)
    (s : Measurement) (hs : s ∈ sourcesMeasurements sources)
    (m0 : MeasurementInfo) (rest : List MeasurementInfo)
    (hm : mc.GetMeasurements s = .ok (m0 :: rest))
    (hg : mc.ShardGroupsByTimeRange s.Database s.RetentionPolicy t.Min t.Max = .ok []) :
    GoMap.get a.ShardMap ⟨s.Database, s.RetentionPolicy⟩ = some none := by
  have hE := MapShards_extends mc sources t opt condition a hOk
  have hpres := hE.2.2 s hs m0 rest hm
  cases hget : GoMap.get a.ShardMap s.source with
  | none => exact absurd hget hpres
  | some v =>
    rcases hE.2.1 _ v hget with h0 | ⟨s1, _, hk, hv⟩
    · simp [GoMap.get] at h0
    · have hdb : s1.Database = s.Database := congrArg Source.Database hk
      have hrp : s1.RetentionPolicy = s.RetentionPolicy := congrArg Source.RetentionPolicy hk
      rw [hdb, hrp] at hv
      have hvn := hv hg
      subst hvn
      simpa [Measurement.source] using hget

/-- C8: in the `ShardMap` returned by `MapShards`, a measurement source (at the
top level or inside a sub-query) that matches at least one measurement and
whose database and retention policy have no shard group overlapping the time
range has an entry under its key, and the entry holds no partition; a database
and retention policy that belong to no source of the query have no key. -/
theorem MapShards_entry_present_and_empty (mc : MetaClient) (sources : List InfluxSource)
    (t : TimeRange) (opt : SelectOptions) (condition : Option Expr) (a : ClusterShardMapping)
    (hOk : MapShards mc sources t opt condition = .ok a) :
    (∀ s ∈ sourcesMeasurements sources, ∀ (m0 : MeasurementInfo) (rest : List MeasurementInfo),
      mc.GetMeasurements s = .ok (m0 :: rest) →
      mc.ShardGroupsByTimeRange s.Database s.RetentionPolicy t.Min t.Max = .ok [] →
      ∃ entry, GoMap.get a.ShardMap ⟨s.Database, s.RetentionPolicy⟩ = some entry ∧
        entry.getD [] = []) ∧
    (∀ key : Source,
      (∀ s ∈ sourcesMeasurements sources, (⟨s.Database, s.RetentionPolicy⟩ : Source) ≠ key) →
      GoMap.get a.ShardMap key = none) := by
  constructor
  · intro s hs m0 rest hm hg
    exact ⟨none, MapShards_idle_entry mc sources t opt condition a hOk s hs m0 rest hm hg, rfl⟩
  · intro key hkey
    have hE := MapShards_extends mc sources t opt condition a hOk
    cases hget : GoMap.get a.ShardMap key with
    | none => rfl
    | some v =>
      rcases hE.2.1 _ v hget with h0 | ⟨s1, hs1, hk, _⟩
      · simp [GoMap.get] at h0
      · exact absurd hk (hkey s1 hs1)

/-- Witness of C8: a query over the idle database inside a sub-query; its key is
present with no partition, and the key of the sample database, which was not
queried, is absent. -/
theorem MapShards_entry_present_and_empty_witness :
    (∃ entry, GoMap.get (okOr {} (MapShards sampleMeta
          [InfluxSource.SubQuery [InfluxSource.Measurement idleMeasurement]]
          ⟨0, 300⟩ {} none)).ShardMap ⟨"idle", "rp0"⟩ = some entry ∧ entry.getD [] = []) ∧
    GoMap.get (okOr {} (MapShards sampleMeta
          [InfluxSource.SubQuery [InfluxSource.Measurement idleMeasurement]]
          ⟨0, 300⟩ {} none)).ShardMap ⟨"db0", "rp0"⟩ = none :=
  ⟨(MapShards_entry_present_and_empty sampleMeta
      [InfluxSource.SubQuery [InfluxSource.Measurement idleMeasurement]] ⟨0, 300⟩ {} none
      (okOr {} (MapShards sampleMeta
        [InfluxSource.SubQuery [InfluxSource.Measurement idleMeasurement]] ⟨0, 300⟩ {} none))
      rfl).1 idleMeasurement (by simp [sourcesMeasurements, sourceMeasurements]) ⟨"mst"⟩ [] rfl rfl,
   (MapShards_entry_present_and_empty sampleMeta
      [InfluxSource.SubQuery [InfluxSource.Measurement idleMeasurement]] ⟨0, 300⟩ {} none
      (okOr {} (MapShards sampleMeta
        [InfluxSource.SubQuery [InfluxSource.Measurement idleMeasurement]] ⟨0, 300⟩ {} none))
      rfl).2 ⟨"db0", "rp0"⟩ (by simp [sourcesMeasurements, sourceMeasurements, idleMeasurement])⟩

/-- C9, refuted as stated: for the measurement of the idle database, which
matches a measurement and has no shard group, `MapShards` stores a nil inner map
(not an empty one made with `make`); the value read under its key and the
value read under the key of a source that was never mapped are both nil, and
`FieldDimensions` and the source loop of `CreateLogicalPlan` give the same
result for the two. -/
theorem MapShards_idle_entry_counterexample :
    (MapShards sampleMeta [InfluxSource.Measurement idleMeasurement] ⟨0, 300⟩ {} none).map
      (fun a =>
        (GoMap.get a.ShardMap ⟨"idle", "rp0"⟩,
         a.shardMapAt ⟨"idle", "rp0"⟩,
         a.shardMapAt ⟨"db0", "rp0"⟩,
         FieldDimensions sampleMeta sampleExternals 1 a idleMeasurement,
         FieldDimensions sampleMeta sampleExternals 1 a sampleMeasurement,
         (groupSources sampleMeta a [InfluxSource.Measurement idleMeasurement] {}).map
           (fun g => launchTasks g.shardsMapByNode),
         (groupSources sampleMeta a [InfluxSource.Measurement sampleMeasurement] {}).map
           (fun g => launchTasks g.shardsMapByNode)))
      = .ok (some none, none, none, .ok none, .ok none, .ok [], .ok []) := by
  rfl

/-- C9, amended: for a measurement source that matches a measurement and
resolves to zero shard groups, the entry stored in `ShardMap` is a nil map
under a present key, and the value read under that key is nil.  Wherever the
value read under the key of a measurement is nil, be the key present or absent,
`FieldDimensions` returns four nils and `CreateLogicalPlan` passes over the
source. -/
theorem MapShards_idle_entry_is_nil (mc : MetaClient) (sources : List InfluxSource)
    (t : TimeRange) (opt : SelectOptions) (condition : Option Expr) (a : ClusterShardMapping)
    (hOk : MapShards mc sources t opt condition = .ok a)
    (s : Measurement) (hs : s ∈ sourcesMeasurements sources)
    (m0 : MeasurementInfo) (rest : List MeasurementInfo)
    (hm : mc.GetMeasurements s = .ok (m0 :: rest))
    (hg : mc.ShardGroupsByTimeRange s.Database s.RetentionPolicy t.Min t.Max = .ok []) :
    GoMap.get a.ShardMap ⟨s.Database, s.RetentionPolicy⟩ = some none ∧
    a.shardMapAt ⟨s.Database, s.RetentionPolicy⟩ = none ∧
    (∀ (m : Measurement), a.shardMapAt ⟨m.Database, m.RetentionPolicy⟩ = none →
      (∀ (x : Externals) (fuel : Nat), FieldDimensions mc x fuel a m = .ok none) ∧
      (∀ (others : List InfluxSource) (g : Grouping),
        groupSources mc a (InfluxSource.Measurement m :: others) g = groupSources mc a others g)) := by
  have hnil := MapShards_idle_entry mc sources t opt condition a hOk s hs m0 rest hm hg
  refine ⟨hnil, by simp [ClusterShardMapping.shardMapAt, hnil], ?_⟩
  intro m hmnil
  constructor
  · intro x fuel
    simp [FieldDimensions, hmnil]
  · intro others g
    simp [groupSources, hmnil]

/-- Witness of the amended C9, at the measurement of the idle database. -/
theorem MapShards_idle_entry_is_nil_witness :
    GoMap.get (okOr {} (MapShards sampleMeta [InfluxSource.Measurement idleMeasurement]
        ⟨0, 300⟩ {} none)).ShardMap ⟨"idle", "rp0"⟩ = some none :=
  (MapShards_idle_entry_is_nil sampleMeta [InfluxSource.Measurement idleMeasurement]
    ⟨0, 300⟩ {} none
    (okOr {} (MapShards sampleMeta [InfluxSource.Measurement idleMeasurement] ⟨0, 300⟩ {} none))
    rfl idleMeasurement (by simp [sourcesMeasurements, sourceMeasurements]) ⟨"mst"⟩ [] rfl rfl).1

/-! ## Properties of `MapTypeBatch` -/

/-- Writing under a key that is there leaves the keys as they are. -/
theorem GoMap_set_keys {K V : Type} [DecidableEq K] (m : List (K × V)) (k : K) (v : V)
    (hk : k ∈ m.map Prod.fst) : (GoMap.set m k v).map Prod.fst = m.map Prod.fst := by
  induction m with
  | nil => simp at hk
  | cons e rest ih =>
    obtain ⟨k0, v0⟩ := e
    by_cases h : k0 = k
    · simp [GoMap.set, h]
    · have hk1 : k ∈ rest.map Prod.fst := by
        simp only [List.map_cons, List.mem_cons] at hk
        rcases hk with hk | hk
        · exact absurd hk.symm h
        · exact hk
      simp [GoMap.set, h, ih hk1]

/-- The loop over the keys for one measurement: it ends with the conflict error
of the first visited key that the catalog reports both as a field and as a tag,
and with no error when there is no such key; the keys of the map stay. -/
theorem mapTypeKeys_result (x : Externals) (mst : String) (ms : MetaSchema) :
    ∀ (ks : List String) (fields : List (String × DataType)),
      (∀ k ∈ ks, k ∈ fields.map Prod.fst) →
      ((mapTypeKeys x mst ms ks fields).1.map Prod.fst = fields.map Prod.fst) ∧
      (((mapTypeKeys x mst ms ks fields).2 = none ∧ ∀ k ∈ ks, ms.conflicts k = false) ∨
       ∃ k ∈ ks, ms.conflicts k = true ∧
         (mapTypeKeys x mst ms ks fields).2 = some (conflictError k mst)) := by
  intro ks
  induction ks with
  | nil => intro fields _; simp [mapTypeKeys]
  | cons k rest ih =>
    intro fields hks
    have hk : k ∈ fields.map Prod.fst := hks k (List.mem_cons_self _ _)
    have hrest : ∀ v, ∀ k1 ∈ rest, k1 ∈ (GoMap.set fields k v).map Prod.fst := by
      intro v k1 hk1
      rw [GoMap_set_keys fields k v hk]
      exact hks k1 (List.mem_cons_of_mem _ hk1)
    unfold mapTypeKeys
    cases hft : GoMap.get (ms.metaFields.getD []) k with
    | none =>
      by_cases hdt : k ∈ ms.metaDimensions.getD []
      · simp only [hdt, decide_True]
        obtain ⟨h1, h2⟩ := ih (GoMap.set fields k DataType.Tag) (hrest _)
        refine ⟨by rw [h1, GoMap_set_keys fields k _ hk], ?_⟩
        rcases h2 with ⟨h2, h3⟩ | ⟨k1, hk1, hc, he⟩
        · refine Or.inl ⟨h2, ?_⟩
          intro k1 hk1
          rcases List.mem_cons.mp hk1 with rfl | hk1
          · simp [MetaSchema.conflicts, hft]
          · exact h3 k1 hk1
        · exact Or.inr ⟨k1, List.mem_cons_of_mem _ hk1, hc, he⟩
      · simp only [hdt, decide_False]
        obtain ⟨h1, h2⟩ := ih (GoMap.set fields k DataType.Unknown) (hrest _)
        refine ⟨by rw [h1, GoMap_set_keys fields k _ hk], ?_⟩
        rcases h2 with ⟨h2, h3⟩ | ⟨k1, hk1, hc, he⟩
        · refine Or.inl ⟨h2, ?_⟩
          intro k1 hk1
          rcases List.mem_cons.mp hk1 with rfl | hk1
          · simp [MetaSchema.conflicts, hft]
          · exact h3 k1 hk1
        · exact Or.inr ⟨k1, List.mem_cons_of_mem _ hk1, hc, he⟩
    | some ft =>
      by_cases hdt : k ∈ ms.metaDimensions.getD []
      · simp only [hdt, decide_True]
        exact ⟨trivial, Or.inr ⟨k, List.mem_cons_self _ _, by simp [MetaSchema.conflicts, hft, hdt], rfl⟩⟩
      · simp only [hdt, decide_False]
        obtain ⟨h1, h2⟩ := ih (GoMap.set fields k (x.ToInfluxqlTypes ft)) (hrest _)
        refine ⟨by rw [h1, GoMap_set_keys fields k _ hk], ?_⟩
        rcases h2 with ⟨h2, h3⟩ | ⟨k1, hk1, hc, he⟩
        · refine Or.inl ⟨h2, ?_⟩
          intro k1 hk1
          rcases List.mem_cons.mp hk1 with rfl | hk1
          · simp [MetaSchema.conflicts, hdt]
          · exact h3 k1 hk1
        · exact Or.inr ⟨k1, List.mem_cons_of_mem _ hk1, hc, he⟩

/-- The loop over the measurements, up to a measurement with a conflict: its
result is the conflict error of a requested column and a measurement, not later
than that one, for which the catalog reports the column both as a field and as
a tag. -/
theorem mapTypeLoop_conflict (mc : MetaClient) (x : Externals) (fuel : Nat) (m : Measurement)
    (hOrder : ∀ i ks, (mc.RangeOrder i ks).Perm ks)
    (mi : MeasurementInfo) (post : List MeasurementInfo) (ms : MetaSchema) (k : String)
    (hSchema : getSchema mc x fuel m.Database m.RetentionPolicy mi.Name = .ok ms)
    (hConf : ms.conflicts k = true) :
    ∀ (pre : List MeasurementInfo) (i : Nat) (fields : List (String × DataType)),
      (∀ p ∈ pre, ∃ sp, getSchema mc x fuel m.Database m.RetentionPolicy p.Name = .ok sp) →
      k ∈ fields.map Prod.fst →
      ∃ k1 mi1 ms1, mi1 ∈ pre ++ [mi] ∧ k1 ∈ fields.map Prod.fst ∧
        getSchema mc x fuel m.Database m.RetentionPolicy mi1.Name = .ok ms1 ∧
        ms1.conflicts k1 = true ∧
        (mapTypeLoop mc x fuel m (pre ++ mi :: post) i fields).2
          = some (Fault.error (conflictError k1 mi1.Name)) := by
  intro pre
  induction pre with
  | nil =>
    intro i fields _ hk
    have hsub : ∀ k1 ∈ mc.RangeOrder i (fields.map Prod.fst), k1 ∈ fields.map Prod.fst :=
      fun k1 h => (hOrder i _).mem_iff.mp h
    obtain ⟨_, h2⟩ := mapTypeKeys_result x mi.Name ms _ fields hsub
    rcases h2 with ⟨_, h3⟩ | ⟨k1, hk1, hc, he⟩
    · have := h3 k ((hOrder i _).mem_iff.mpr hk)
      rw [hConf] at this
      cases this
    · refine ⟨k1, mi, ms, by simp, hsub k1 hk1, hSchema, hc, ?_⟩
      simp only [List.nil_append, mapTypeLoop, hSchema]
      cases hr : mapTypeKeys x mi.Name ms (mc.RangeOrder i (fields.map Prod.fst)) fields with
      | mk f1 e1 =>
        rw [hr] at he
        simp only at he
        subst he
        rfl
  | cons p pre ih =>
    intro i fields hPre hk
    obtain ⟨sp, hsp⟩ := hPre p (List.mem_cons_self _ _)
    have hsub : ∀ k1 ∈ mc.RangeOrder i (fields.map Prod.fst), k1 ∈ fields.map Prod.fst :=
      fun k1 h => (hOrder i _).mem_iff.mp h
    obtain ⟨h1, h2⟩ := mapTypeKeys_result x p.Name sp _ fields hsub
    cases hr : mapTypeKeys x p.Name sp (mc.RangeOrder i (fields.map Prod.fst)) fields with
    | mk f1 e1 =>
      rw [hr] at h1 h2
      simp only at h1 h2
      rcases h2 with ⟨h2, _⟩ | ⟨k1, hk1, hc, he⟩
      · subst h2
        obtain ⟨k2, mi2, ms2, hmem, hk2, hs2, hc2, he2⟩ :=
          ih (i + 1) f1 (fun q hq => hPre q (List.mem_cons_of_mem _ hq)) (by rw [h1]; exact hk)
        refine ⟨k2, mi2, ms2, List.mem_cons_of_mem _ hmem, by rw [← h1]; exact hk2, hs2, hc2, ?_⟩
        simp only [List.cons_append, mapTypeLoop, hsp, hr]
        exact he2
      · subst he
        refine ⟨k1, p, sp, by simp, hsub k1 hk1, hsp, hc, ?_⟩
        simp only [List.cons_append, mapTypeLoop, hsp, hr]

/-- C10: if the catalog reports, for a matched measurement, a requested column
both among its fields and among its tags, and the schema calls for the
measurements before it succeed, then `MapTypeBatch` does not return nil: it
returns the conflict error, naming a requested column and a matched measurement
for which the catalog reports just that; it names that very column and
measurement when no other such pair is met up to that measurement. -/
theorem MapTypeBatch_reports_conflict (mc : MetaClient) (x : Externals) (fuel : Nat)
    (m : Measurement) (fields : List (String × DataType))
    (pre : List MeasurementInfo) (mi : MeasurementInfo) (post : List MeasurementInfo)
    (ms : MetaSchema) (k : String)
    (hOrder : ∀ i ks, (mc.RangeOrder i ks).Perm ks)
    (hMs : mc.GetMeasurements m = .ok (pre ++ mi :: post))
    (hPre : ∀ p ∈ pre, ∃ sp, getSchema mc x fuel m.Database m.RetentionPolicy p.Name = .ok sp)
    (hSchema : getSchema mc x fuel m.Database m.RetentionPolicy mi.Name = .ok ms)
    (hReq : k ∈ fields.map Prod.fst)
    (hConf : ms.conflicts k = true) :
    (∃ k1 mi1 ms1, mi1 ∈ pre ++ [mi] ∧ k1 ∈ fields.map Prod.fst ∧
      getSchema mc x fuel m.Database m.RetentionPolicy mi1.Name = .ok ms1 ∧
      ms1.conflicts k1 = true ∧
      (MapTypeBatch mc x fuel m fields).2 = some (Fault.error (conflictError k1 mi1.Name))) ∧
    ((∀ mi1 ∈ pre ++ [mi], ∀ ms1,
        getSchema mc x fuel m.Database m.RetentionPolicy mi1.Name = .ok ms1 →
        ∀ k1 ∈ fields.map Prod.fst, ms1.conflicts k1 = true → k1 = k ∧ mi1.Name = mi.Name) →
      (MapTypeBatch mc x fuel m fields).2 = some (Fault.error (conflictError k mi.Name))) := by
  have h := mapTypeLoop_conflict mc x fuel m hOrder mi post ms k hSchema hConf pre 0 fields hPre hReq
  have hB : MapTypeBatch mc x fuel m fields = mapTypeLoop mc x fuel m (pre ++ mi :: post) 0 fields := by
    simp [MapTypeBatch, hMs]
  rw [hB]
  refine ⟨h, ?_⟩
  intro hOnly
  obtain ⟨k1, mi1, ms1, hmem, hk1, hs1, hc1, he⟩ := h
  obtain ⟨e1, e2⟩ := hOnly mi1 hmem ms1 hs1 k1 hk1 hc1
  rw [he, e1, e2]

/-- Witness of C10: `host` is requested and the measurement `cpu` reports it both
as a field and as a tag; the call ends with the conflict error for `host` in
`cpu`. -/
theorem MapTypeBatch_reports_conflict_witness :
    (MapTypeBatch sampleMeta sampleExternals 1 cpuMeasurement
        [("usage", DataType.Unknown), ("host", DataType.Unknown)]).2
      = some (Fault.error "column (host) in measurement (cpu) in both fields and tags") :=
  (MapTypeBatch_reports_conflict sampleMeta sampleExternals 1 cpuMeasurement
    [("usage", DataType.Unknown), ("host", DataType.Unknown)] [] ⟨"cpu"⟩ []
    ⟨some [("usage", 3), ("host", 4)], some ["host", "region"]⟩ "host"
    (fun _ _ => List.Perm.refl _) rfl (by simp) rfl (by decide) (by decide)).2
    (by
      intro mi1 hmi1 ms1 hs1 k1 hk1 hc1
      simp only [List.nil_append, List.mem_singleton] at hmi1
      subst hmi1
      have hs : ms1 = ⟨some [("usage", 3), ("host", 4)], some ["host", "region"]⟩ := by
        have : getSchema sampleMeta sampleExternals 1 cpuMeasurement.Database
            cpuMeasurement.RetentionPolicy "cpu"
            = .ok ⟨some [("usage", 3), ("host", 4)], some ["host", "region"]⟩ := rfl
        rw [this] at hs1
        exact (Except.ok.inj hs1).symm
      subst hs
      simp only [List.map_cons, List.map_nil, List.mem_cons, List.mem_singleton,
        List.not_mem_nil, or_false] at hk1
      rcases hk1 with rfl | rfl
      · exact absurd hc1 (by decide)
      · exact ⟨rfl, rfl⟩)

/-- The state in which the conflict leaves the caller's map in the sample: the
column visited before the conflict has its type already. -/
theorem MapTypeBatch_conflict_evaluated :
    MapTypeBatch sampleMeta sampleExternals 1 cpuMeasurement
        [("usage", DataType.Unknown), ("host", DataType.Unknown)]
      = ([("usage", DataType.Float), ("host", DataType.Unknown)],
         some (Fault.error "column (host) in measurement (cpu) in both fields and tags")) := by
  rfl

/-! ## Further properties of the rewrite rules -/

/-- C16, refuted as stated: a Series whose schema has a limit and a call gets a
Limit node from `LimitPushdownToSeriesRule`. -/
theorem LimitPushdownToSeriesRule_call_counterexample :
    limitCallSchema.HasCall = true ∧
    LimitPushdownToSeriesRule.OnMatch {} sampleBuilder
      ⟨[QueryNode.LogicalSeries limitCallSchema], sampleVertex⟩
      = .ok [PlannerOp.TransformTo (QueryNode.LogicalLimit limitCallSchema
          [QueryNode.LogicalSeries limitCallSchema])] :=
  ⟨rfl, rfl⟩

/-- C16, amended: on a node whose schema lacks a limit or has a call,
`LimitPushdownToExchangeRule` and `LimitPushdownToReaderRule` issue no planner
operation.  `LimitPushdownToSeriesRule` issues none when the schema lacks a
limit, or when the file cursor is enabled and the schema has an in-series
aggregate; it does not consult `HasCall`, and once these guards pass and the
built Limit is new to the DAG it hands it to `TransformTo`. -/
theorem LimitPushdown_declines
    (sw : RuleSwitches) (b : LogicalPlanBuilder) (call : OptRuleCall) (schema : QuerySchema)
    (hNo : schema.HasLimit = false ∨ schema.HasCall = true) :
    (∀ (eType : ExchangeType) (inputs : List QueryNode),
      call.Node 0 = some (QueryNode.LogicalExchange schema eType inputs) →
      LimitPushdownToExchangeRule.OnMatch b call = .ok []) ∧
    (∀ (inputs : List QueryNode),
      call.Node 0 = some (QueryNode.LogicalReader schema inputs) →
      LimitPushdownToReaderRule.OnMatch b call = .ok []) ∧
    (∀ (c : OptRuleCall) (s : QuerySchema),
      c.Node 0 = some (QueryNode.LogicalSeries s) →
      (s.HasLimit = false ∨ (sw.enableFileCursor = true ∧ s.HasInSeriesAgg = true)) →
      LimitPushdownToSeriesRule.OnMatch sw b c = .ok []) ∧
    (∀ (c : OptRuleCall) (s : QuerySchema) (vertex : HeuVertex) (node : QueryNode),
      c.Node 0 = some (QueryNode.LogicalSeries s) →
      s.HasLimit = true → (sw.enableFileCursor = false ∨ s.HasInSeriesAgg = false) →
      c.Vertex (QueryNode.LogicalSeries s) = some vertex →
      b.CreateLimit s vertex = .ok node → c.Vertex node = none →
      LimitPushdownToSeriesRule.OnMatch sw b c = .ok [PlannerOp.TransformTo node]) := by
  refine ⟨?_, ?_, ?_, ?_⟩
  · intro eType inputs hN
    unfold LimitPushdownToExchangeRule.OnMatch
    rw [hN]
    rcases hNo with h | h <;> simp [h]
  · intro inputs hN
    unfold LimitPushdownToReaderRule.OnMatch
    rw [hN]
    rcases hNo with h | h <;> simp [h]
  · intro c s hN hs
    unfold LimitPushdownToSeriesRule.OnMatch
    rw [hN]
    rcases hs with h | ⟨h1, h2⟩
    · simp [h]
    · simp [h1, h2]
  · intro c s vertex node hN hL hF hV hB hNew
    unfold LimitPushdownToSeriesRule.OnMatch
    rw [hN]
    have hf : (sw.enableFileCursor && s.HasInSeriesAgg) = false := by
      rcases hF with h | h <;> simp [h]
    simp [hf, hL, hV, hB, hNew, transformUnlessPresent]

/-- Witness of the amended C16: a Reader with a limit and a call is declined. -/
theorem LimitPushdown_declines_witness :
    LimitPushdownToReaderRule.OnMatch sampleBuilder
      ⟨[QueryNode.LogicalReader limitCallSchema []], sampleVertex⟩ = .ok [] :=
  (LimitPushdown_declines {} sampleBuilder
    ⟨[QueryNode.LogicalReader limitCallSchema []], sampleVertex⟩ limitCallSchema
    (Or.inr rfl)).2.1 [] rfl

/-- C17, refuted as stated: a Series whose schema has an ML-operator call, with
grouping that does not span all dimensions, gets an Aggregate from
`AggPushdownToSeriesRule`. -/
theorem AggPushdownToSeriesRule_castor_counterexample :
    castorSchema.HasCastorCall = true ∧ castorSchema.IsGroupByAllDims = false ∧
    AggPushdownToSeriesRule.OnMatch sampleBuilder
      ⟨[QueryNode.LogicalSeries castorSchema], sampleVertex⟩
      = .ok [PlannerOp.TransformTo (QueryNode.LogicalAggregate castorSchema []
          [QueryNode.LogicalSeries castorSchema])] :=
  ⟨rfl, rfl, rfl⟩

/-- C17, amended: on a node whose schema has an ML-operator call while grouping
does not span all dimensions, `AggPushdownToExchangeRule` and
`AggPushdownToReaderRule` issue no planner operation.
`AggPushdownToSeriesRule` does not consult the ML-operator call: once its own
guards pass and the built Aggregate is new to the DAG it hands it to
`TransformTo`. -/
theorem AggPushdown_declines_castor
    (sw : RuleSwitches) (b : LogicalPlanBuilder) (call : OptRuleCall) (schema : QuerySchema)
    (hCastor : schema.HasCastorCall = true) (hDims : schema.IsGroupByAllDims = false) :
    (∀ (eType : ExchangeType) (inputs : List QueryNode),
      call.Node 0 = some (QueryNode.LogicalExchange schema eType inputs) →
      AggPushdownToExchangeRule.OnMatch b call = .ok []) ∧
    (∀ (inputs : List QueryNode),
      call.Node 0 = some (QueryNode.LogicalReader schema inputs) →
      AggPushdownToReaderRule.OnMatch sw b call = .ok []) ∧
    (∀ (c : OptRuleCall) (s : QuerySchema) (vertex : HeuVertex) (node : QueryNode),
      c.Node 0 = some (QueryNode.LogicalSeries s) →
      s.HasCall = true → s.CanCallsPushdown = true → s.ContainSeriesIgnoreCall = false →
      c.Vertex (QueryNode.LogicalSeries s) = some vertex →
      b.CreateAggregate s vertex = .ok node → c.Vertex node = none →
      AggPushdownToSeriesRule.OnMatch b c = .ok [PlannerOp.TransformTo node]) := by
  refine ⟨?_, ?_, ?_⟩
  · intro eType inputs hN
    unfold AggPushdownToExchangeRule.OnMatch
    rw [hN]
    cases eType <;> simp [hCastor, hDims]
  · intro inputs hN
    unfold AggPushdownToReaderRule.OnMatch
    rw [hN]
    simp [hCastor, hDims]
  · intro c s vertex node hN hCall hPush hIgn hV hB hNew
    unfold AggPushdownToSeriesRule.OnMatch
    rw [hN]
    simp [hCall, hPush, hIgn, hV, hB, hNew, transformUnlessPresent]

/-- Witness of the amended C17: a shard-level Exchange with an ML-operator call
and grouping that does not span all dimensions is declined. -/
theorem AggPushdown_declines_castor_witness :
    AggPushdownToExchangeRule.OnMatch sampleBuilder
      ⟨[QueryNode.LogicalExchange castorSchema ExchangeType.SHARD_EXCHANGE []], sampleVertex⟩
      = .ok [] :=
  (AggPushdown_declines_castor {} sampleBuilder
    ⟨[QueryNode.LogicalExchange castorSchema ExchangeType.SHARD_EXCHANGE []], sampleVertex⟩
    castorSchema rfl rfl).1 ExchangeType.SHARD_EXCHANGE [] rfl

/-- C18, refuted as stated: an Aggregate whose calls are pushdown-eligible, with
an ML-operator call and grouping that spans all dimensions, is not spread by
`AggSpreadToExchangeRule`. -/
theorem AggSpreadToExchangeRule_castor_counterexample :
    castorAllDimsSchema.HasCastorCall = true ∧ castorAllDimsSchema.IsGroupByAllDims = true ∧
    AggSpreadToExchangeRule.OnMatch sampleForwardCallArgs
      ⟨[QueryNode.LogicalAggregate castorAllDimsSchema [countCall]
          [QueryNode.LogicalExchange castorAllDimsSchema ExchangeType.READER_EXCHANGE []]],
        sampleVertex⟩ = .ok [] :=
  ⟨rfl, rfl, rfl⟩

/-- C18, amended: for `AggSpreadToReaderRule` an ML-operator call blocks the
spread only when grouping does not span all dimensions: a matched Aggregate with
pushdown-eligible calls, an ML-operator call and grouping over all dimensions,
neither pre-aggregated nor with a series-ignore call, is handed to `TransformTo`
as the rewritten clone.  `AggSpreadToExchangeRule` issues no planner operation
on any Aggregate with an ML-operator call, whatever the grouping. -/
theorem AggSpread_castor
    (fwd : QuerySchema → List Call → List Call) (call : OptRuleCall)
    (schema : QuerySchema) (calls : List Call) (inputs : List QueryNode)
    (hNode : call.Node 0 = some (QueryNode.LogicalAggregate schema calls inputs))
    (hCastor : schema.HasCastorCall = true) :
    AggSpreadToExchangeRule.OnMatch fwd call = .ok [] ∧
    (schema.HasCall = true → schema.CanCallsPushdown = true →
      schema.IsGroupByAllDims = true → schema.MatchPreAgg = false →
      schema.ContainSeriesIgnoreCall = false →
      AggSpreadToReaderRule.OnMatch fwd call =
        .ok [PlannerOp.TransformTo (QueryNode.LogicalAggregate schema
          (LogicalAggregate.CountToSum (fwd schema calls)) inputs)]) := by
  constructor
  · unfold AggSpreadToExchangeRule.OnMatch
    rw [hNode]
    simp [hCastor]
  · intro hCall hPush hDims hPre hIgn
    unfold AggSpreadToReaderRule.OnMatch
    rw [hNode]
    simp [hCall, hPush, hCastor, hDims, hPre, hIgn, LogicalAggregate.Clone]

/-- Witness of the amended C18: the Reader rule spreads the Aggregate that the
Exchange rule declines. -/
theorem AggSpread_castor_witness :
    AggSpreadToReaderRule.OnMatch sampleForwardCallArgs
      ⟨[QueryNode.LogicalAggregate castorAllDimsSchema [countCall]
          [QueryNode.LogicalReader castorAllDimsSchema []]], sampleVertex⟩ =
      .ok [PlannerOp.TransformTo (QueryNode.LogicalAggregate castorAllDimsSchema
        (LogicalAggregate.CountToSum (sampleForwardCallArgs castorAllDimsSchema [countCall]))
        [QueryNode.LogicalReader castorAllDimsSchema []])] :=
  (AggSpread_castor sampleForwardCallArgs
    ⟨[QueryNode.LogicalAggregate castorAllDimsSchema [countCall]
        [QueryNode.LogicalReader castorAllDimsSchema []]], sampleVertex⟩
    castorAllDimsSchema [countCall] [QueryNode.LogicalReader castorAllDimsSchema []]
    rfl rfl).2 rfl rfl rfl rfl rfl

/-- C19: `canPush` returns false whenever the project has a group-by, has calls
of its own, has math or string expressions, has binary expressions or has a
limit, or the options of the aggregate have a time interval; and then
`AggPushDownToSubQueryRule.OnMatch` issues no planner operation, whatever the
helpers and the DAG lookup are. -/
theorem AggPushDownToSubQueryRule_canPush_false
    (agg project : QuerySchema)
    (hBlock : project.HasGroupBy = true ∨ project.HasCall = true ∨ project.HasMath = true ∨
      project.HasString = true ∨ project.binarysLen > 0 ∨ project.HasLimit = true ∨
      agg.OptHasInterval = true) :
    AggPushDownToSubQueryRule.canPush agg project = false ∧
    ∀ (h : SubQueryHelpers) (call : OptRuleCall) (calls : List Call)
      (inputs pInputs : List QueryNode),
      call.Node 0 = some (QueryNode.LogicalAggregate agg calls inputs) →
      call.Node 2 = some (QueryNode.LogicalProject project pInputs) →
      AggPushDownToSubQueryRule.OnMatch h call = .ok [] := by
  have hc : AggPushDownToSubQueryRule.canPush agg project = false := by
    unfold AggPushDownToSubQueryRule.canPush
    rcases hBlock with h | h | h | h | h | h | h
    · simp [h]
    · simp [h]
    · simp [h]
    · simp [h]
    · have : decide (project.binarysLen > 0) = true := by simpa using h
      simp [this]
    · simp [h]
    · simp [h]
  refine ⟨hc, ?_⟩
  intro h call calls inputs pInputs h0 h2
  unfold AggPushDownToSubQueryRule.OnMatch
  rw [h0, h2]
  simp [hc]

/-- Witness of C19: a project with a limit below an aggregate that passes every
test made on the aggregate. -/
theorem AggPushDownToSubQueryRule_canPush_false_witness :
    AggPushDownToSubQueryRule.canPush pushableAggSchema limitedProjectSchema = false ∧
    AggPushDownToSubQueryRule.OnMatch sampleHelpers limitedSubQueryCall = .ok [] :=
  ⟨(AggPushDownToSubQueryRule_canPush_false pushableAggSchema limitedProjectSchema
      (Or.inr (Or.inr (Or.inr (Or.inr (Or.inr (Or.inl rfl))))))).1,
   (AggPushDownToSubQueryRule_canPush_false pushableAggSchema limitedProjectSchema
      (Or.inr (Or.inr (Or.inr (Or.inr (Or.inr (Or.inl rfl))))))).2
      sampleHelpers limitedSubQueryCall []
      [QueryNode.LogicalSubQuery {} [QueryNode.LogicalProject limitedProjectSchema []]] []
      rfl rfl⟩

/-- The same aggregate above a project without the limit is pushed: the rule is
not idle on every input. -/
theorem AggPushDownToSubQueryRule_pushes_sample :
    AggPushDownToSubQueryRule.canPush pushableAggSchema
      { limitedProjectSchema with HasLimit := false } = true :=
  rfl

/-- A node that passes the shard-exchange test is an Exchange of that type. -/
theorem isShardExchange_eq (n : QueryNode) (h : isShardExchange n = true) :
    ∃ s i, n = QueryNode.LogicalExchange s ExchangeType.SHARD_EXCHANGE i := by
  cases n with
  | LogicalExchange s t i =>
    cases t <;> simp [isShardExchange] at h
    exact ⟨s, i, rfl⟩
  | _ => simp [isShardExchange] at h

/-- C20: for a matched Aggregate that has a first child and a vertex in the DAG,
`CastorAggCutRule.OnMatch` removes the edge from the child to the Aggregate and
calls `TransformTo` with the child's node exactly when the schema has an
ML-operator call, grouping spans all dimensions, and the child is not a
shard-level Exchange; in every other case it issues no planner operation. -/
theorem CastorAggCutRule_cuts_iff
    (call : OptRuleCall) (schema : QuerySchema) (calls : List Call)
    (child : QueryNode) (others : List QueryNode) (vertex : HeuVertex)
    (hNode : call.Node 0 = some (QueryNode.LogicalAggregate schema calls (child :: others)))
    (hVertex : call.Vertex (QueryNode.LogicalAggregate schema calls (child :: others))
      = some vertex) :
    (schema.HasCastorCall = true ∧ schema.IsGroupByAllDims = true ∧ isShardExchange child = false →
      CastorAggCutRule.OnMatch call =
        .ok [PlannerOp.RemoveEdge child (QueryNode.LogicalAggregate schema calls (child :: others)),
             PlannerOp.TransformTo child]) ∧
    (¬ (schema.HasCastorCall = true ∧ schema.IsGroupByAllDims = true ∧
        isShardExchange child = false) →
      CastorAggCutRule.OnMatch call = .ok []) := by
  unfold CastorAggCutRule.OnMatch
  rw [hNode]
  constructor
  · rintro ⟨h1, h2, h3⟩
    simp only [h1, h2, Bool.not_true, Bool.false_eq_true, if_false]
    split
    · simp [isShardExchange] at h3
    · simp [hVertex]
  · intro hn
    cases h1 : schema.HasCastorCall
    · simp [h1]
    · cases h2 : schema.IsGroupByAllDims
      · simp [h1, h2]
      · have h3 : isShardExchange child = true := by
          cases h : isShardExchange child
          · exact absurd ⟨h1, h2, h⟩ hn
          · rfl
        obtain ⟨s, i, rfl⟩ := isShardExchange_eq child h3
        simp [h1, h2]

/-- Witness of C20: above a reader-level Exchange the Aggregate is cut, above a
shard-level Exchange it is left. -/
theorem CastorAggCutRule_cuts_iff_witness :
    CastorAggCutRule.OnMatch ⟨[castorAggAbove ExchangeType.READER_EXCHANGE], fullVertex⟩ =
      .ok [PlannerOp.RemoveEdge
             (QueryNode.LogicalExchange castorAllDimsSchema ExchangeType.READER_EXCHANGE [])
             (castorAggAbove ExchangeType.READER_EXCHANGE),
           PlannerOp.TransformTo
             (QueryNode.LogicalExchange castorAllDimsSchema ExchangeType.READER_EXCHANGE [])] ∧
    CastorAggCutRule.OnMatch ⟨[castorAggAbove ExchangeType.SHARD_EXCHANGE], fullVertex⟩ = .ok [] :=
  ⟨(CastorAggCutRule_cuts_iff ⟨[castorAggAbove ExchangeType.READER_EXCHANGE], fullVertex⟩
      castorAllDimsSchema []
      (QueryNode.LogicalExchange castorAllDimsSchema ExchangeType.READER_EXCHANGE []) []
      ⟨castorAggAbove ExchangeType.READER_EXCHANGE⟩ rfl rfl).1 ⟨rfl, rfl, rfl⟩,
   (CastorAggCutRule_cuts_iff ⟨[castorAggAbove ExchangeType.SHARD_EXCHANGE], fullVertex⟩
      castorAllDimsSchema []
      (QueryNode.LogicalExchange castorAllDimsSchema ExchangeType.SHARD_EXCHANGE []) []
      ⟨castorAggAbove ExchangeType.SHARD_EXCHANGE⟩ rfl rfl).2
      (by simp [isShardExchange])⟩

/-! ## Further properties of `CreateLogicalPlan` and `MapShards` -/

/-- The start of the call and the clamping leave `Sources` as it is. -/
theorem clampTimes_recordQuery_Sources (csm : ClusterShardMapping) (ctx : QueryContext)
    (opts : ProcessorOptions) :
    (clampTimes csm (recordQuery ctx opts)).Sources = opts.Sources := by
  unfold clampTimes recordQuery
  cases ctx.slowQuery <;> simp only <;> split <;> split <;> rfl

/-- Sources that are measurements without a non-nil entry are all passed over. -/
theorem groupSources_all_skipped (mc : MetaClient) (csm : ClusterShardMapping) :
    ∀ (sources : List InfluxSource) (g : Grouping),
      (∀ s ∈ sources, ∃ m, s = InfluxSource.Measurement m ∧
        csm.shardMapAt ⟨m.Database, m.RetentionPolicy⟩ = none) →
      groupSources mc csm sources g = .ok g := by
  intro sources
  induction sources with
  | nil => intro g _; rfl
  | cons s rest ih =>
    intro g h
    obtain ⟨m, rfl, hm⟩ := h s (List.mem_cons_self _ _)
    simp only [groupSources, hm]
    exact ih g (fun s1 hs1 => h s1 (List.mem_cons_of_mem _ hs1))

/-- C12, refuted as stated: with an empty `ShardMap`, so that no source has a
non-nil entry, the call panics on a sub-query source, and on a measurement
source it builds a plan when the options arrive with a non-nil `Sources`. -/
theorem CreateLogicalPlan_nil_plan_counterexample :
    CreateLogicalPlan sampleMeta sampleExternals sampleNodeBuilder id {} {}
        [InfluxSource.SubQuery []] {}
      = .error (Fault.panicked "subquery is not supported.") ∧
    CreateLogicalPlan sampleMeta sampleExternals sampleNodeBuilder id {} {}
        [InfluxSource.Measurement sampleMeasurement] { Sources := some [] }
      = .ok (some (QueryNode.LogicalExchange {} ExchangeType.NODE_EXCHANGE
          [QueryNode.LogicalExchange {} ExchangeType.SHARD_EXCHANGE
            [QueryNode.LogicalReader {} [QueryNode.LogicalSeries {}]]])) :=
  ⟨rfl, rfl⟩

/-- C12, amended: when every given source is a measurement without a non-nil
`ShardMap` entry and the options arrive with a nil `Sources`,
`CreateLogicalPlan` returns a nil plan with a nil error, whatever the catalog
and the builder are: no task is started and no plan is built. -/
theorem CreateLogicalPlan_nil_plan
    (mc : MetaClient) (x : Externals) (b : NodePlanBuilder) (arrival : List Task → List Task)
    (csm : ClusterShardMapping) (ctx : QueryContext) (sources : List InfluxSource)
    (opts : ProcessorOptions)
    (hArrival : arrival [] = [])
    (hSources : ∀ s ∈ sources, ∃ m, s = InfluxSource.Measurement m ∧
      csm.shardMapAt ⟨m.Database, m.RetentionPolicy⟩ = none)
    (hOpts : opts.Sources = none) :
    CreateLogicalPlan mc x b arrival csm ctx sources opts = .ok none ∧
    (groupSources mc csm sources {}).map (fun g => launchTasks g.shardsMapByNode) = .ok [] := by
  have hg := groupSources_all_skipped mc csm sources {} hSources
  refine ⟨?_, by rw [hg]; rfl⟩
  unfold CreateLogicalPlan
  simp only [hg]
  have hl : launchTasks ({} : Grouping).shardsMapByNode = [] := rfl
  rw [hl, hArrival]
  simp only [gather, afterFanOut, firstFatal, clampTimes_recordQuery_Sources, hOpts]

/-- Witness of the amended C12: a measurement of a database that was never
mapped. -/
theorem CreateLogicalPlan_nil_plan_witness :
    CreateLogicalPlan sampleMeta sampleExternals sampleNodeBuilder id {} {}
        [InfluxSource.Measurement sampleMeasurement] {} = .ok none :=
  (CreateLogicalPlan_nil_plan sampleMeta sampleExternals sampleNodeBuilder id {} {}
    [InfluxSource.Measurement sampleMeasurement] {} rfl
    (by
      intro s hs
      simp only [List.mem_singleton] at hs
      exact ⟨sampleMeasurement, hs, rfl⟩)
    rfl).1

/-- C13, refuted as stated: the query spans 50 to 250 and the only shard group
resolved spans 0 to 100; the clamp window is 50 to 250, not the range of the
group. -/
theorem MapShards_window_counterexample :
    (MapShards oneGroupMeta [InfluxSource.Measurement sampleMeasurement] ⟨50, 250⟩ {} none).map
      (fun a => (a.MinTime, a.MaxTime)) = .ok (50, 250) ∧
    groupsIntersection [⟨1, 0, 100, [⟨11, [0, 1]⟩, ⟨12, [2, 3]⟩]⟩] = some ⟨0, 100⟩ :=
  ⟨rfl, rfl⟩

/-- C13, amended: after a successful `MapShards` the clamp window
`[MinTime, MaxTime]` is the time range of the query, whatever shard groups were
resolved. -/
theorem MapShards_window_is_query_range (mc : MetaClient) (sources : List InfluxSource)
    (t : TimeRange) (opt : SelectOptions) (condition : Option Expr) (a : ClusterShardMapping)
    (hOk : MapShards mc sources t opt condition = .ok a) :
    a.MinTime = t.Min ∧ a.MaxTime = t.Max := by
  unfold MapShards at hOk
  cases h : mapShards mc t.Min t.Max condition opt sources { a := {} } with
  | error e => simp [h] at hOk
  | ok st =>
    simp [h] at hOk
    subst hOk
    exact ⟨rfl, rfl⟩

/-- Witness of the amended C13, at the sample with one group. -/
theorem MapShards_window_is_query_range_witness :
    (okOr {} (MapShards oneGroupMeta [InfluxSource.Measurement sampleMeasurement]
        ⟨50, 250⟩ {} none)).MinTime = 50 ∧
    (okOr {} (MapShards oneGroupMeta [InfluxSource.Measurement sampleMeasurement]
        ⟨50, 250⟩ {} none)).MaxTime = 250 :=
  MapShards_window_is_query_range oneGroupMeta [InfluxSource.Measurement sampleMeasurement]
    ⟨50, 250⟩ {} none
    (okOr {} (MapShards oneGroupMeta [InfluxSource.Measurement sampleMeasurement]
      ⟨50, 250⟩ {} none)) rfl

/-! ## Properties of `getSchema` -/

/-- One round of `getSchema` on a failed catalog call: the call is made again
when the error is on the allow-list and the deadline has not passed; otherwise
the round is the last one, with a panic carrying the error when it is on the
allow-list and with the fixed error of line 231 when it is not. -/
theorem getSchemaFrom_error_round (mc : MetaClient) (x : Externals)
    (database retentionPolicy mst : String) (fuel n : Nat) (err : Error)
    (hErr : mc.Schema database retentionPolicy mst n = .error err) :
    getSchemaFrom mc x database retentionPolicy mst (fuel + 1) n =
      if isRetryable x err = true ∧
          mc.Since database retentionPolicy mst n < x.DMLTimeOutSecond * 1000000000 then
        getSchemaFrom mc x database retentionPolicy mst fuel (n + 1)
      else if isRetryable x err = true then .error (Fault.panicked err)
      else .error (Fault.error "get schema failed") := by
  simp only [getSchemaFrom, hErr]
  by_cases h1 : isRetryable x err = true
  · by_cases h2 : mc.Since database retentionPolicy mst n < x.DMLTimeOutSecond * 1000000000
    · simp [h1, h2]
    · simp [h1, h2]
  · simp [h1]

/-- A run of retried rounds: `n` rounds from round `start` on that all fail with
an allow-listed error before the deadline lead to round `start + n`. -/
theorem getSchemaFrom_retried (mc : MetaClient) (x : Externals)
    (database retentionPolicy mst : String) :
    ∀ (n fuel start : Nat),
      (∀ k, start ≤ k → k < start + n → ∃ e,
        mc.Schema database retentionPolicy mst k = .error e ∧ isRetryable x e = true ∧
        mc.Since database retentionPolicy mst k < x.DMLTimeOutSecond * 1000000000) →
      getSchemaFrom mc x database retentionPolicy mst (fuel + n) start =
        getSchemaFrom mc x database retentionPolicy mst fuel (start + n) := by
  intro n
  induction n with
  | zero => intro fuel start _; rfl
  | succ n ih =>
    intro fuel start h
    obtain ⟨e, he, hr, hs⟩ := h start (Nat.le_refl _) (by omega)
    have hstep := getSchemaFrom_error_round mc x database retentionPolicy mst (fuel + n) start e he
    rw [show fuel + (n + 1) = fuel + n + 1 by omega, hstep]
    simp only [hr, hs, and_self, if_true]
    rw [ih fuel (start + 1) (fun k hk1 hk2 => h k (by omega) (by omega))]
    congr 1
    omega

/-- The outcome of `getSchema` when the first `n` calls are retried and the call
after them ends the loop with the fault `f`. -/
theorem getSchema_after_retries (mc : MetaClient) (x : Externals)
    (database retentionPolicy mst : String) (fuel n : Nat)
    (hRetried : ∀ k < n, ∃ e,
      mc.Schema database retentionPolicy mst k = .error e ∧ isRetryable x e = true ∧
      mc.Since database retentionPolicy mst k < x.DMLTimeOutSecond * 1000000000)
    (hFuel : n < fuel) :
    getSchema mc x fuel database retentionPolicy mst =
      getSchemaFrom mc x database retentionPolicy mst (fuel - n) n := by
  unfold getSchema
  have h := getSchemaFrom_retried mc x database retentionPolicy mst n (fuel - n) 0
    (fun k _ hk => hRetried k (by omega))
  rw [show fuel - n + n = fuel by omega] at h
  rw [h]
  simp

/-- The allow-list of `getSchema`, entry by entry. -/
theorem isRetryable_iff (x : Externals) (err : Error) :
    isRetryable x err = true ↔
      (stringsContains err x.ErrPartitionNotFound = true ∨
       stringsContains err x.ErrDBPTClose = true ∨
       stringsContains err "connection reset by peer" = true ∨
       stringsContains err "connection refused" = true ∨
       stringsContains err "broken pipe" = true ∨
       stringsContains err "read message type: EOF" = true ∨
       stringsContains err "write: connection timed out" = true) := by
  simp only [isRetryable, Bool.or_eq_true, or_assoc]

/-- C15: in `getSchema` a failed catalog call is followed by another call exactly
when its error contains one of the seven allow-listed texts and the time
elapsed since the start is below `DMLTimeOutSecond`.  When the first `n` calls
are retried in this way and the next one fails with an allow-listed error after
the deadline, the call ends with a panic that carries that very error, given
enough rounds; it does not return a schema or a nil error. -/
theorem getSchema_retry_until_deadline (mc : MetaClient) (x : Externals)
    (database retentionPolicy mst : String) (fuel n : Nat) (err : Error)
    (hRetried : ∀ k < n, ∃ e,
      mc.Schema database retentionPolicy mst k = .error e ∧ isRetryable x e = true ∧
      mc.Since database retentionPolicy mst k < x.DMLTimeOutSecond * 1000000000)
    (hLast : mc.Schema database retentionPolicy mst n = .error err)
    (hAllow : isRetryable x err = true)
    (hLate : ¬ mc.Since database retentionPolicy mst n < x.DMLTimeOutSecond * 1000000000)
    (hFuel : n < fuel) :
    getSchema mc x fuel database retentionPolicy mst = .error (Fault.panicked err) ∧
    (∀ ms, getSchema mc x fuel database retentionPolicy mst ≠ .ok ms) ∧
    (∀ (e : Error) (k f : Nat), mc.Schema database retentionPolicy mst k = .error e →
      getSchemaFrom mc x database retentionPolicy mst (f + 1) k =
        if isRetryable x e = true ∧
            mc.Since database retentionPolicy mst k < x.DMLTimeOutSecond * 1000000000 then
          getSchemaFrom mc x database retentionPolicy mst f (k + 1)
        else if isRetryable x e = true then .error (Fault.panicked e)
        else .error (Fault.error "get schema failed")) ∧
    (∀ e : Error, isRetryable x e = true ↔
      (stringsContains e x.ErrPartitionNotFound = true ∨
       stringsContains e x.ErrDBPTClose = true ∨
       stringsContains e "connection reset by peer" = true ∨
       stringsContains e "connection refused" = true ∨
       stringsContains e "broken pipe" = true ∨
       stringsContains e "read message type: EOF" = true ∨
       stringsContains e "write: connection timed out" = true)) := by
  have hrun : getSchema mc x fuel database retentionPolicy mst = .error (Fault.panicked err) := by
    rw [getSchema_after_retries mc x database retentionPolicy mst fuel n hRetried hFuel]
    rw [show fuel - n = (fuel - n - 1) + 1 by omega]
    rw [getSchemaFrom_error_round mc x database retentionPolicy mst _ n err hLast]
    simp [hAllow, hLate]
  refine ⟨hrun, ?_, ?_, isRetryable_iff x⟩
  · intro ms h
    rw [hrun] at h
    cases h
  · intro e k f he
    exact getSchemaFrom_error_round mc x database retentionPolicy mst f k e he

/-- Witness of C15: the schema service of `down` refuses every connection; with
a budget of 30 seconds and the clock showing `n` seconds at the `n`-th call,
the calls 0 to 29 are retried and call 30 ends in a panic with the error. -/
theorem getSchema_retry_until_deadline_witness :
    getSchema flakyMeta sampleExternals 40 "db0" "rp0" "down"
      = .error (Fault.panicked "dial tcp: connection refused") :=
  (getSchema_retry_until_deadline flakyMeta sampleExternals "db0" "rp0" "down" 40 30
    "dial tcp: connection refused"
    (fun k hk => ⟨"dial tcp: connection refused", rfl, by decide, by
      show k * 1000000000 < 30 * 1000000000
      omega⟩)
    rfl (by decide) (by decide) (by decide)).1

/-- A transient failure evaluated: two broken pipes, then the schema. -/
theorem getSchema_flaky_evaluated :
    (getSchema flakyMeta sampleExternals 40 "db0" "rp0" "flaky").map
      (fun ms => (ms.metaFields, ms.metaDimensions))
      = .ok (some [("value", 1)], some ["host"]) := by
  rfl

/-- A fault of `getSchema` at a measurement ends the loop of `FieldDimensions`
with that fault when the schema calls for the measurements before it succeed. -/
theorem fieldDimensionsLoop_fault (mc : MetaClient) (x : Externals) (fuel : Nat)
    (m : Measurement) (mi : MeasurementInfo) (post : List MeasurementInfo) (f : Fault)
    (hFault : getSchema mc x fuel m.Database m.RetentionPolicy mi.Name = .error f) :
    ∀ (pre : List MeasurementInfo) (fields : List (String × DataType))
      (dimensions : List (String × Unit)),
      (∀ p ∈ pre, ∃ sp, getSchema mc x fuel m.Database m.RetentionPolicy p.Name = .ok sp) →
      fieldDimensionsLoop mc x fuel m (pre ++ mi :: post) fields dimensions = .error f := by
  intro pre
  induction pre with
  | nil => intro fields dimensions _; simp [fieldDimensionsLoop, hFault]
  | cons p pre ih =>
    intro fields dimensions hPre
    obtain ⟨sp, hsp⟩ := hPre p (List.mem_cons_self _ _)
    have hrest := fun q hq => hPre q (List.mem_cons_of_mem _ hq)
    obtain ⟨mf, md⟩ := sp
    cases mf <;> cases md <;>
      simp only [List.cons_append, fieldDimensionsLoop, hsp] <;> exact ih _ _ hrest

/-- A fault of `getSchema` at a measurement ends the loop of `MapTypeBatch` with
that fault when the schema calls for the measurements before it succeed and
report no requested column both as a field and as a tag. -/
theorem mapTypeLoop_fault (mc : MetaClient) (x : Externals) (fuel : Nat) (m : Measurement)
    (hOrder : ∀ i ks, (mc.RangeOrder i ks).Perm ks)
    (mi : MeasurementInfo) (post : List MeasurementInfo) (f : Fault)
    (hFault : getSchema mc x fuel m.Database m.RetentionPolicy mi.Name = .error f)
    (keys : List String) :
    ∀ (pre : List MeasurementInfo) (i : Nat) (fields : List (String × DataType)),
      fields.map Prod.fst = keys →
      (∀ p ∈ pre, ∃ sp, getSchema mc x fuel m.Database m.RetentionPolicy p.Name = .ok sp ∧
        ∀ k ∈ keys, sp.conflicts k = false) →
      (mapTypeLoop mc x fuel m (pre ++ mi :: post) i fields).2 = some f := by
  intro pre
  induction pre with
  | nil => intro i fields _ _; simp [mapTypeLoop, hFault]
  | cons p pre ih =>
    intro i fields hkeys hPre
    obtain ⟨sp, hsp, hnc⟩ := hPre p (List.mem_cons_self _ _)
    have hsub : ∀ k1 ∈ mc.RangeOrder i (fields.map Prod.fst), k1 ∈ fields.map Prod.fst :=
      fun k1 h => (hOrder i _).mem_iff.mp h
    obtain ⟨h1, h2⟩ := mapTypeKeys_result x p.Name sp _ fields hsub
    cases hr : mapTypeKeys x p.Name sp (mc.RangeOrder i (fields.map Prod.fst)) fields with
    | mk f1 e1 =>
      rw [hr] at h1 h2
      simp only at h1 h2
      rcases h2 with ⟨h2, _⟩ | ⟨k1, hk1, hc, _⟩
      · subst h2
        simp only [List.cons_append, mapTypeLoop, hsp, hr]
        exact ih (i + 1) f1 (by rw [h1, hkeys])
          (fun q hq => hPre q (List.mem_cons_of_mem _ hq))
      · have := hnc k1 (by rw [← hkeys]; exact hsub k1 hk1)
        rw [hc] at this
        cases this

/-- C14, refuted as stated: the catalog answers the schema call for `gone` with
an error outside the allow-list; `getSchema`, `FieldDimensions` and
`MapTypeBatch` return another error, with the text of line 231. -/
theorem getSchema_error_counterexample :
    flakyMeta.Schema "db0" "rp0" "gone" 0 = .error "measurement not found" ∧
    isRetryable sampleExternals "measurement not found" = false ∧
    (getSchema flakyMeta sampleExternals 40 "db0" "rp0" "gone").map
      (fun ms => (ms.metaFields, ms.metaDimensions))
      = .error (Fault.error "get schema failed") ∧
    FieldDimensions flakyMeta sampleExternals 40 fivePartitions
      { Database := "db0", RetentionPolicy := "rp0", Name := "gone" }
      = .error (Fault.error "get schema failed") ∧
    (MapTypeBatch flakyMeta sampleExternals 40
      { Database := "db0", RetentionPolicy := "rp0", Name := "gone" }
      [("value", DataType.Unknown)]).2 = some (Fault.error "get schema failed") := by
  refine ⟨rfl, by decide, rfl, rfl, rfl⟩

/-- C14, amended: when the catalog answers a schema call, after any number of
retried calls, with an error that matches none of the allow-list entries,
`getSchema` returns a fixed error with the text `get schema failed` in place of
the catalog's error, and `FieldDimensions` and `MapTypeBatch`, when they reach
that measurement, return that fixed error unchanged. -/
theorem getSchema_other_error (mc : MetaClient) (x : Externals)
    (database retentionPolicy mst : String) (fuel n : Nat) (err : Error)
    (hRetried : ∀ k < n, ∃ e,
      mc.Schema database retentionPolicy mst k = .error e ∧ isRetryable x e = true ∧
      mc.Since database retentionPolicy mst k < x.DMLTimeOutSecond * 1000000000)
    (hLast : mc.Schema database retentionPolicy mst n = .error err)
    (hOther : isRetryable x err = false)
    (hFuel : n < fuel) :
    getSchema mc x fuel database retentionPolicy mst = .error (Fault.error "get schema failed") ∧
    (∀ (csm : ClusterShardMapping) (m : Measurement) (pre post : List MeasurementInfo)
        (mi : MeasurementInfo),
      m.Database = database → m.RetentionPolicy = retentionPolicy → mi.Name = mst →
      csm.shardMapAt ⟨m.Database, m.RetentionPolicy⟩ ≠ none →
      mc.GetMeasurements m = .ok (pre ++ mi :: post) →
      (∀ p ∈ pre, ∃ sp, getSchema mc x fuel m.Database m.RetentionPolicy p.Name = .ok sp) →
      FieldDimensions mc x fuel csm m = .error (Fault.error "get schema failed")) ∧
    (∀ (m : Measurement) (fields : List (String × DataType)) (pre post : List MeasurementInfo)
        (mi : MeasurementInfo),
      m.Database = database → m.RetentionPolicy = retentionPolicy → mi.Name = mst →
      (∀ i ks, (mc.RangeOrder i ks).Perm ks) →
      mc.GetMeasurements m = .ok (pre ++ mi :: post) →
      (∀ p ∈ pre, ∃ sp, getSchema mc x fuel m.Database m.RetentionPolicy p.Name = .ok sp ∧
        ∀ k ∈ fields.map Prod.fst, sp.conflicts k = false) →
      (MapTypeBatch mc x fuel m fields).2 = some (Fault.error "get schema failed")) := by
  have hrun : getSchema mc x fuel database retentionPolicy mst
      = .error (Fault.error "get schema failed") := by
    rw [getSchema_after_retries mc x database retentionPolicy mst fuel n hRetried hFuel]
    rw [show fuel - n = (fuel - n - 1) + 1 by omega]
    rw [getSchemaFrom_error_round mc x database retentionPolicy mst _ n err hLast]
    simp [hOther]
  refine ⟨hrun, ?_, ?_⟩
  · intro csm m pre post mi hdb hrp hname hentry hms hpre
    subst hdb hrp hname
    cases he : csm.shardMapAt ⟨m.Database, m.RetentionPolicy⟩ with
    | none => exact absurd he hentry
    | some v =>
      simp only [FieldDimensions, he, hms]
      rw [fieldDimensionsLoop_fault mc x fuel m mi post _ hrun pre [] [] hpre]
  · intro m fields pre post mi hdb hrp hname hOrder hms hpre
    subst hdb hrp hname
    unfold MapTypeBatch
    simp only [hms]
    exact mapTypeLoop_fault mc x fuel m hOrder mi post _ hrun _ pre 0 fields rfl hpre

/-- Witness of the amended C14, at the measurement `gone`. -/
theorem getSchema_other_error_witness :
    getSchema flakyMeta sampleExternals 40 "db0" "rp0" "gone"
      = .error (Fault.error "get schema failed") :=
  (getSchema_other_error flakyMeta sampleExternals "db0" "rp0" "gone" 40 0
    "measurement not found" (fun k hk => absurd hk (Nat.not_lt_zero k)) rfl (by decide)
    (by decide)).1

/-! ## Further properties of `MapTypeBatch` -/

/-- One round of the key loop on a column that is not both a field and a tag:
the column gets the type this measurement gives it and the loop goes on. -/
theorem mapTypeKeys_cons_plain (x : Externals) (mst : String) (ms : MetaSchema)
    (k : String) (rest : List String) (fields : List (String × DataType))
    (hk : ms.conflicts k = false) :
    mapTypeKeys x mst ms (k :: rest) fields =
      mapTypeKeys x mst ms rest (GoMap.set fields k (ms.typeOf x k)) := by
  unfold MetaSchema.conflicts at hk
  rw [mapTypeKeys]
  unfold MetaSchema.typeOf
  cases hft : GoMap.get (ms.metaFields.getD []) k with
  | none =>
    by_cases hdt : k ∈ ms.metaDimensions.getD []
    · simp [hdt]
    · simp [hdt]
  | some t =>
    by_cases hdt : k ∈ ms.metaDimensions.getD []
    · simp [hft, hdt] at hk
    · simp [hdt]

/-- The key loop without conflicts: no error, every visited column has the type
this measurement gives it, the other columns keep theirs. -/
theorem mapTypeKeys_plain (x : Externals) (mst : String) (ms : MetaSchema) :
    ∀ (ks : List String) (fields : List (String × DataType)),
      (∀ k ∈ ks, ms.conflicts k = false) →
      (mapTypeKeys x mst ms ks fields).2 = none ∧
      ∀ k, (k ∈ ks → GoMap.get (mapTypeKeys x mst ms ks fields).1 k = some (ms.typeOf x k)) ∧
           (k ∉ ks → GoMap.get (mapTypeKeys x mst ms ks fields).1 k = GoMap.get fields k) := by
  intro ks
  induction ks with
  | nil => intro fields _; simp [mapTypeKeys]
  | cons k0 rest ih =>
    intro fields hno
    rw [mapTypeKeys_cons_plain x mst ms k0 rest fields (hno k0 (List.mem_cons_self _ _))]
    obtain ⟨h1, h2⟩ := ih (GoMap.set fields k0 (ms.typeOf x k0))
      (fun k hk => hno k (List.mem_cons_of_mem _ hk))
    refine ⟨h1, ?_⟩
    intro k
    constructor
    · intro hk
      by_cases hr : k ∈ rest
      · exact (h2 k).1 hr
      · have hk0 : k = k0 := by
          rcases List.mem_cons.mp hk with h | h
          · exact h
          · exact absurd h hr
        rw [(h2 k).2 hr, hk0, GoMap_get_set_same]
    · intro hk
      have hr : k ∉ rest := fun h => hk (List.mem_cons_of_mem _ h)
      have hne : k ≠ k0 := fun h => hk (h ▸ List.mem_cons_self _ _)
      rw [(h2 k).2 hr, GoMap_get_set_other _ _ _ _ hne]

/-- The loop over the measurements without conflicts and without failed schema
calls: no error, and every requested column ends with the type that the last
measurement gives it. -/
theorem mapTypeLoop_last (mc : MetaClient) (x : Externals) (fuel : Nat) (m : Measurement)
    (hOrder : ∀ i ks, (mc.RangeOrder i ks).Perm ks)
    (last : MeasurementInfo) (sl : MetaSchema) (keys : List String)
    (hLast : getSchema mc x fuel m.Database m.RetentionPolicy last.Name = .ok sl)
    (hLastPlain : ∀ k ∈ keys, sl.conflicts k = false) :
    ∀ (pre : List MeasurementInfo) (i : Nat) (fields : List (String × DataType)),
      fields.map Prod.fst = keys →
      (∀ p ∈ pre, ∃ sp, getSchema mc x fuel m.Database m.RetentionPolicy p.Name = .ok sp ∧
        ∀ k ∈ keys, sp.conflicts k = false) →
      (mapTypeLoop mc x fuel m (pre ++ [last]) i fields).2 = none ∧
      ∀ k ∈ keys,
        GoMap.get (mapTypeLoop mc x fuel m (pre ++ [last]) i fields).1 k
          = some (sl.typeOf x k) := by
  intro pre
  induction pre with
  | nil =>
    intro i fields hkeys _
    have hmem : ∀ k, k ∈ mc.RangeOrder i (fields.map Prod.fst) ↔ k ∈ keys := by
      intro k; rw [(hOrder i _).mem_iff, hkeys]
    obtain ⟨h1, h2⟩ := mapTypeKeys_plain x last.Name sl (mc.RangeOrder i (fields.map Prod.fst))
      fields (fun k hk => hLastPlain k ((hmem k).mp hk))
    cases hr : mapTypeKeys x last.Name sl (mc.RangeOrder i (fields.map Prod.fst)) fields with
    | mk f1 e1 =>
      rw [hr] at h1 h2
      simp only at h1 h2
      subst h1
      simp only [List.nil_append, mapTypeLoop, hLast, hr]
      exact ⟨trivial, fun k hk => (h2 k).1 ((hmem k).mpr hk)⟩
  | cons p pre ih =>
    intro i fields hkeys hPre
    obtain ⟨sp, hsp, hnc⟩ := hPre p (List.mem_cons_self _ _)
    have hmem : ∀ k, k ∈ mc.RangeOrder i (fields.map Prod.fst) ↔ k ∈ keys := by
      intro k; rw [(hOrder i _).mem_iff, hkeys]
    have hsub : ∀ k1 ∈ mc.RangeOrder i (fields.map Prod.fst), k1 ∈ fields.map Prod.fst :=
      fun k1 h => (hOrder i _).mem_iff.mp h
    obtain ⟨h1, _⟩ := mapTypeKeys_plain x p.Name sp (mc.RangeOrder i (fields.map Prod.fst))
      fields (fun k hk => hnc k ((hmem k).mp hk))
    obtain ⟨hk1, _⟩ := mapTypeKeys_result x p.Name sp _ fields hsub
    cases hr : mapTypeKeys x p.Name sp (mc.RangeOrder i (fields.map Prod.fst)) fields with
    | mk f1 e1 =>
      rw [hr] at h1 hk1
      simp only at h1 hk1
      subst h1
      simp only [List.cons_append, mapTypeLoop, hsp, hr]
      exact ih (i + 1) f1 (by rw [hk1, hkeys])
        (fun q hq => hPre q (List.mem_cons_of_mem _ hq))

/-- C11, refuted as stated: `host` is a field of `m1` and a tag of `m2`, both
matched by the source.  `MapTypeBatch` returns nil with `host` resolved to the
interpretation of the measurement visited last, and `MapType` returns the
interpretation of the first one. -/
theorem MapTypeBatch_cross_measurement_counterexample :
    MapTypeBatch crossMeta sampleExternals 1 sampleMeasurement [("host", DataType.Unknown)]
      = ([("host", DataType.Tag)], none) ∧
    MapTypeBatch { crossMeta with GetMeasurements := fun _ => .ok [⟨"m2"⟩, ⟨"m1"⟩] }
        sampleExternals 1 sampleMeasurement [("host", DataType.Unknown)]
      = ([("host", DataType.Integer)], none) ∧
    MapType crossMeta sampleExternals 1 sampleMeasurement "host" = .ok DataType.Integer := by
  refine ⟨rfl, rfl, rfl⟩

/-- The loop of `MapType` returns at the first measurement that has the column,
with the interpretation of that measurement. -/
theorem mapTypeFind_first (mc : MetaClient) (x : Externals) (fuel : Nat) (m : Measurement)
    (k : String) (first : MeasurementInfo) (after : List MeasurementInfo) (sf : MetaSchema)
    (hFirst : getSchema mc x fuel m.Database m.RetentionPolicy first.Name = .ok sf)
    (hHas : (GoMap.get (sf.metaFields.getD []) k).isSome = true ∨
      k ∈ sf.metaDimensions.getD []) :
    ∀ (before : List MeasurementInfo),
      (∀ p ∈ before, ∃ sp, getSchema mc x fuel m.Database m.RetentionPolicy p.Name = .ok sp ∧
        GoMap.get (sp.metaFields.getD []) k = none ∧ k ∉ sp.metaDimensions.getD []) →
      mapTypeFind mc x fuel m k (before ++ first :: after) = .ok (sf.typeOf x k) := by
  intro before
  induction before with
  | nil =>
    intro _
    simp only [List.nil_append, mapTypeFind, hFirst, MetaSchema.typeOf]
    cases hf : GoMap.get (sf.metaFields.getD []) k with
    | some t => rfl
    | none =>
      have hd : k ∈ sf.metaDimensions.getD [] := by
        rcases hHas with h | h
        · simp [hf] at h
        · exact h
      simp [hd]
  | cons p rest ih =>
    intro hB
    obtain ⟨sp, hsp, hf, hd⟩ := hB p (List.mem_cons_self _ _)
    simp only [List.cons_append, mapTypeFind, hsp, hf, hd, if_false]
    exact ih (fun q hq => hB q (List.mem_cons_of_mem _ hq))

/-- The loop of `MapType` returns `Unknown` when no measurement has the column. -/
theorem mapTypeFind_none (mc : MetaClient) (x : Externals) (fuel : Nat) (m : Measurement)
    (k : String) :
    ∀ (ms : List MeasurementInfo),
      (∀ p ∈ ms, ∃ sp, getSchema mc x fuel m.Database m.RetentionPolicy p.Name = .ok sp ∧
        GoMap.get (sp.metaFields.getD []) k = none ∧ k ∉ sp.metaDimensions.getD []) →
      mapTypeFind mc x fuel m k ms = .ok DataType.Unknown := by
  intro ms
  induction ms with
  | nil => intro _; rfl
  | cons p rest ih =>
    intro hB
    obtain ⟨sp, hsp, hf, hd⟩ := hB p (List.mem_cons_self _ _)
    simp only [mapTypeFind, hsp, hf, hd, if_false]
    exact ih (fun q hq => hB q (List.mem_cons_of_mem _ hq))

/-- C11, amended: a column that is a field of one matched measurement and a tag
of another is not reported.  When every schema call succeeds and no single
measurement reports a requested column both as a field and as a tag,
`MapTypeBatch` returns nil, and every requested column ends with the
interpretation of the measurement visited last: its field type there, `Tag`, or
`Unknown` when that measurement has no such column.  `MapType` returns the
interpretation of the first measurement that has the column, passing over the
measurements before it that do not have it, and `Unknown` when no measurement
has it. -/
theorem MapTypeBatch_last_measurement_wins (mc : MetaClient) (x : Externals) (fuel : Nat)
    (m : Measurement) (fields : List (String × DataType))
    (pre : List MeasurementInfo) (last : MeasurementInfo) (sl : MetaSchema)
    (hOrder : ∀ i ks, (mc.RangeOrder i ks).Perm ks)
    (hMs : mc.GetMeasurements m = .ok (pre ++ [last]))
    (hPre : ∀ p ∈ pre, ∃ sp, getSchema mc x fuel m.Database m.RetentionPolicy p.Name = .ok sp ∧
      ∀ k ∈ fields.map Prod.fst, sp.conflicts k = false)
    (hLast : getSchema mc x fuel m.Database m.RetentionPolicy last.Name = .ok sl)
    (hLastPlain : ∀ k ∈ fields.map Prod.fst, sl.conflicts k = false) :
    (MapTypeBatch mc x fuel m fields).2 = none ∧
    (∀ k ∈ fields.map Prod.fst,
      GoMap.get (MapTypeBatch mc x fuel m fields).1 k = some (sl.typeOf x k)) ∧
    (∀ k before first after sf, pre ++ [last] = before ++ first :: after →
      (∀ p ∈ before, ∃ sp, getSchema mc x fuel m.Database m.RetentionPolicy p.Name = .ok sp ∧
        GoMap.get (sp.metaFields.getD []) k = none ∧ k ∉ sp.metaDimensions.getD []) →
      getSchema mc x fuel m.Database m.RetentionPolicy first.Name = .ok sf →
      ((GoMap.get (sf.metaFields.getD []) k).isSome = true ∨ k ∈ sf.metaDimensions.getD []) →
      MapType mc x fuel m k = .ok (sf.typeOf x k)) ∧
    (∀ k,
      (∀ p ∈ pre ++ [last],
        ∃ sp, getSchema mc x fuel m.Database m.RetentionPolicy p.Name = .ok sp ∧
          GoMap.get (sp.metaFields.getD []) k = none ∧ k ∉ sp.metaDimensions.getD []) →
      MapType mc x fuel m k = .ok DataType.Unknown) := by
  have hB : MapTypeBatch mc x fuel m fields = mapTypeLoop mc x fuel m (pre ++ [last]) 0 fields := by
    simp [MapTypeBatch, hMs]
  rw [hB]
  have hL := mapTypeLoop_last mc x fuel m hOrder last sl _ hLast hLastPlain pre 0 fields rfl hPre
  refine ⟨hL.1, hL.2, ?_, ?_⟩
  · intro k before first after sf hEq hBefore hFirst hHas
    simp only [MapType, hMs, hEq]
    exact mapTypeFind_first mc x fuel m k first after sf hFirst hHas before hBefore
  · intro k hNone
    simp only [MapType, hMs]
    exact mapTypeFind_none mc x fuel m k _ hNone

/-- Witness of the amended C11: with `m1` then `m2`, `MapTypeBatch` leaves `host`
as a tag, the interpretation of `m2`; `MapType` passes over `m1`, which has no
column `value`, and returns the type that `value` has in `m2`. -/
theorem MapTypeBatch_last_measurement_wins_witness :
    (MapTypeBatch crossMeta sampleExternals 1 sampleMeasurement
        [("host", DataType.Unknown)]).2 = none ∧
    GoMap.get (MapTypeBatch crossMeta sampleExternals 1 sampleMeasurement
        [("host", DataType.Unknown)]).1 "host"
      = some (MetaSchema.typeOf sampleExternals ⟨some [("value", 1)], some ["host"]⟩ "host") ∧
    MapType crossMeta sampleExternals 1 sampleMeasurement "value"
      = .ok (MetaSchema.typeOf sampleExternals ⟨some [("value", 1)], some ["host"]⟩ "value") ∧
    MetaSchema.typeOf sampleExternals ⟨some [("value", 1)], some ["host"]⟩ "value"
      = DataType.Integer :=
  have h := MapTypeBatch_last_measurement_wins crossMeta sampleExternals 1 sampleMeasurement
    [("host", DataType.Unknown)] [⟨"m1"⟩] ⟨"m2"⟩ ⟨some [("value", 1)], some ["host"]⟩
    (fun _ _ => List.Perm.refl _) rfl
    (by
      intro p hp
      simp only [List.mem_singleton] at hp
      subst hp
      exact ⟨⟨some [("host", 4)], some []⟩, rfl, by decide⟩)
    rfl (by decide)
  ⟨h.1, h.2.1 "host" (by decide),
   h.2.2.1 "value" [⟨"m1"⟩] ⟨"m2"⟩ [] ⟨some [("value", 1)], some ["host"]⟩ rfl
     (by
       intro p hp
       simp only [List.mem_singleton] at hp
       subst hp
       exact ⟨⟨some [("host", 4)], some []⟩, rfl, by decide, by decide⟩)
     rfl (Or.inl (by decide)),
   by decide⟩

/-! ## Properties settled over all rules -/

/-- C25: on a LogicalExchange of type NODE_EXCHANGE or SERIES_EXCHANGE,
`AggPushdownToExchangeRule.OnMatch` returns without issuing any planner
operation, whatever the schema says about calls, pushdown eligibility and
ML-operator calls and whatever the builder and the DAG lookup do. -/
theorem AggPushdownToExchangeRule_declines_node_series
    (b : LogicalPlanBuilder) (call : OptRuleCall)
    (schema : QuerySchema) (eType : ExchangeType) (inputs : List QueryNode)
    (hNode : call.Node 0 = some (QueryNode.LogicalExchange schema eType inputs))
    (hType : eType = ExchangeType.NODE_EXCHANGE ∨ eType = ExchangeType.SERIES_EXCHANGE) :
    AggPushdownToExchangeRule.OnMatch b call = .ok [] := by
  unfold AggPushdownToExchangeRule.OnMatch
  rw [hNode]
  rcases hType with h | h <;> subst h <;> simp

/-- Witness of C25: a series-level Exchange with a pushdown-eligible call and no
ML-operator call is declined. -/
theorem AggPushdownToExchangeRule_declines_node_series_witness :
    countSchema.HasCall = true ∧ countSchema.CanCallsPushdown = true ∧
    countSchema.HasCastorCall = false ∧
    AggPushdownToExchangeRule.OnMatch sampleBuilder
      ⟨[QueryNode.LogicalExchange countSchema ExchangeType.SERIES_EXCHANGE []], sampleVertex⟩
      = .ok [] :=
  ⟨rfl, rfl, rfl, AggPushdownToExchangeRule_declines_node_series sampleBuilder
    ⟨[QueryNode.LogicalExchange countSchema ExchangeType.SERIES_EXCHANGE []], sampleVertex⟩
    countSchema ExchangeType.SERIES_EXCHANGE [] rfl (Or.inr rfl)⟩

/-- C24: the override of the time constraints leaves `StartTime` at the larger of
its old value and `MinTime.UnixNano()` when `MinTime` is not the zero time, and
`EndTime` at the smaller of its old value and `MaxTime.UnixNano()` when `MaxTime`
is not the zero time; a bound whose clamp time is zero stays as it was, and so
do the other options.  So the start is not before a non-zero `MinTime` and the
end not after a non-zero `MaxTime`. -/
theorem clampTimes_bounds (csm : ClusterShardMapping) (opts : ProcessorOptions) :
    (clampTimes csm opts).StartTime =
      (if csm.MinTime.IsZero then opts.StartTime
       else max opts.StartTime csm.MinTime.UnixNano) ∧
    (clampTimes csm opts).EndTime =
      (if csm.MaxTime.IsZero then opts.EndTime
       else min opts.EndTime csm.MaxTime.UnixNano) ∧
    (csm.MinTime.IsZero = true ∨ csm.MinTime.UnixNano ≤ (clampTimes csm opts).StartTime) ∧
    (csm.MaxTime.IsZero = true ∨ (clampTimes csm opts).EndTime ≤ csm.MaxTime.UnixNano) ∧
    (clampTimes csm opts).Query = opts.Query ∧
    (clampTimes csm opts).Sources = opts.Sources := by
  unfold clampTimes
  cases h1 : csm.MinTime.IsZero <;> cases h2 : csm.MaxTime.IsZero <;>
    simp only [Bool.not_true, Bool.not_false, Bool.false_and, Bool.true_and] <;>
    by_cases h3 : opts.StartTime < csm.MinTime.UnixNano <;>
    by_cases h4 : opts.EndTime > csm.MaxTime.UnixNano <;>
    simp [h3, h4] <;> omega

/-- C27: `Equals` returns false when `rhs` is of another concrete rule type and
true when `rhs` is the same rule object; for two distinct objects of the same
type it returns true exactly when the categories are equal and
`OptRuleBase.Equals` holds between the bases.  Rules of one type have one
category, so between distinct objects of one type it is `OptRuleBase.Equals`
that decides. -/
theorem OptRule_Equals_cases {Base : Type} (baseEquals : Base → Base → Bool)
    (r rhs : OptRule Base) :
    (rhs.ruleType ≠ r.ruleType → r.Equals baseEquals rhs = false) ∧
    r.Equals baseEquals r = true ∧
    (rhs.ruleType = r.ruleType → r.addr = rhs.addr → r.Equals baseEquals rhs = true) ∧
    (rhs.ruleType = r.ruleType → r.addr ≠ rhs.addr →
      (r.Equals baseEquals rhs = true ↔
        (r.Catagory = rhs.Catagory ∧ baseEquals r.base rhs.base = true))) ∧
    (rhs.ruleType = r.ruleType → r.addr ≠ rhs.addr →
      r.Equals baseEquals rhs = baseEquals r.base rhs.base) := by
  refine ⟨?_, ?_, ?_, ?_, ?_⟩
  · intro h
    simp [OptRule.Equals, h]
  · simp [OptRule.Equals]
  · intro h1 h2
    simp [OptRule.Equals, h1, h2]
  · intro h1 h2
    simp [OptRule.Equals, OptRule.Catagory, h1, h2]
  · intro h1 h2
    simp [OptRule.Equals, OptRule.Catagory, h1, h2]

/-- Witness of C27: two distinct `CastorAggCutRule` objects are equal exactly
when their bases are, here compared as numbers. -/
theorem OptRule_Equals_cases_witness :
    ((⟨1, RuleType.CastorAggCutRule, 7⟩ : OptRule Nat).Equals (fun a b => decide (a = b))
        ⟨2, RuleType.CastorAggCutRule, 7⟩ = true ↔
      ((⟨1, RuleType.CastorAggCutRule, 7⟩ : OptRule Nat).Catagory =
        (⟨2, RuleType.CastorAggCutRule, 7⟩ : OptRule Nat).Catagory ∧
       (fun a b : Nat => decide (a = b)) 7 7 = true)) ∧
    (⟨1, RuleType.CastorAggCutRule, 7⟩ : OptRule Nat).Equals (fun a b => decide (a = b))
        ⟨1, RuleType.LimitPushdownToExchangeRule, 7⟩ = false :=
  ⟨(OptRule_Equals_cases (fun a b : Nat => decide (a = b)) ⟨1, RuleType.CastorAggCutRule, 7⟩
      ⟨2, RuleType.CastorAggCutRule, 7⟩).2.2.2.1 rfl (by decide),
   (OptRule_Equals_cases (fun a b : Nat => decide (a = b)) ⟨1, RuleType.CastorAggCutRule, 7⟩
      ⟨1, RuleType.LimitPushdownToExchangeRule, 7⟩).1 (by decide)⟩

/-- A node that already has a vertex is not handed to `TransformTo`. -/
theorem transformUnlessPresent_present (call : OptRuleCall) (node : QueryNode) (w : HeuVertex)
    (hW : call.Vertex node = some w) : transformUnlessPresent call node = [] := by
  simp [transformUnlessPresent, hW]

/-- C23: when the node that the plan builder returns already has a vertex in the
DAG, the rule issues no planner operation at all: no `TransformTo`, and the DAG
stays as it is.  This holds for the three limit push-down rules, the three
aggregate push-down rules, `AggToProjectInSubQueryRule`,
`IntervalToProjectInSubQueryRule` and `ReaderUpdateInSubQueryRule`, each with
the builder call it makes on the schema and the vertex of the matched node. -/
theorem builder_rules_skip_present_node
    (sw : RuleSwitches) (b : LogicalPlanBuilder) (h : SubQueryHelpers)
    (isEq : QueryNode → QueryNode → Bool) (call : OptRuleCall)
    (node0 : QueryNode) (vertex : HeuVertex)
    (hNode : call.Node 0 = some node0) (hVertex : call.Vertex node0 = some vertex) :
    (∀ node w, b.CreateLimit node0.Schema vertex = .ok node → call.Vertex node = some w →
      LimitPushdownToExchangeRule.OnMatch b call = .ok [] ∧
      LimitPushdownToReaderRule.OnMatch b call = .ok [] ∧
      LimitPushdownToSeriesRule.OnMatch sw b call = .ok []) ∧
    (∀ node w, b.CreateAggregate node0.Schema vertex = .ok node → call.Vertex node = some w →
      AggPushdownToExchangeRule.OnMatch b call = .ok [] ∧
      AggPushdownToSeriesRule.OnMatch b call = .ok [] ∧
      AggToProjectInSubQueryRule.OnMatch h b call = .ok []) ∧
    (∀ node w,
      (if node0.Schema.HasSlidingWindowCall && !sw.slidingWindowPushUpOn then
         b.CreateSlideWindow node0.Schema vertex
       else b.CreateAggregate node0.Schema vertex) = .ok node →
      call.Vertex node = some w →
      AggPushdownToReaderRule.OnMatch sw b call = .ok []) ∧
    (∀ node w, b.CreateInterval node0.Schema vertex = .ok node → call.Vertex node = some w →
      IntervalToProjectInSubQueryRule.OnMatch h b call = .ok []) ∧
    (∀ series plan w, b.CreateSeriesPlan node0.Schema = .ok series →
      b.CreateMeasurementPlan node0.Schema series = .ok plan → call.Vertex plan = some w →
      ReaderUpdateInSubQueryRule.OnMatch isEq b call = .ok []) := by
  refine ⟨?_, ?_, ?_, ?_, ?_⟩
  · intro node w hB hW
    have hT := transformUnlessPresent_present call node w hW
    refine ⟨?_, ?_, ?_⟩
    · unfold LimitPushdownToExchangeRule.OnMatch
      rw [hNode]
      cases node0 <;> (simp only []; repeat' split) <;>
        simp_all [QueryNode.Schema]
    · unfold LimitPushdownToReaderRule.OnMatch
      rw [hNode]
      cases node0 <;> (simp only []; repeat' split) <;>
        simp_all [QueryNode.Schema]
    · unfold LimitPushdownToSeriesRule.OnMatch
      rw [hNode]
      cases node0 <;> (simp only []; repeat' split) <;>
        simp_all [QueryNode.Schema]
  · intro node w hB hW
    have hT := transformUnlessPresent_present call node w hW
    refine ⟨?_, ?_, ?_⟩
    · unfold AggPushdownToExchangeRule.OnMatch
      rw [hNode]
      cases node0 <;> (simp only []; repeat' split) <;>
        simp_all [QueryNode.Schema]
    · unfold AggPushdownToSeriesRule.OnMatch
      rw [hNode]
      cases node0 <;> (simp only []; repeat' split) <;>
        simp_all [QueryNode.Schema]
    · unfold AggToProjectInSubQueryRule.OnMatch
      rw [hNode]
      cases node0 <;> (simp only []; repeat' split) <;>
        simp_all [QueryNode.Schema]
  · intro node w hB hW
    have hT := transformUnlessPresent_present call node w hW
    unfold AggPushdownToReaderRule.OnMatch
    rw [hNode]
    cases node0 <;> (simp only []; repeat' split) <;>
      simp_all [QueryNode.Schema]
  · intro node w hB hW
    have hT := transformUnlessPresent_present call node w hW
    unfold IntervalToProjectInSubQueryRule.OnMatch
    rw [hNode]
    cases node0 <;> (simp only []; repeat' split) <;>
      simp_all [QueryNode.Schema]
  · intro series plan w hS hM hW
    unfold ReaderUpdateInSubQueryRule.OnMatch
    rw [hNode]
    simp only []
    (repeat' split) <;> simp_all

/-- Witness of C23: with every node already in the DAG, the shard-level Exchange
with a limit gets no Limit; the same call on a DAG without the Limit gets one. -/
theorem builder_rules_skip_present_node_witness :
    LimitPushdownToExchangeRule.OnMatch sampleBuilder
      ⟨[QueryNode.LogicalExchange limitSchema ExchangeType.SHARD_EXCHANGE []], fullVertex⟩
      = .ok [] ∧
    LimitPushdownToExchangeRule.OnMatch sampleBuilder
      ⟨[QueryNode.LogicalExchange limitSchema ExchangeType.SHARD_EXCHANGE []], sampleVertex⟩
      = .ok [PlannerOp.TransformTo (QueryNode.LogicalLimit limitSchema
          [QueryNode.LogicalExchange limitSchema ExchangeType.SHARD_EXCHANGE []])] :=
  ⟨((builder_rules_skip_present_node {} sampleBuilder sampleHelpers sampleIsSubTreeEqual
      ⟨[QueryNode.LogicalExchange limitSchema ExchangeType.SHARD_EXCHANGE []], fullVertex⟩
      (QueryNode.LogicalExchange limitSchema ExchangeType.SHARD_EXCHANGE [])
      ⟨QueryNode.LogicalExchange limitSchema ExchangeType.SHARD_EXCHANGE []⟩ rfl rfl).1
      (QueryNode.LogicalLimit limitSchema
        [QueryNode.LogicalExchange limitSchema ExchangeType.SHARD_EXCHANGE []])
      ⟨QueryNode.LogicalLimit limitSchema
        [QueryNode.LogicalExchange limitSchema ExchangeType.SHARD_EXCHANGE []]⟩ rfl rfl).1,
   rfl⟩

/-- C22, refuted as stated: `ReaderUpdateInSubQueryRule.OnMatch` returns normally,
with no planner operation, when `CreateSeriesPlan` fails and when
`CreateMeasurementPlan` fails, on a node that passes all its guards. -/
theorem ReaderUpdateInSubQueryRule_error_counterexample :
    preAggSchema.MatchPreAgg = true ∧ preAggSchema.HasInterval = false ∧
    preAggSchema.GetHintType = 0 ∧
    (failingBuilder "boom").CreateSeriesPlan preAggSchema = .error "boom" ∧
    ReaderUpdateInSubQueryRule.OnMatch sampleIsSubTreeEqual (failingBuilder "boom")
      ⟨[QueryNode.LogicalExchange preAggSchema ExchangeType.SHARD_EXCHANGE []], fullVertex⟩
      = .ok [] ∧
    ReaderUpdateInSubQueryRule.OnMatch sampleIsSubTreeEqual
      { sampleBuilder with CreateMeasurementPlan := fun _ _ => .error "boom" }
      ⟨[QueryNode.LogicalExchange preAggSchema ExchangeType.SHARD_EXCHANGE []], fullVertex⟩
      = .ok [] :=
  ⟨rfl, rfl, rfl, rfl, rfl, rfl⟩

/-- C22, amended: in the rules that call `CreateLimit`, `CreateAggregate`,
`CreateSlideWindow` or `CreateInterval` (the three limit push-down rules, the
three aggregate push-down rules, `AggToProjectInSubQueryRule` and
`IntervalToProjectInSubQueryRule`), once the guards of the rule pass and the
matched node has a vertex, an error of the builder call ends `OnMatch` in a panic
with the message of that error.  `ReaderUpdateInSubQueryRule` is the exception:
an error of `CreateSeriesPlan` or of `CreateMeasurementPlan` makes it return
normally with no planner operation. -/
theorem builder_error_outcome
    (sw : RuleSwitches) (b : LogicalPlanBuilder) (h : SubQueryHelpers)
    (isEq : QueryNode → QueryNode → Bool) (call : OptRuleCall)
    (node0 : QueryNode) (vertex : HeuVertex) (err : String)
    (hNode : call.Node 0 = some node0) (hVertex : call.Vertex node0 = some vertex) :
    (b.CreateLimit node0.Schema vertex = .error err → node0.Schema.HasLimit = true →
      (∀ schema eType inputs, node0 = QueryNode.LogicalExchange schema eType inputs →
        node0.Schema.HasCall = false → eType ≠ ExchangeType.NODE_EXCHANGE →
        eType ≠ ExchangeType.SERIES_EXCHANGE →
        LimitPushdownToExchangeRule.OnMatch b call = .error err) ∧
      (∀ schema inputs, node0 = QueryNode.LogicalReader schema inputs →
        node0.Schema.HasCall = false →
        LimitPushdownToReaderRule.OnMatch b call = .error err) ∧
      (∀ schema, node0 = QueryNode.LogicalSeries schema →
        (sw.enableFileCursor && node0.Schema.HasInSeriesAgg) = false →
        LimitPushdownToSeriesRule.OnMatch sw b call = .error err)) ∧
    (b.CreateAggregate node0.Schema vertex = .error err → node0.Schema.HasCall = true →
      (∀ schema eType inputs, node0 = QueryNode.LogicalExchange schema eType inputs →
        node0.Schema.CanCallsPushdown = true → eType ≠ ExchangeType.NODE_EXCHANGE →
        eType ≠ ExchangeType.SERIES_EXCHANGE →
        (node0.Schema.HasCastorCall && !node0.Schema.IsGroupByAllDims) = false →
        AggPushdownToExchangeRule.OnMatch b call = .error err) ∧
      (∀ schema, node0 = QueryNode.LogicalSeries schema →
        node0.Schema.CanCallsPushdown = true → node0.Schema.ContainSeriesIgnoreCall = false →
        AggPushdownToSeriesRule.OnMatch b call = .error err) ∧
      ((∀ s c i, node0 ≠ QueryNode.LogicalAggregate s c i) →
        (∀ s i, node0 ≠ QueryNode.LogicalInterval s i) →
        (∀ s c i, node0 ≠ QueryNode.LogicalSlidingWindow s c i) →
        (h.GetParentVertex vertex).isSome = true →
        AggToProjectInSubQueryRule.OnMatch h b call = .error err)) ∧
    ((if node0.Schema.HasSlidingWindowCall && !sw.slidingWindowPushUpOn then
         b.CreateSlideWindow node0.Schema vertex
       else b.CreateAggregate node0.Schema vertex) = .error err →
      ∀ schema inputs, node0 = QueryNode.LogicalReader schema inputs →
        node0.Schema.HasCall = true → node0.Schema.CanCallsPushdown = true →
        node0.Schema.MatchPreAgg = false →
        (node0.Schema.HasCastorCall && !node0.Schema.IsGroupByAllDims) = false →
        AggPushdownToReaderRule.OnMatch sw b call = .error err) ∧
    (b.CreateInterval node0.Schema vertex = .error err →
      ∀ s c i, node0 = QueryNode.LogicalAggregate s c i →
        (h.GetParentVertex vertex).isSome = true →
        IntervalToProjectInSubQueryRule.OnMatch h b call = .error err) ∧
    (node0.Schema.MatchPreAgg = true → node0.Schema.HasInterval = false →
      node0.Schema.GetHintType = 0 →
      (b.CreateSeriesPlan node0.Schema = .error err ∨
        ∃ series, b.CreateSeriesPlan node0.Schema = .ok series ∧
          b.CreateMeasurementPlan node0.Schema series = .error err) →
      ReaderUpdateInSubQueryRule.OnMatch isEq b call = .ok []) := by
  refine ⟨?_, ?_, ?_, ?_, ?_⟩
  · intro hB hL
    refine ⟨?_, ?_, ?_⟩
    · intro schema eType inputs hN hC hT1 hT2
      subst hN
      unfold LimitPushdownToExchangeRule.OnMatch
      rw [hNode]
      cases eType <;> simp_all [QueryNode.Schema]
    · intro schema inputs hN hC
      subst hN
      unfold LimitPushdownToReaderRule.OnMatch
      rw [hNode]
      simp_all [QueryNode.Schema]
    · intro schema hN hF
      subst hN
      unfold LimitPushdownToSeriesRule.OnMatch
      rw [hNode]
      simp only [QueryNode.Schema] at hB hL hF
      simp [hF, hL, hVertex, hB]
  · intro hB hC
    refine ⟨?_, ?_, ?_⟩
    · intro schema eType inputs hN hP hT1 hT2 hM
      subst hN
      unfold AggPushdownToExchangeRule.OnMatch
      rw [hNode]
      simp only [QueryNode.Schema] at hB hC hP hM
      cases eType <;> simp_all
    · intro schema hN hP hI
      subst hN
      unfold AggPushdownToSeriesRule.OnMatch
      rw [hNode]
      simp_all [QueryNode.Schema]
    · intro hA hI hS hP
      unfold AggToProjectInSubQueryRule.OnMatch
      rw [hNode]
      obtain ⟨pv, hpv⟩ := Option.isSome_iff_exists.mp hP
      cases node0 <;> simp_all [QueryNode.Schema]
  · intro hB schema inputs hN hC hP hM hCastor
    subst hN
    unfold AggPushdownToReaderRule.OnMatch
    rw [hNode]
    simp only [QueryNode.Schema] at hB hC hP hM hCastor
    simp only [hC, hP, hM, hCastor, hVertex, hB, Bool.not_true, Bool.not_false]
    rfl
  · intro hB s c i hN hP
    subst hN
    unfold IntervalToProjectInSubQueryRule.OnMatch
    rw [hNode]
    obtain ⟨pv, hpv⟩ := Option.isSome_iff_exists.mp hP
    simp_all [QueryNode.Schema]
  · intro hM hI hH hB
    unfold ReaderUpdateInSubQueryRule.OnMatch
    rw [hNode]
    rcases hB with hB | ⟨series, hS, hB⟩
    · simp [hM, hI, hH, hVertex, hB]
    · simp [hM, hI, hH, hVertex, hS, hB]

/-- Witness of the amended C22: a failing `CreateLimit` on a shard-level Exchange
with a limit ends `LimitPushdownToExchangeRule.OnMatch` in a panic with the
message of the error. -/
theorem builder_error_outcome_witness :
    LimitPushdownToExchangeRule.OnMatch (failingBuilder "boom")
      ⟨[QueryNode.LogicalExchange limitSchema ExchangeType.SHARD_EXCHANGE []], fullVertex⟩
      = .error "boom" :=
  ((builder_error_outcome {} (failingBuilder "boom") sampleHelpers sampleIsSubTreeEqual
      ⟨[QueryNode.LogicalExchange limitSchema ExchangeType.SHARD_EXCHANGE []], fullVertex⟩
      (QueryNode.LogicalExchange limitSchema ExchangeType.SHARD_EXCHANGE [])
      ⟨QueryNode.LogicalExchange limitSchema ExchangeType.SHARD_EXCHANGE []⟩ "boom"
      rfl rfl).1 rfl rfl).1
    limitSchema ExchangeType.SHARD_EXCHANGE [] rfl rfl (by decide) (by decide)

/-- The inner loops of `ExprWalk` rename a variable reference through the
projected fields when these are all variable references. -/
theorem walkArg_varRef (v : List Field) (hv : ∀ f ∈ v, f.isVarRef = true)
    (val : String) (typ : DataType) :
    walkArg v (Expr.VarRef val typ) = .ok (Expr.VarRef (renameThrough v val) typ) := by
  induction v generalizing val with
  | nil => rfl
  | cons f rest ih =>
    have hf : f.isVarRef = true := hv f (List.mem_cons_self _ _)
    have hrest : ∀ g ∈ rest, g.isVarRef = true := fun g hg => hv g (List.mem_cons_of_mem _ hg)
    unfold walkArg renameThrough
    cases hE : f.Expr with
    | VarRef pVal pTyp =>
      by_cases hval : val = f.Alias
      · simp [hval, hE, ih hrest]
      · simp [hval, ih hrest]
    | Call n a => simp [Field.isVarRef, hE] at hf
    | BinaryExpr o l r => simp [Field.isVarRef, hE] at hf
    | Literal t => simp [Field.isVarRef, hE] at hf

/-- The loop over the arguments of a call, all of them variable references. -/
theorem mapM_walkArg (v : List Field) (hv : ∀ f ∈ v, f.isVarRef = true) :
    ∀ (args : List Expr),
      (args.all fun a => match a with
        | Expr.VarRef _ _ => true
        | _ => false) = true →
      args.mapM (walkArg v) = .ok (args.map fun a =>
        match a with
        | Expr.VarRef val typ => Expr.VarRef (renameThrough v val) typ
        | e => e)
  | [], _ => rfl
  | a :: rest, h => by
    simp only [List.all_cons, Bool.and_eq_true] at h
    have ih := mapM_walkArg v hv rest h.2
    cases a with
    | VarRef val typ =>
      rw [List.mapM_cons, walkArg_varRef v hv, ih]
      rfl
    | Call n a => simp at h
    | BinaryExpr o l r => simp at h
    | Literal t => simp at h

/-- The walk renames the arguments of calls and leaves everything else. -/
theorem ExprWalk_eq_renameCallArgs (v : List Field) (hv : ∀ f ∈ v, f.isVarRef = true) :
    ∀ (e : Expr), callArgsAreVarRefs e = true → ExprWalk v e = .ok (renameCallArgs v e)
  | Expr.BinaryExpr op lhs rhs, he => by
    simp only [callArgsAreVarRefs, Bool.and_eq_true] at he
    simp [ExprWalk, renameCallArgs, ExprWalk_eq_renameCallArgs v hv lhs he.1,
      ExprWalk_eq_renameCallArgs v hv rhs he.2]
  | Expr.Call name args, he => by
    simp only [callArgsAreVarRefs] at he
    simp only [ExprWalk, renameCallArgs]
    rw [mapM_walkArg v hv args he]
  | Expr.VarRef val typ, _ => by simp [ExprWalk, renameCallArgs]
  | Expr.Literal t, _ => by simp [ExprWalk, renameCallArgs]

/-- A name that is no alias stays. -/
theorem renameThrough_no_alias (v : List Field) (val : String)
    (h : ∀ f ∈ v, f.Alias ≠ val) : renameThrough v val = val := by
  induction v with
  | nil => rfl
  | cons f rest ih =>
    have hf : val ≠ f.Alias := fun e => h f (List.mem_cons_self _ _) e.symm
    unfold renameThrough
    simp [hf, ih (fun g hg => h g (List.mem_cons_of_mem _ hg))]

/-- The first field whose alias is the name decides, unless its underlying name
is the alias of a later field. -/
theorem renameThrough_first (pre post : List Field) (f : Field) (val u : String) (t : DataType)
    (hpre : ∀ g ∈ pre, g.Alias ≠ val) (hf : f.Alias = val) (hE : f.Expr = Expr.VarRef u t)
    (hpost : ∀ g ∈ post, g.Alias ≠ u) : renameThrough (pre ++ f :: post) val = u := by
  induction pre with
  | nil =>
    simp only [List.nil_append]
    unfold renameThrough
    simp [hf, hE, renameThrough_no_alias post u hpost]
  | cons g rest ih =>
    have hg : val ≠ g.Alias := fun e => hpre g (List.mem_cons_self _ _) e.symm
    simp only [List.cons_append]
    unfold renameThrough
    simp [hg, ih (fun g hg => hpre g (List.mem_cons_of_mem _ hg))]

/-- C29, refuted as stated: a bare variable reference under a binary expression
keeps its name although the name is the alias of a projected field; an argument
of a call is renamed again when the name it received is the alias of a later
projected field; and an argument that is not a variable reference ends the walk
in a panic. -/
theorem ExprWalk_bare_reference_counterexample :
    projectSchema.QueryFields =
      [{ Expr := Expr.VarRef "value" DataType.Float, Alias := "v" }] ∧
    ExprWalk projectSchema.QueryFields sumOfVarRefs = .ok sumOfVarRefs ∧
    getBinaryfField projectSchema.QueryFields { Expr := sumOfVarRefs }
      = .ok { Expr := sumOfVarRefs } ∧
    ExprWalk chainedFields
        (Expr.BinaryExpr 0 (Expr.Call "max" [Expr.VarRef "b" DataType.Float])
          (Expr.Literal "1"))
      = .ok (Expr.BinaryExpr 0 (Expr.Call "max" [Expr.VarRef "c" DataType.Float])
          (Expr.Literal "1")) ∧
    ExprWalk projectSchema.QueryFields
        (Expr.BinaryExpr 0
          (Expr.Call "count" [Expr.Call "distinct" [Expr.VarRef "v" DataType.Float]])
          (Expr.Literal "1"))
      = .error "interface conversion: influxql.Expr is not *influxql.VarRef" :=
  ⟨rfl, rfl, rfl, rfl, rfl⟩

/-- C29, amended: when the projected fields are variable references and every
argument of every call in the expression is a variable reference, the walk
returns the expression in which each argument of a call has been renamed
through the projected fields, taken in order (whenever the current name equals
the alias of the field it becomes the underlying name of that field), and in
which everything else, bare variable references included, is as before;
`getBinaryfField` returns the field with that expression.  A name that is no
alias stays; otherwise the first field with that alias decides, unless its
underlying name is in turn the alias of a later field. -/
theorem getBinaryfField_renames_call_args (v : List Field) (f : Field)
    (hv : ∀ p ∈ v, p.isVarRef = true) (he : callArgsAreVarRefs f.Expr = true) :
    ExprWalk v f.Expr = .ok (renameCallArgs v f.Expr) ∧
    getBinaryfField v f = .ok { f with Expr := renameCallArgs v f.Expr } ∧
    (∀ val typ, renameCallArgs v (Expr.VarRef val typ) = Expr.VarRef val typ) ∧
    (∀ op lhs rhs, renameCallArgs v (Expr.BinaryExpr op lhs rhs) =
      Expr.BinaryExpr op (renameCallArgs v lhs) (renameCallArgs v rhs)) ∧
    (∀ name val typ, renameCallArgs v (Expr.Call name [Expr.VarRef val typ]) =
      Expr.Call name [Expr.VarRef (renameThrough v val) typ]) ∧
    (∀ val, (∀ p ∈ v, p.Alias ≠ val) → renameThrough v val = val) ∧
    (∀ pre p post val u t, v = pre ++ p :: post → (∀ g ∈ pre, g.Alias ≠ val) →
      p.Alias = val → p.Expr = Expr.VarRef u t → (∀ g ∈ post, g.Alias ≠ u) →
      renameThrough v val = u) := by
  have hw := ExprWalk_eq_renameCallArgs v hv f.Expr he
  refine ⟨hw, ?_, ?_, ?_, ?_, ?_, ?_⟩
  · simp [getBinaryfField, hw]
  · intro val typ
    rfl
  · intro op lhs rhs
    rfl
  · intro name val typ
    rfl
  · intro val h
    exact renameThrough_no_alias v val h
  · intro pre p post val u t hEq hpre hp hE hpost
    subst hEq
    exact renameThrough_first pre post p val u t hpre hp hE hpost

/-- Witness of the amended C29: in a binary expression of `max(v)` and `max(w)`
over the projected field `value AS v`, the argument `v` becomes `value` and `w`
stays. -/
theorem getBinaryfField_renames_call_args_witness :
    getBinaryfField projectSchema.QueryFields { Expr := sumOfCalls } =
      .ok { Expr := renameCallArgs projectSchema.QueryFields sumOfCalls } ∧
    renameCallArgs projectSchema.QueryFields sumOfCalls =
      Expr.BinaryExpr 0 (Expr.Call "max" [Expr.VarRef "value" DataType.Float])
        (Expr.Call "max" [Expr.VarRef "w" DataType.Float]) :=
  ⟨(getBinaryfField_renames_call_args projectSchema.QueryFields { Expr := sumOfCalls }
      (by simp [projectSchema, Field.isVarRef]) rfl).2.1, rfl⟩

/-- The loop over the shards keeps the ownership of what the map holds. -/
theorem assignShards_owned (mc : MetaClient) (S : List ShardInfo) :
    ∀ (shs : List ShardInfo) (acc : PtShards × Nat),
      OwnedBy S acc.1 → (∀ sh ∈ shs, sh ∈ S) → OwnedBy S (assignShards mc shs acc).1 := by
  intro shs
  induction shs with
  | nil => intro acc h _; simpa [assignShards] using h
  | cons sh rest ih =>
    intro acc hacc hS
    obtain ⟨m, d⟩ := acc
    have hrest : ∀ x ∈ rest, x ∈ S := fun x hx => hS x (List.mem_cons_of_mem _ hx)
    unfold assignShards
    by_cases h : sh.Owners.length > 0
    · simp only [h, if_true]
      apply ih _ _ hrest
      intro p ids hget id hid
      have hlt : mc.Intn d sh.Owners.length % sh.Owners.length < sh.Owners.length :=
        Nat.mod_lt _ h
      have hmem : sh.Owners.getD (mc.Intn d sh.Owners.length % sh.Owners.length) 0
          ∈ sh.Owners := by
        rw [List.getD_eq_getElem _ _ hlt]
        exact List.getElem_mem _
      by_cases hp : p = sh.Owners.getD (mc.Intn d sh.Owners.length % sh.Owners.length) 0
      · subst hp
        simp only [GoMap_get_set_same, Option.some.injEq] at hget
        subst hget
        rcases List.mem_append.mp hid with hold | hnew
        · cases hg : GoMap.get m
              (sh.Owners.getD (mc.Intn d sh.Owners.length % sh.Owners.length) 0) with
          | none =>
            rw [hg] at hold
            simp at hold
          | some old =>
            rw [hg] at hold
            exact hacc _ old hg id hold
        · simp only [List.mem_singleton] at hnew
          subst hnew
          exact ⟨sh, hS sh (List.mem_cons_self _ _), rfl, hmem⟩
      · rw [GoMap_get_set_other _ _ _ _ hp] at hget
        exact hacc p ids hget id hid
    · simp only [h, if_false]
      exact ih _ hacc hrest

/-- The looked-up shards do not depend on the series key carried along. -/
theorem targetedShards_seriesKey (mc : MetaClient) (s : Measurement) (m0 : MeasurementInfo)
    (condition : Option Expr) (opt : SelectOptions) :
    ∀ (groups : List ShardGroupInfo) (k : Option ShardKeyInfo) (sk sk1 : List Nat),
      targetedShards mc s m0 condition opt groups k sk =
        targetedShards mc s m0 condition opt groups k sk1 := by
  intro groups
  induction groups with
  | nil => intro k sk sk1; rfl
  | cons g rest ih =>
    intro k sk sk1
    unfold targetedShards
    by_cases hh : opt.HintType = HintType.FullSeriesQuery ∨
        opt.HintType = HintType.SpecificSeriesQuery
    · simp [targetShards, hh]
    · simp only [targetShards, hh, if_false]
      rw [ih _ sk sk1]

/-- The loop over the groups keeps the ownership of what the map holds. -/
theorem groupLoop_owned (mc : MetaClient) (s : Measurement) (m0 : MeasurementInfo)
    (condition : Option Expr) (opt : SelectOptions) (S : List ShardInfo) :
    ∀ (groups : List ShardGroupInfo) (i : Nat) (st : GroupLoop),
      OwnedBy S st.shardIDsByPtID →
      (∀ sh ∈ targetedShards mc s m0 condition opt groups st.shardKeyInfo st.SeriesKey,
        sh ∈ S) →
      OwnedBy S (groupLoop mc s m0 condition opt groups i st).shardIDsByPtID := by
  intro groups
  induction groups with
  | nil => intro i st h _; simpa [groupLoop] using h
  | cons g rest ih =>
    intro i st hst hS
    unfold groupLoop
    unfold targetedShards at hS
    apply ih
    · exact assignShards_owned mc S _ _ hst (fun sh hsh => hS sh (List.mem_append_left _ hsh))
    · intro sh hsh
      exact hS sh (List.mem_append_right _ hsh)

/-- Nothing is stored in an empty map. -/
theorem OwnedBy_nil (S : List ShardInfo) : OwnedBy S [] := by
  intro p ids h
  simp [GoMap.get] at h

/-- One measurement source keeps the ownership of what `ShardMap` holds. -/
theorem mapMeasurement_owned (mc : MetaClient) (t : TimeRange) (condition : Option Expr)
    (opt : SelectOptions) (all : List Measurement) (s : Measurement) (hs : s ∈ all)
    (st st1 : MapState)
    (h : mapMeasurement mc t.Min t.Max condition opt s st = .ok st1)
    (hst : MapOwned mc t opt condition all st.a.ShardMap) :
    MapOwned mc t opt condition all st1.a.ShardMap := by
  unfold mapMeasurement at h
  cases hdb : mc.Database s.Database with
  | error e => simp [hdb] at h
  | ok dbi =>
    cases hms : mc.GetMeasurements s with
    | error e => simp [hdb, hms] at h
    | ok ms =>
      cases ms with
      | nil =>
        simp [hdb, hms] at h
        subst h
        exact hst
      | cons m0 ms =>
        cases hget : GoMap.get st.a.ShardMap ⟨s.Database, s.RetentionPolicy⟩ with
        | some v =>
          simp [hdb, hms, hget] at h
          subst h
          exact hst
        | none =>
          have key_new : ∀ (v : Option PtShards)
              (hv : ∀ m, v = some m → OwnedBy (lookedUpShards mc s t opt condition) m),
              MapOwned mc t opt condition all
                (GoMap.set st.a.ShardMap ⟨s.Database, s.RetentionPolicy⟩ v) := by
            intro v hv key m hm
            by_cases hk : key = ⟨s.Database, s.RetentionPolicy⟩
            · subst hk
              rw [GoMap_get_set_same] at hm
              cases hm
              exact ⟨s, hs, rfl, hv m rfl⟩
            · rw [GoMap_get_set_other _ _ _ _ hk] at hm
              exact hst key m hm
          cases hg : mc.ShardGroupsByTimeRange s.Database s.RetentionPolicy t.Min t.Max with
          | error e => simp [hdb, hms, hget, hg] at h
          | ok groups =>
            cases groups with
            | nil =>
              simp [hdb, hms, hget, hg] at h
              subst h
              exact key_new none (fun m hm => by cases hm)
            | cons g gs =>
              simp [hdb, hms, hget, hg] at h
              subst h
              apply key_new
              intro m hm
              cases hm
              apply groupLoop_owned
              · exact OwnedBy_nil _
              · intro sh hsh
                simp only [lookedUpShards, hdb, hms, hg]
                rw [targetedShards_seriesKey mc s m0 condition opt (g :: gs) _ [] st.SeriesKey]
                exact hsh

mutual
/-- The loop of `mapShards` keeps the ownership of what `ShardMap` holds. -/
theorem mapShards_owned (mc : MetaClient) (t : TimeRange) (condition : Option Expr)
    (opt : SelectOptions) (all : List Measurement) :
    ∀ (sources : List InfluxSource) (st st1 : MapState),
      (∀ m ∈ sourcesMeasurements sources, m ∈ all) →
      mapShards mc t.Min t.Max condition opt sources st = .ok st1 →
      MapOwned mc t opt condition all st.a.ShardMap →
      MapOwned mc t opt condition all st1.a.ShardMap
  | [], st, st1, _, h, hst => by
    simp [mapShards] at h
    subst h
    exact hst
  | s :: rest, st, st1, hall, h, hst => by
    simp only [mapShards] at h
    simp only [sourcesMeasurements] at hall
    cases hs : mapShardsSource mc t.Min t.Max condition opt s st with
    | error e => simp [hs] at h
    | ok st2 =>
      simp only [hs] at h
      exact mapShards_owned mc t condition opt all rest st2 st1
        (fun m hm => hall m (List.mem_append_right _ hm)) h
        (mapShardsSource_owned mc t condition opt all s st st2
          (fun m hm => hall m (List.mem_append_left _ hm)) hs hst)
/-- One round of `mapShards` keeps the ownership of what `ShardMap` holds. -/
theorem mapShardsSource_owned (mc : MetaClient) (t : TimeRange) (condition : Option Expr)
    (opt : SelectOptions) (all : List Measurement) :
    ∀ (s : InfluxSource) (st st1 : MapState),
      (∀ m ∈ sourceMeasurements s, m ∈ all) →
      mapShardsSource mc t.Min t.Max condition opt s st = .ok st1 →
      MapOwned mc t opt condition all st.a.ShardMap →
      MapOwned mc t opt condition all st1.a.ShardMap
  | InfluxSource.Measurement m, st, st1, hall, h, hst => by
    simp only [mapShardsSource] at h
    simp only [sourceMeasurements] at hall
    exact mapMeasurement_owned mc t condition opt all m (hall m (List.mem_singleton.mpr rfl))
      st st1 h hst
  | InfluxSource.SubQuery sources, st, st1, hall, h, hst => by
    simp only [mapShardsSource] at h
    simp only [sourceMeasurements] at hall
    exact mapShards_owned mc t condition opt all sources st st1 hall h hst
end

/-- C26: in the `ShardMap` returned by `MapShards`, every shard id stored under a
partition `p` is the id of a shard, looked up for a measurement source with the
key of the entry, whose owner list contains `p`, whatever `rand.Intn` returns;
and an id whose looked-up shards all have an empty owner list is stored under no
partition. -/
theorem MapShards_partition_owns_shard (mc : MetaClient) (sources : List InfluxSource)
    (t : TimeRange) (opt : SelectOptions) (condition : Option Expr) (a : ClusterShardMapping)
    (hOk : MapShards mc sources t opt condition = .ok a) :
    (∀ key m p ids id, GoMap.get a.ShardMap key = some (some m) →
      GoMap.get m p = some ids → id ∈ ids →
      ∃ s ∈ sourcesMeasurements sources, s.source = key ∧
        ∃ sh ∈ lookedUpShards mc s t opt condition, sh.ID = id ∧ p ∈ sh.Owners) ∧
    (∀ key m p ids id, GoMap.get a.ShardMap key = some (some m) →
      GoMap.get m p = some ids →
      (∀ s ∈ sourcesMeasurements sources, s.source = key →
        ∀ sh ∈ lookedUpShards mc s t opt condition, sh.ID = id → sh.Owners = []) →
      id ∉ ids) := by
  have hown : MapOwned mc t opt condition (sourcesMeasurements sources) a.ShardMap := by
    unfold MapShards at hOk
    cases h : mapShards mc t.Min t.Max condition opt sources { a := {} } with
    | error e => simp [h] at hOk
    | ok st =>
      simp [h] at hOk
      subst hOk
      exact mapShards_owned mc t condition opt _ sources _ st (fun _ hm => hm) h
        (fun key m hm => by simp [GoMap.get] at hm)
  constructor
  · intro key m p ids id hkey hp hid
    obtain ⟨s, hs, hk, ho⟩ := hown key m hkey
    obtain ⟨sh, hsh, hID, hO⟩ := ho p ids hp id hid
    exact ⟨s, hs, hk, sh, hsh, hID, hO⟩
  · intro key m p ids id hkey hp hnone hid
    obtain ⟨s, hs, hk, ho⟩ := hown key m hkey
    obtain ⟨sh, hsh, hID, hO⟩ := ho p ids hp id hid
    rw [hnone s hs hk sh hsh hID] at hO
    simp at hO

/-- Witness of C26 (scenario A): shard 12 is stored under partition 3, one of its
two owners. -/
theorem MapShards_partition_owns_shard_witness :
    ∃ s ∈ sourcesMeasurements [InfluxSource.Measurement sampleMeasurement],
      s.source = ⟨"db0", "rp0"⟩ ∧
      ∃ sh ∈ lookedUpShards sampleMeta s ⟨0, 300⟩ {} none, sh.ID = 12 ∧ 3 ∈ sh.Owners :=
  (MapShards_partition_owns_shard sampleMeta [InfluxSource.Measurement sampleMeasurement]
    ⟨0, 300⟩ {} none
    (okOr {} (MapShards sampleMeta [InfluxSource.Measurement sampleMeasurement]
      ⟨0, 300⟩ {} none))
    rfl).1 ⟨"db0", "rp0"⟩ [(0, [11, 21, 31]), (3, [12, 22, 32])] 3 [12, 22, 32] 12
    rfl rfl (by decide)

/-! ## The fan-out and the lock -/

/-- C28, the code at a failing input: two tasks whose calls both succeed.  The
appends to `errs` and `eTraits` and the store into `opts.Sources` are made
under `muList`, but the copy `*opts` that a task passes to `makeRemoteQuery` is
read without it: after task 0 has taken the lock and task 1 has looked up its
sources, the next step of task 0 is the store into `opts` and the next step of
task 1 the read of `opts`, with nothing to order them. -/
theorem fanOut_options_read_unlocked :
    (∀ failed, unlockedAccesses (taskSteps failed) false =
      [TaskStep.Read SharedVar.sourcesMapByPtId, TaskStep.Read SharedVar.opts]) ∧
    (FanOut.start [false, false]).run [0, 0, 0, 1] =
      some { pending :=
               [[TaskStep.Write SharedVar.opts, TaskStep.Read SharedVar.eTraits,
                 TaskStep.Write SharedVar.eTraits, TaskStep.Unlock],
                [TaskStep.Read SharedVar.opts, TaskStep.Lock, TaskStep.Write SharedVar.opts,
                 TaskStep.Read SharedVar.eTraits, TaskStep.Write SharedVar.eTraits,
                 TaskStep.Unlock]],
             holder := some 0 } ∧
    ((FanOut.start [false, false]).run [0, 0, 0, 1]).map (fun s => s.races 0 1) = some true :=
  ⟨fun failed => by cases failed <;> rfl, rfl, rfl⟩

/-! ## Further properties of the sub-query rule -/

/-- C31: for a projected field `p` whose expression is a variable reference,
and an aggregate field `f` that is a call whose first argument is the variable
`v`, or the bare variable `v`: when the alias of `p` equals `v`, the result is a
field with the alias of `p` whose expression is the call of the same name on
(or the reference to) the underlying variable of `p` with the type of `v`;
otherwise, when the underlying name of `p` equals `v`, it is the expression of
`f` with an empty alias; otherwise it is nil.  The alias is tested first. -/
theorem getCallField_getVarRefField_match (p f : Field) (pVal v : String)
    (pTyp typ : DataType) (hp : p.Expr = Expr.VarRef pVal pTyp) :
    (∀ name rest, f.Expr = Expr.Call name (Expr.VarRef v typ :: rest) →
      getCallField p f = .ok
        (if p.Alias = v then
           some { Expr := Expr.Call name [Expr.VarRef pVal typ], Alias := p.Alias }
         else if pVal = v then some { Expr := f.Expr, Alias := "" }
         else none)) ∧
    (f.Expr = Expr.VarRef v typ →
      getVarRefField p f = .ok
        (if p.Alias = v then some { Expr := Expr.VarRef pVal typ, Alias := p.Alias }
         else if pVal = v then some { Expr := f.Expr, Alias := "" }
         else none)) := by
  constructor
  · intro name rest hf
    unfold getCallField
    rw [hf]
    by_cases h1 : p.Alias = v
    · simp [h1, hp]
    · by_cases h2 : pVal = v
      · simp [h1, h2, hp]
      · simp [h1, h2, hp]
  · intro hf
    unfold getVarRefField
    rw [hf]
    by_cases h1 : p.Alias = v
    · simp [h1, hp]
    · by_cases h2 : pVal = v
      · simp [h1, h2, hp]
      · simp [h1, h2, hp]

/-- Witness of C31: `max(v)` against `value AS v` becomes `max(value) AS v`. -/
theorem getCallField_getVarRefField_match_witness :
    getCallField { Expr := Expr.VarRef "value" DataType.Integer, Alias := "v" }
        { Expr := Expr.Call "max" [Expr.VarRef "v" DataType.Float] } =
      .ok (some { Expr := Expr.Call "max" [Expr.VarRef "value" DataType.Float], Alias := "v" }) :=
  (getCallField_getVarRefField_match
    { Expr := Expr.VarRef "value" DataType.Integer, Alias := "v" }
    { Expr := Expr.Call "max" [Expr.VarRef "v" DataType.Float] }
    "value" "v" DataType.Integer DataType.Float rfl).1 "max" [] rfl

/-- C37: `canPush` returns true exactly when the project has no group-by, no
call, no math expression, no string expression, no binary expression and no
limit, the project and the aggregate each have at most one source, and the
aggregate has calls that are pushdown-eligible, with no sliding-window call
among them and no time interval in its options. -/
theorem AggPushDownToSubQueryRule_canPush_iff (agg project : QuerySchema) :
    AggPushDownToSubQueryRule.canPush agg project = true ↔
      (project.HasGroupBy = false ∧ project.HasCall = false ∧ project.HasMath = false ∧
       project.HasString = false ∧ project.binarysLen = 0 ∧ project.HasLimit = false ∧
       project.SourcesLen ≤ 1 ∧ agg.SourcesLen ≤ 1 ∧
       agg.HasCall = true ∧ agg.CanCallsPushdown = true ∧
       agg.HasSlidingWindowCall = false ∧ agg.OptHasInterval = false) := by
  unfold AggPushDownToSubQueryRule.canPush
  cases h1 : project.HasGroupBy <;> cases h2 : project.HasCall <;>
    cases h3 : project.HasMath <;> cases h4 : project.HasString <;>
    cases h5 : project.HasLimit <;> cases h6 : agg.HasCall <;>
    cases h7 : agg.CanCallsPushdown <;> cases h8 : agg.HasSlidingWindowCall <;>
    cases h9 : agg.OptHasInterval <;> simp
  all_goals omega

/-- What `getField` returns for a field that names `val`, as a variable
reference or as the first argument of a call, against a projected variable
reference: a result exactly when the projected field matches `val`, and the
field as it was. -/
theorem getField_named (pFields : List Field) (p f : Field) (val : String)
    (hf : (∃ typ, f.Expr = Expr.VarRef val typ) ∨
      (∃ name typ args, f.Expr = Expr.Call name (Expr.VarRef val typ :: args)))
    (hp : p.isVarRef = true) :
    ∃ r, getField p f pFields = .ok (r, f) ∧ r.isSome = p.matchesName val := by
  cases hE : p.Expr with
  | VarRef pVal pTyp =>
    by_cases h1 : p.Alias = val
    · rcases hf with ⟨typ, hF⟩ | ⟨name, typ, args, hF⟩
      · exact ⟨_, by simp [getField, getVarRefField, hF, hE, h1]; rfl,
          by simp [Field.matchesName, h1]⟩
      · exact ⟨_, by simp [getField, getCallField, hF, hE, h1]; rfl,
          by simp [Field.matchesName, h1]⟩
    · by_cases h2 : pVal = val
      · rcases hf with ⟨typ, hF⟩ | ⟨name, typ, args, hF⟩
        · exact ⟨_, by simp [getField, getVarRefField, hF, hE, h1, h2]; rfl,
            by simp [Field.matchesName, hE, h2]⟩
        · exact ⟨_, by simp [getField, getCallField, hF, hE, h1, h2]; rfl,
            by simp [Field.matchesName, hE, h2]⟩
      · rcases hf with ⟨typ, hF⟩ | ⟨name, typ, args, hF⟩
        · exact ⟨none, by simp [getField, getVarRefField, hF, hE, h1, h2],
            by simp [Field.matchesName, hE, h1, h2]⟩
        · exact ⟨none, by simp [getField, getCallField, hF, hE, h1, h2],
            by simp [Field.matchesName, hE, h1, h2]⟩
  | Call n a => simp [Field.isVarRef, hE] at hp
  | BinaryExpr o l r => simp [Field.isVarRef, hE] at hp
  | Literal t => simp [Field.isVarRef, hE] at hp

/-- The inner loop adds one entry for every projected field that matches the
name of such a field. -/
theorem matchProjected_count (pFields : List Field) (f : Field) (val : String)
    (hf : (∃ typ, f.Expr = Expr.VarRef val typ) ∨
      (∃ name typ args, f.Expr = Expr.Call name (Expr.VarRef val typ :: args))) :
    ∀ (todo acc : List Field), (∀ p ∈ todo, p.isVarRef = true) →
      ∃ entries, matchProjected pFields todo f acc = .ok (acc ++ entries, f) ∧
        entries.length = (todo.filter fun p => p.matchesName val).length
  | [], acc, _ => ⟨[], by simp [matchProjected], rfl⟩
  | p :: rest, acc, h => by
    have hp := h p (List.mem_cons_self _ _)
    have hrest : ∀ q ∈ rest, q.isVarRef = true := fun q hq => h q (List.mem_cons_of_mem _ hq)
    obtain ⟨r, hr, hsome⟩ := getField_named pFields p f val hf hp
    have hnb : ∀ op lhs rhs, f.Expr ≠ Expr.BinaryExpr op lhs rhs := by
      intro op lhs rhs hb
      rcases hf with ⟨typ, hF⟩ | ⟨name, typ, args, hF⟩ <;> rw [hF] at hb <;> cases hb
    cases r with
    | none =>
      obtain ⟨entries, he, hl⟩ := matchProjected_count pFields f val hf rest acc hrest
      have hm : p.matchesName val = false := by simpa using hsome.symm
      refine ⟨entries, ?_, ?_⟩
      · unfold matchProjected
        rw [hr]
        exact he
      · simp [List.filter_cons, hm, hl]
    | some goal =>
      obtain ⟨entries, he, hl⟩ := matchProjected_count pFields f val hf rest (acc ++ [goal]) hrest
      have hm : p.matchesName val = true := by simpa using hsome.symm
      refine ⟨goal :: entries, ?_, ?_⟩
      · unfold matchProjected
        rw [hr]
        rcases hf with ⟨typ, hF⟩ | ⟨name, typ, args, hF⟩
        · simp only [hF]
          rw [he]
          simp
        · simp only [hF]
          rw [he]
          simp
      · simp [List.filter_cons, hm, hl]

/-- The inner loop adds at most one entry for every projected field it visits. -/
theorem matchProjected_length (pFields : List Field) :
    ∀ (todo : List Field) (f : Field) (acc acc1 : List Field) (f1 : Field),
      matchProjected pFields todo f acc = .ok (acc1, f1) →
      acc1.length ≤ acc.length + todo.length
  | [], f, acc, acc1, f1, h => by
    simp [matchProjected] at h
    simp [← h.1]
  | p :: rest, f, acc, acc1, f1, h => by
    unfold matchProjected at h
    cases hg : getField p f pFields with
    | error e => simp [hg] at h
    | ok r =>
      obtain ⟨goal, f2⟩ := r
      cases goal with
      | none =>
        simp only [hg] at h
        have := matchProjected_length pFields rest f2 acc acc1 f1 h
        simp only [List.length_cons]
        omega
      | some goal =>
        simp only [hg] at h
        split at h
        · simp only [Except.ok.injEq, Prod.mk.injEq] at h
          simp [← h.1]
        · have := matchProjected_length pFields rest f2 (acc ++ [goal]) acc1 f1 h
          simp only [List.length_append, List.length_singleton] at this
          simp only [List.length_cons]
          omega

/-- The outer loop adds at most one entry for every pair of an aggregate field
and a projected field, and keeps the number of aggregate fields. -/
theorem collectFields_length (pFields : List Field) :
    ∀ (fs acc walked copy walked1 : List Field),
      collectFields pFields fs acc walked = .ok (copy, walked1) →
      copy.length ≤ acc.length + fs.length * pFields.length ∧
      walked1.length = walked.length + fs.length
  | [], acc, walked, copy, walked1, h => by
    simp [collectFields] at h
    simp [← h.1, ← h.2]
  | f :: rest, acc, walked, copy, walked1, h => by
    unfold collectFields at h
    cases hm : matchProjected pFields pFields f acc with
    | error e => simp [hm] at h
    | ok r =>
      obtain ⟨acc1, f1⟩ := r
      simp only [hm] at h
      have h1 := matchProjected_length pFields pFields f acc acc1 f1 hm
      obtain ⟨h2, h3⟩ := collectFields_length pFields rest acc1 (walked ++ [f1]) copy walked1 h
      simp only [List.length_append, List.length_singleton] at h3
      simp only [List.length_cons, Nat.add_mul, Nat.one_mul]
      constructor <;> omega

/-- C34, refuted as stated: the aggregate has the one field `max(v)` and the
project the fields `value AS v` and `v`; the first matches by its alias and the
second by its name, and the list written into the schema of the Project has two
entries. -/
theorem collectFields_two_entries_counterexample :
    pushableAggSchema.QueryFields.length = 1 ∧
    collectFields twiceProjectSchema.QueryFields pushableAggSchema.QueryFields [] [] =
      .ok ([{ Expr := Expr.Call "max" [Expr.VarRef "value" DataType.Float], Alias := "v" },
            { Expr := Expr.Call "max" [Expr.VarRef "v" DataType.Float] }],
           [{ Expr := Expr.Call "max" [Expr.VarRef "v" DataType.Float] }]) ∧
    ∃ rest, AggPushDownToSubQueryRule.OnMatch sampleHelpers twiceSubQueryCall =
      .ok (PlannerOp.RewriteFields
             (QueryNode.LogicalAggregate pushableAggSchema []
               [QueryNode.LogicalSubQuery {} [QueryNode.LogicalProject twiceProjectSchema []]])
             [{ Expr := Expr.Call "max" [Expr.VarRef "v" DataType.Float] }] ::
           PlannerOp.ResetSchema (QueryNode.LogicalProject twiceProjectSchema [])
             [{ Expr := Expr.Call "max" [Expr.VarRef "value" DataType.Float], Alias := "v" },
              { Expr := Expr.Call "max" [Expr.VarRef "v" DataType.Float] }]
             ["max"] :: rest) :=
  ⟨rfl, rfl, _, rfl⟩

/-- C34, amended: the field list written into the schema of the Project holds at
most one entry per pair of an aggregate field and a projected field, so its
length does not exceed the product of the two numbers of fields.  With
projected fields that are all variable references, an aggregate field that is a
variable reference, or a call whose first argument is one, contributes exactly
one entry for each projected field whose alias or underlying name is that name:
one entry when one projected field matches, several when several do. -/
theorem collectFields_entries_bound (pFields aggFields : List Field) :
    (∀ copy walked, collectFields pFields aggFields [] [] = .ok (copy, walked) →
      copy.length ≤ aggFields.length * pFields.length ∧ walked.length = aggFields.length) ∧
    (∀ f rest acc walked val,
      ((∃ typ, f.Expr = Expr.VarRef val typ) ∨
        (∃ name typ args, f.Expr = Expr.Call name (Expr.VarRef val typ :: args))) →
      (∀ p ∈ pFields, p.isVarRef = true) →
      ∃ entries, entries.length = (pFields.filter fun p => p.matchesName val).length ∧
        collectFields pFields (f :: rest) acc walked =
          collectFields pFields rest (acc ++ entries) (walked ++ [f])) := by
  constructor
  · intro copy walked h
    have := collectFields_length pFields aggFields [] [] copy walked h
    simpa using this
  · intro f rest acc walked val hf hp
    obtain ⟨entries, he, hl⟩ := matchProjected_count pFields f val hf pFields acc hp
    refine ⟨entries, hl, ?_⟩
    simp only [collectFields]
    rw [he]

/-- Witness of the amended C34: on the sample sub-query one projected field
matches `max(v)` and one entry is written. -/
theorem collectFields_entries_bound_witness :
    (okOr ([], []) (collectFields projectSchema.QueryFields pushableAggSchema.QueryFields
        [] [])).1.length ≤ pushableAggSchema.QueryFields.length * projectSchema.QueryFields.length ∧
    (okOr ([], []) (collectFields projectSchema.QueryFields pushableAggSchema.QueryFields
        [] [])).2.length = pushableAggSchema.QueryFields.length :=
  (collectFields_entries_bound projectSchema.QueryFields pushableAggSchema.QueryFields).1
    (okOr ([], []) (collectFields projectSchema.QueryFields pushableAggSchema.QueryFields
      [] [])).1
    (okOr ([], []) (collectFields projectSchema.QueryFields pushableAggSchema.QueryFields
      [] [])).2 rfl

/-! ## Properties of `HideQueryPassword` -/

/-- C32, the code at a failing input: the query text has a field `password`
before the words `with password`.  The loop stops at that first field, so the
token after it is the one replaced, and the password of the user-creation
statement stays in the output: two inputs that differ only in the password give
different outputs, each with its password in it. -/
theorem HideQueryPassword_leaks_password :
    HideQueryPassword "select password from t; create user u with password s3cret1" =
      "select password [REDACTED] t; create user u with password s3cret1" ∧
    HideQueryPassword "select password from t; create user u with password s3cret2" =
      "select password [REDACTED] t; create user u with password s3cret2" ∧
    HideQueryPassword "select password from t; create user u with password s3cret1" ≠
      HideQueryPassword "select password from t; create user u with password s3cret2" ∧
    stringsContains
      (HideQueryPassword "select password from t; create user u with password s3cret1")
      "s3cret1" = true ∧
    HideQueryPassword "CREATE USER password WITH PASSWORD s3cret1" =
      "create user password [REDACTED] password s3cret1" ∧
    HideQueryPassword "CREATE USER u WITH PASSWORD s3cret1" =
      "create user u with password [REDACTED] " := by
  refine ⟨?_, ?_, ?_, ?_, ?_, ?_⟩ <;> decide

/-- C38, refuted as stated: the input has the word `Password` and neither
`with password` nor `set password`; nothing is redacted, and the output is the
input in lower case. -/
theorem HideQueryPassword_lowercase_counterexample :
    stringsContains (stringsToLower "SELECT Password FROM Users") "with password" = false ∧
    stringsContains (stringsToLower "SELECT Password FROM Users") "set password" = false ∧
    HideQueryPassword "SELECT Password FROM Users" = "select password from users" ∧
    HideQueryPassword "SELECT Password FROM Users" ≠ "SELECT Password FROM Users" := by
  refine ⟨?_, ?_, ?_, ?_⟩ <;> decide

/-- C38, amended: for an input that contains, in lower case, neither
`with password` nor `set password`, `HideQueryPassword` returns the input
exactly when the input does not contain `password` in any letter case, and the
input in lower case when it does. -/
theorem HideQueryPassword_unredacted (url : String)
    (hWith : stringsContains (stringsToLower url) "with password" = false)
    (hSet : stringsContains (stringsToLower url) "set password" = false) :
    HideQueryPassword url = (if hasSensitiveWord url then stringsToLower url else url) ∧
    (hasSensitiveWord url = false → HideQueryPassword url = url) := by
  unfold HideQueryPassword
  cases h : hasSensitiveWord url <;> simp [hWith, hSet]

/-- Witness of the amended C38: a query text without the word is returned as it
is. -/
theorem HideQueryPassword_unredacted_witness :
    HideQueryPassword "SELECT Value FROM Users" = "SELECT Value FROM Users" :=
  (HideQueryPassword_unredacted "SELECT Value FROM Users" (by decide) (by decide)).2 (by decide)

/-! ## The time range of the shard groups -/

/-- The loop over the groups after its first round: the range only grows, covers
every group visited, and each of its ends is the old one or an end of a visited
group. -/
theorem groupLoop_range_later (mc : MetaClient) (s : Measurement) (m0 : MeasurementInfo)
    (condition : Option Expr) (opt : SelectOptions) :
    ∀ (groups : List ShardGroupInfo) (i : Nat) (st : GroupLoop), i ≠ 0 →
      (groupLoop mc s m0 condition opt groups i st).ShardsTimeRage.Min ≤ st.ShardsTimeRage.Min ∧
      st.ShardsTimeRage.Max ≤ (groupLoop mc s m0 condition opt groups i st).ShardsTimeRage.Max ∧
      (∀ g ∈ groups,
        (groupLoop mc s m0 condition opt groups i st).ShardsTimeRage.Min ≤ g.StartTime ∧
        g.EndTime ≤ (groupLoop mc s m0 condition opt groups i st).ShardsTimeRage.Max) ∧
      ((groupLoop mc s m0 condition opt groups i st).ShardsTimeRage.Min = st.ShardsTimeRage.Min ∨
        ∃ g ∈ groups,
          (groupLoop mc s m0 condition opt groups i st).ShardsTimeRage.Min = g.StartTime) ∧
      ((groupLoop mc s m0 condition opt groups i st).ShardsTimeRage.Max = st.ShardsTimeRage.Max ∨
        ∃ g ∈ groups,
          (groupLoop mc s m0 condition opt groups i st).ShardsTimeRage.Max = g.EndTime) := by
  intro groups
  induction groups with
  | nil =>
    intro i st _
    simp [groupLoop]
  | cons g rest ih =>
    intro i st hi
    unfold groupLoop
    simp only [hi, if_false]
    obtain ⟨h1, h2, h3, h4, h5⟩ := ih (i + 1)
      { ShardsTimeRage :=
          (if g.EndTime > (if st.ShardsTimeRage.Min > g.StartTime then
              (⟨g.StartTime, st.ShardsTimeRage.Max⟩ : TimeRange) else st.ShardsTimeRage).Max then
            ⟨(if st.ShardsTimeRage.Min > g.StartTime then
              (⟨g.StartTime, st.ShardsTimeRage.Max⟩ : TimeRange) else st.ShardsTimeRage).Min,
              g.EndTime⟩
          else (if st.ShardsTimeRage.Min > g.StartTime then
              (⟨g.StartTime, st.ShardsTimeRage.Max⟩ : TimeRange) else st.ShardsTimeRage)),
        shardKeyInfo :=
          (targetShards mc s m0 condition opt g st.shardKeyInfo st.SeriesKey).2.1,
        SeriesKey := (targetShards mc s m0 condition opt g st.shardKeyInfo st.SeriesKey).2.2,
        shardIDsByPtID :=
          (assignShards mc (targetShards mc s m0 condition opt g st.shardKeyInfo st.SeriesKey).1
            (st.shardIDsByPtID, st.draws)).1,
        draws :=
          (assignShards mc (targetShards mc s m0 condition opt g st.shardKeyInfo st.SeriesKey).1
            (st.shardIDsByPtID, st.draws)).2 } (Nat.succ_ne_zero i)
    simp only at h1 h2 h3 h4 h5
    by_cases ha : st.ShardsTimeRage.Min > g.StartTime <;>
      by_cases hb : g.EndTime > st.ShardsTimeRage.Max <;>
      simp only [ha, hb, if_true, if_false] at h1 h2 h3 h4 h5 ⊢
    all_goals
      refine ⟨by linarith, by linarith, ?_, ?_, ?_⟩
      · intro g1 hg1
        rcases List.mem_cons.mp hg1 with rfl | hg1
        · constructor <;> linarith
        · exact h3 g1 hg1
      · rcases h4 with h4 | ⟨g1, hg1, h4⟩
        · first
          | exact Or.inl h4
          | exact Or.inr ⟨g, List.mem_cons_self _ _, h4⟩
        · exact Or.inr ⟨g1, List.mem_cons_of_mem _ hg1, h4⟩
      · rcases h5 with h5 | ⟨g1, hg1, h5⟩
        · first
          | exact Or.inl h5
          | exact Or.inr ⟨g, List.mem_cons_self _ _, h5⟩
        · exact Or.inr ⟨g1, List.mem_cons_of_mem _ hg1, h5⟩

/-- The loop over the groups of one source, from its first round: the range it
leaves covers every group of the source and each of its ends is an end of one
of them, whatever the range was before. -/
theorem groupLoop_range_first (mc : MetaClient) (s : Measurement) (m0 : MeasurementInfo)
    (condition : Option Expr) (opt : SelectOptions)
    (g : ShardGroupInfo) (gs : List ShardGroupInfo) (st : GroupLoop) :
    (∀ g1 ∈ g :: gs,
      (groupLoop mc s m0 condition opt (g :: gs) 0 st).ShardsTimeRage.Min ≤ g1.StartTime ∧
      g1.EndTime ≤ (groupLoop mc s m0 condition opt (g :: gs) 0 st).ShardsTimeRage.Max) ∧
    (∃ g1 ∈ g :: gs,
      (groupLoop mc s m0 condition opt (g :: gs) 0 st).ShardsTimeRage.Min = g1.StartTime) ∧
    (∃ g1 ∈ g :: gs,
      (groupLoop mc s m0 condition opt (g :: gs) 0 st).ShardsTimeRage.Max = g1.EndTime) := by
  unfold groupLoop
  simp only [if_true]
  obtain ⟨h1, h2, h3, h4, h5⟩ := groupLoop_range_later mc s m0 condition opt gs (0 + 1)
    { ShardsTimeRage := ⟨g.StartTime, g.EndTime⟩,
      shardKeyInfo := (targetShards mc s m0 condition opt g st.shardKeyInfo st.SeriesKey).2.1,
      SeriesKey := (targetShards mc s m0 condition opt g st.shardKeyInfo st.SeriesKey).2.2,
      shardIDsByPtID :=
        (assignShards mc (targetShards mc s m0 condition opt g st.shardKeyInfo st.SeriesKey).1
          (st.shardIDsByPtID, st.draws)).1,
      draws :=
        (assignShards mc (targetShards mc s m0 condition opt g st.shardKeyInfo st.SeriesKey).1
          (st.shardIDsByPtID, st.draws)).2 } (Nat.succ_ne_zero 0)
  simp only at h1 h2 h3 h4 h5
  refine ⟨?_, ?_, ?_⟩
  · intro g1 hg1
    rcases List.mem_cons.mp hg1 with rfl | hg1
    · exact ⟨h1, h2⟩
    · exact h3 g1 hg1
  · rcases h4 with h4 | ⟨g1, hg1, h4⟩
    · exact ⟨g, List.mem_cons_self _ _, h4⟩
    · exact ⟨g1, List.mem_cons_of_mem _ hg1, h4⟩
  · rcases h5 with h5 | ⟨g1, hg1, h5⟩
    · exact ⟨g, List.mem_cons_self _ _, h5⟩
    · exact ⟨g1, List.mem_cons_of_mem _ hg1, h5⟩

/-- A measurement source with a new key that matches a measurement and resolves
shard groups leaves the range of its own groups in `ShardsTimeRage`. -/
theorem mapMeasurement_range (mc : MetaClient) (tmin tmax : Time) (condition : Option Expr)
    (opt : SelectOptions) (s : Measurement) (st st1 : MapState)
    (m0 : MeasurementInfo) (ms : List MeasurementInfo)
    (g : ShardGroupInfo) (gs : List ShardGroupInfo)
    (h : mapMeasurement mc tmin tmax condition opt s st = .ok st1)
    (hMs : mc.GetMeasurements s = .ok (m0 :: ms))
    (hNew : GoMap.get st.a.ShardMap ⟨s.Database, s.RetentionPolicy⟩ = none)
    (hG : mc.ShardGroupsByTimeRange s.Database s.RetentionPolicy tmin tmax = .ok (g :: gs)) :
    (∀ g1 ∈ g :: gs, st1.a.ShardsTimeRage.Min ≤ g1.StartTime ∧
      g1.EndTime ≤ st1.a.ShardsTimeRage.Max) ∧
    (∃ g1 ∈ g :: gs, st1.a.ShardsTimeRage.Min = g1.StartTime) ∧
    (∃ g1 ∈ g :: gs, st1.a.ShardsTimeRage.Max = g1.EndTime) := by
  unfold mapMeasurement at h
  cases hdb : mc.Database s.Database with
  | error e => simp [hdb] at h
  | ok dbi =>
    simp [hdb, hMs, hNew, hG] at h
    subst h
    exact groupLoop_range_first mc s m0 condition opt g gs _

/-- Going through the sources and then through one more. -/
theorem mapShards_append (mc : MetaClient) (tmin tmax : Time) (condition : Option Expr)
    (opt : SelectOptions) (x : InfluxSource) :
    ∀ (pre : List InfluxSource) (st : MapState),
      mapShards mc tmin tmax condition opt (pre ++ [x]) st =
        match mapShards mc tmin tmax condition opt pre st with
        | .error err => .error err
        | .ok st1 => mapShardsSource mc tmin tmax condition opt x st1 := by
  intro pre
  induction pre with
  | nil =>
    intro st
    simp only [List.nil_append, mapShards]
    cases mapShardsSource mc tmin tmax condition opt x st <;> rfl
  | cons p rest ih =>
    intro st
    simp only [List.cons_append, mapShards]
    cases mapShardsSource mc tmin tmax condition opt p st with
    | error e => rfl
    | ok st2 => exact ih st2

/-- C35, refuted as stated: the first source resolves a group from 0 to 100 and
the second one a group from 200 to 300; both get their entry, and the range
left is that of the second source alone, which starts after the first group. -/
theorem MapShards_range_counterexample :
    (MapShards twoWindowMeta
        [InfluxSource.Measurement sampleMeasurement, InfluxSource.Measurement otherMeasurement]
        ⟨0, 300⟩ {} none).map (fun a => (a.ShardsTimeRage, a.ShardMap)) =
      .ok (⟨200, 300⟩, [(⟨"db0", "rp0"⟩, some [(0, [11])]), (⟨"db1", "rp0"⟩, some [(3, [21])])]) ∧
    twoWindowMeta.ShardGroupsByTimeRange "db0" "rp0" 0 300 = .ok [⟨1, 0, 100, [⟨11, [0, 1]⟩]⟩] :=
  ⟨rfl, rfl⟩

/-- C35, amended: `ShardsTimeRage` is set anew at the first shard group of every
source that is mapped.  When the last source is a measurement whose key no
earlier source has, and it matches a measurement and resolves shard groups,
then after a successful `MapShards` the range covers every group of that last
source, and its ends are the earliest start and the latest end among those
groups alone, whatever the earlier sources resolved. -/
theorem MapShards_range_of_last_source (mc : MetaClient) (pre : List InfluxSource)
    (s : Measurement) (t : TimeRange) (opt : SelectOptions) (condition : Option Expr)
    (a : ClusterShardMapping) (m0 : MeasurementInfo) (ms : List MeasurementInfo)
    (g : ShardGroupInfo) (gs : List ShardGroupInfo)
    (hOk : MapShards mc (pre ++ [InfluxSource.Measurement s]) t opt condition = .ok a)
    (hNew : ∀ m ∈ sourcesMeasurements pre, m.source ≠ s.source)
    (hMs : mc.GetMeasurements s = .ok (m0 :: ms))
    (hG : mc.ShardGroupsByTimeRange s.Database s.RetentionPolicy t.Min t.Max = .ok (g :: gs)) :
    (∀ g1 ∈ g :: gs, a.ShardsTimeRage.Min ≤ g1.StartTime ∧ g1.EndTime ≤ a.ShardsTimeRage.Max) ∧
    (∃ g1 ∈ g :: gs, a.ShardsTimeRage.Min = g1.StartTime) ∧
    (∃ g1 ∈ g :: gs, a.ShardsTimeRage.Max = g1.EndTime) := by
  unfold MapShards at hOk
  simp only [mapShards_append] at hOk
  cases hpre : mapShards mc t.Min t.Max condition opt pre { a := {} } with
  | error e => simp [hpre] at hOk
  | ok st =>
    simp only [hpre, mapShardsSource] at hOk
    cases hm : mapMeasurement mc t.Min t.Max condition opt s st with
    | error e => simp [hm] at hOk
    | ok st1 =>
      simp only [hm, Except.ok.injEq] at hOk
      subst hOk
      have hE := mapShards_extends mc t.Min t.Max condition opt pre _ st hpre
      have hnone : GoMap.get st.a.ShardMap ⟨s.Database, s.RetentionPolicy⟩ = none := by
        cases hget : GoMap.get st.a.ShardMap ⟨s.Database, s.RetentionPolicy⟩ with
        | none => rfl
        | some v =>
          rcases hE.2.1 _ v hget with h0 | ⟨s1, hs1, hk, _⟩
          · simp [GoMap.get] at h0
          · exact absurd hk (hNew s1 hs1)
      exact mapMeasurement_range mc t.Min t.Max condition opt s st st1 m0 ms g gs hm hMs hnone hG

/-- Witness of the amended C35: after the source of `db0` and then the source of
`db1`, the range is that of the group of `db1`. -/
theorem MapShards_range_of_last_source_witness :
    (okOr {} (MapShards twoWindowMeta
      ([InfluxSource.Measurement sampleMeasurement] ++ [InfluxSource.Measurement otherMeasurement])
      ⟨0, 300⟩ {} none)).ShardsTimeRage.Min ≤ 200 ∧
    300 ≤ (okOr {} (MapShards twoWindowMeta
      ([InfluxSource.Measurement sampleMeasurement] ++ [InfluxSource.Measurement otherMeasurement])
      ⟨0, 300⟩ {} none)).ShardsTimeRage.Max :=
  (MapShards_range_of_last_source twoWindowMeta [InfluxSource.Measurement sampleMeasurement]
    otherMeasurement ⟨0, 300⟩ {} none
    (okOr {} (MapShards twoWindowMeta
      ([InfluxSource.Measurement sampleMeasurement] ++ [InfluxSource.Measurement otherMeasurement])
      ⟨0, 300⟩ {} none))
    ⟨"mst"⟩ [] ⟨2, 200, 300, [⟨21, [2, 3]⟩]⟩ [] rfl (by decide) rfl rfl).1
    ⟨2, 200, 300, [⟨21, [2, 3]⟩]⟩ (List.mem_singleton.mpr rfl)

/-! ## The caller's map after `MapTypeBatch` -/

/-- The loop over the measurements leaves the keys of the map as they are. -/
theorem mapTypeLoop_keys (mc : MetaClient) (x : Externals) (fuel : Nat) (m : Measurement)
    (hOrder : ∀ i ks, (mc.RangeOrder i ks).Perm ks) :
    ∀ (ms : List MeasurementInfo) (i : Nat) (fields : List (String × DataType)),
      (mapTypeLoop mc x fuel m ms i fields).1.map Prod.fst = fields.map Prod.fst := by
  intro ms
  induction ms with
  | nil => intro i fields; simp [mapTypeLoop]
  | cons mi rest ih =>
    intro i fields
    unfold mapTypeLoop
    cases hs : getSchema mc x fuel m.Database m.RetentionPolicy mi.Name with
    | error f => rfl
    | ok sp =>
      have hsub : ∀ k1 ∈ mc.RangeOrder i (fields.map Prod.fst), k1 ∈ fields.map Prod.fst :=
        fun k1 h => (hOrder i _).mem_iff.mp h
      obtain ⟨hk, _⟩ := mapTypeKeys_result x mi.Name sp _ fields hsub
      cases hr : mapTypeKeys x mi.Name sp (mc.RangeOrder i (fields.map Prod.fst)) fields with
      | mk f1 e1 =>
        rw [hr] at hk
        simp only at hk
        cases e1 with
        | some err =>
          simp only [hr]
          exact hk
        | none =>
          simp only [hr]
          rw [ih (i + 1) f1, hk]

/-- When the loop over the measurements ends without an error, every schema call
succeeded and no measurement reports a requested column both as a field and as
a tag. -/
theorem mapTypeLoop_nil (mc : MetaClient) (x : Externals) (fuel : Nat) (m : Measurement)
    (hOrder : ∀ i ks, (mc.RangeOrder i ks).Perm ks) (keys : List String) :
    ∀ (ms : List MeasurementInfo) (i : Nat) (fields : List (String × DataType)),
      fields.map Prod.fst = keys →
      (mapTypeLoop mc x fuel m ms i fields).2 = none →
      ∀ mi ∈ ms, ∃ sp, getSchema mc x fuel m.Database m.RetentionPolicy mi.Name = .ok sp ∧
        ∀ k ∈ keys, sp.conflicts k = false := by
  intro ms
  induction ms with
  | nil => intro i fields _ _ mi hmi; simp at hmi
  | cons mi0 rest ih =>
    intro i fields hkeys hnil mi hmi
    unfold mapTypeLoop at hnil
    cases hs : getSchema mc x fuel m.Database m.RetentionPolicy mi0.Name with
    | error f => simp [hs] at hnil
    | ok sp =>
      have hsub : ∀ k1 ∈ mc.RangeOrder i (fields.map Prod.fst), k1 ∈ fields.map Prod.fst :=
        fun k1 h => (hOrder i _).mem_iff.mp h
      obtain ⟨hk, hres⟩ := mapTypeKeys_result x mi0.Name sp _ fields hsub
      cases hr : mapTypeKeys x mi0.Name sp (mc.RangeOrder i (fields.map Prod.fst)) fields with
      | mk f1 e1 =>
        rw [hr] at hk hres
        simp only at hk hres
        cases e1 with
        | some err => simp [hs, hr] at hnil
        | none =>
          simp only [hs, hr] at hnil
          rcases List.mem_cons.mp hmi with rfl | hmi
          · refine ⟨sp, hs, ?_⟩
            intro k hk1
            rcases hres with ⟨_, hno⟩ | ⟨k1, _, _, he⟩
            · exact hno k ((hOrder i _).mem_iff.mpr (hkeys ▸ hk1))
            · cases he
          · exact ih (i + 1) f1 (by rw [hk, hkeys]) hnil mi hmi

/-- C33, refuted as stated: `value` is a field of `m2` and unknown to `m1`.  With
`m2` visited before `m1` the call returns nil and `value` ends as `Unknown`;
with `m1` visited before `m2` it ends with the type of the field. -/
theorem MapTypeBatch_order_counterexample :
    MapTypeBatch { crossMeta with GetMeasurements := fun _ => .ok [⟨"m2"⟩, ⟨"m1"⟩] }
        sampleExternals 1 sampleMeasurement [("value", DataType.Float)]
      = ([("value", DataType.Unknown)], none) ∧
    MapTypeBatch crossMeta sampleExternals 1 sampleMeasurement [("value", DataType.Float)]
      = ([("value", DataType.Integer)], none) ∧
    crossMeta.Schema "db0" "rp0" "m2" 0 = .ok ⟨some [("value", 1)], some ["host"]⟩ := by
  refine ⟨rfl, rfl, rfl⟩

/-- C33, amended: after `MapTypeBatch` returns nil for a source matching the
measurements `pre` and then `last`, every requested name has the type that the
measurement visited last gives it: the type of its field there, `Tag` when it
is a tag there, and `Unknown` when `last` reports it neither as a field nor as
a tag, whatever the measurements before report. -/
theorem MapTypeBatch_nil_types (mc : MetaClient) (x : Externals) (fuel : Nat)
    (m : Measurement) (fields : List (String × DataType))
    (pre : List MeasurementInfo) (last : MeasurementInfo)
    (hOrder : ∀ i ks, (mc.RangeOrder i ks).Perm ks)
    (hMs : mc.GetMeasurements m = .ok (pre ++ [last]))
    (hNil : (MapTypeBatch mc x fuel m fields).2 = none) :
    ∃ sl, getSchema mc x fuel m.Database m.RetentionPolicy last.Name = .ok sl ∧
      ∀ k ∈ fields.map Prod.fst,
        GoMap.get (MapTypeBatch mc x fuel m fields).1 k = some (sl.typeOf x k) ∧
        (∀ t, GoMap.get (sl.metaFields.getD []) k = some t →
          GoMap.get (MapTypeBatch mc x fuel m fields).1 k = some (x.ToInfluxqlTypes t)) ∧
        (GoMap.get (sl.metaFields.getD []) k = none → k ∈ sl.metaDimensions.getD [] →
          GoMap.get (MapTypeBatch mc x fuel m fields).1 k = some DataType.Tag) ∧
        (GoMap.get (sl.metaFields.getD []) k = none → k ∉ sl.metaDimensions.getD [] →
          GoMap.get (MapTypeBatch mc x fuel m fields).1 k = some DataType.Unknown) := by
  have hB : MapTypeBatch mc x fuel m fields = mapTypeLoop mc x fuel m (pre ++ [last]) 0 fields := by
    simp [MapTypeBatch, hMs]
  rw [hB] at hNil ⊢
  have hall := mapTypeLoop_nil mc x fuel m hOrder (fields.map Prod.fst) (pre ++ [last]) 0 fields
    rfl hNil
  obtain ⟨sl, hsl, hplain⟩ := hall last (by simp)
  have hlast := mapTypeLoop_last mc x fuel m hOrder last sl (fields.map Prod.fst) hsl hplain
    pre 0 fields rfl (fun p hp => hall p (List.mem_append_left _ hp))
  refine ⟨sl, hsl, ?_⟩
  intro k hk
  have hk1 := hlast.2 k hk
  refine ⟨hk1, ?_, ?_, ?_⟩
  · intro t ht
    rw [hk1]
    simp [MetaSchema.typeOf, ht]
  · intro hf hd
    rw [hk1]
    simp [MetaSchema.typeOf, hf, hd]
  · intro hf hd
    rw [hk1]
    simp [MetaSchema.typeOf, hf, hd]

/-- Witness of the amended C33: with `m1` visited last, `value` ends as
`Unknown` although `m2` has it as a field. -/
theorem MapTypeBatch_nil_types_witness :
    ∃ sl, getSchema { crossMeta with GetMeasurements := fun _ => .ok [⟨"m2"⟩, ⟨"m1"⟩] }
        sampleExternals 1 sampleMeasurement.Database sampleMeasurement.RetentionPolicy "m1"
        = .ok sl ∧
      ∀ k ∈ [("value", DataType.Float)].map Prod.fst,
        GoMap.get (MapTypeBatch
            { crossMeta with GetMeasurements := fun _ => .ok [⟨"m2"⟩, ⟨"m1"⟩] }
            sampleExternals 1 sampleMeasurement [("value", DataType.Float)]).1 k
          = some (sl.typeOf sampleExternals k) :=
  (MapTypeBatch_nil_types { crossMeta with GetMeasurements := fun _ => .ok [⟨"m2"⟩, ⟨"m1"⟩] }
    sampleExternals 1 sampleMeasurement [("value", DataType.Float)] [⟨"m2"⟩] ⟨"m1"⟩
    (fun _ _ => List.Perm.refl _) rfl rfl).imp
    (fun _ h => ⟨h.1, fun k hk => (h.2 k hk).1⟩)

/-- C36, refuted as stated: the call fails and the caller's map has changed.  In
the first case the conflict on `host` is met after `usage` has been given its
type; in the second the schema call for `m2` fails after `host` has been given
the type it has in `m1`. -/
theorem MapTypeBatch_not_atomic_counterexample :
    (MapTypeBatch sampleMeta sampleExternals 1 cpuMeasurement
        [("usage", DataType.Unknown), ("host", DataType.Unknown)]).1
      = [("usage", DataType.Float), ("host", DataType.Unknown)] ∧
    (MapTypeBatch sampleMeta sampleExternals 1 cpuMeasurement
        [("usage", DataType.Unknown), ("host", DataType.Unknown)]).2
      = some (Fault.error "column (host) in measurement (cpu) in both fields and tags") ∧
    (MapTypeBatch halfMeta sampleExternals 1 sampleMeasurement [("host", DataType.Unknown)]).1
      = [("host", DataType.Integer)] ∧
    (MapTypeBatch halfMeta sampleExternals 1 sampleMeasurement
        [("host", DataType.Unknown)]).2.isSome = true := by
  refine ⟨rfl, rfl, rfl, rfl⟩

/-- Going through the measurements `pre` and then through `rest`. -/
theorem mapTypeLoop_append (mc : MetaClient) (x : Externals) (fuel : Nat) (m : Measurement)
    (rest : List MeasurementInfo) :
    ∀ (pre : List MeasurementInfo) (i : Nat) (fields f1 : List (String × DataType)),
      mapTypeLoop mc x fuel m pre i fields = (f1, none) →
      mapTypeLoop mc x fuel m (pre ++ rest) i fields =
        mapTypeLoop mc x fuel m rest (i + pre.length) f1 := by
  intro pre
  induction pre with
  | nil =>
    intro i fields f1 h
    simp only [mapTypeLoop, Prod.mk.injEq, and_true] at h
    subst h
    simp
  | cons p ps ih =>
    intro i fields f1 h
    unfold mapTypeLoop at h
    simp only [List.cons_append, List.length_cons]
    rw [mapTypeLoop]
    cases hs : getSchema mc x fuel m.Database m.RetentionPolicy p.Name with
    | error f => simp [hs] at h
    | ok sp =>
      simp only [hs] at h ⊢
      cases hr : mapTypeKeys x p.Name sp (mc.RangeOrder i (fields.map Prod.fst)) fields with
      | mk f2 e2 =>
        cases e2 with
        | some err => simp [hr] at h
        | none =>
          simp only [hr] at h ⊢
          rw [ih (i + 1) f2 f1 h]
          congr 1
          omega

/-- The key loop up to the first column that the measurement reports both as a
field and as a tag: the columns before it have been written, and the loop ends
there with the conflict error. -/
theorem mapTypeKeys_conflict_at (x : Externals) (mst : String) (ms : MetaSchema)
    (k : String) (after : List String) (hConf : ms.conflicts k = true) :
    ∀ (before : List String) (fields : List (String × DataType)),
      (∀ c ∈ before, ms.conflicts c = false) →
      mapTypeKeys x mst ms (before ++ k :: after) fields =
        ((mapTypeKeys x mst ms before fields).1, some (conflictError k mst)) := by
  intro before
  induction before with
  | nil =>
    intro fields _
    unfold MetaSchema.conflicts at hConf
    simp only [Bool.and_eq_true, decide_eq_true_eq] at hConf
    obtain ⟨t, ht⟩ := Option.isSome_iff_exists.mp hConf.1
    simp [mapTypeKeys, ht, hConf.2]
  | cons c rest ih =>
    intro fields hB
    simp only [List.cons_append]
    rw [mapTypeKeys_cons_plain x mst ms c _ fields (hB c (List.mem_cons_self _ _)),
      mapTypeKeys_cons_plain x mst ms c rest fields (hB c (List.mem_cons_self _ _))]
    exact ih _ (fun d hd => hB d (List.mem_cons_of_mem _ hd))

/-- C36, amended: whatever `MapTypeBatch` returns, the caller's map has the same
keys in the same places as before, so a failure adds and removes no entry.  The
types are not restored.  When the call fails at a measurement, after the
measurements `pre` have been gone through, the map is as `pre` left it if the
failure is that of the schema call; if the failure is a conflict, the columns
visited before the conflicting one have in addition the type that the failing
measurement gives them, and every other column is as `pre` left it.  So the map
is exactly as before when `GetMeasurements` fails, and when the failure is at
the first measurement and is that of its schema call or a conflict at the first
column visited. -/
theorem MapTypeBatch_failure_keeps_keys (mc : MetaClient) (x : Externals) (fuel : Nat)
    (m : Measurement) (fields : List (String × DataType))
    (hOrder : ∀ i ks, (mc.RangeOrder i ks).Perm ks) :
    (MapTypeBatch mc x fuel m fields).1.map Prod.fst = fields.map Prod.fst ∧
    (∀ err, mc.GetMeasurements m = .error err →
      MapTypeBatch mc x fuel m fields = (fields, some (Fault.error err))) ∧
    (∀ mi rest f, mc.GetMeasurements m = .ok (mi :: rest) →
      getSchema mc x fuel m.Database m.RetentionPolicy mi.Name = .error f →
      MapTypeBatch mc x fuel m fields = (fields, some f)) ∧
    (∀ mi rest sp k after, mc.GetMeasurements m = .ok (mi :: rest) →
      getSchema mc x fuel m.Database m.RetentionPolicy mi.Name = .ok sp →
      mc.RangeOrder 0 (fields.map Prod.fst) = k :: after → sp.conflicts k = true →
      MapTypeBatch mc x fuel m fields = (fields, some (Fault.error (conflictError k mi.Name)))) ∧
    (∀ pre mi post f1, mc.GetMeasurements m = .ok (pre ++ mi :: post) →
      mapTypeLoop mc x fuel m pre 0 fields = (f1, none) →
      (∀ f, getSchema mc x fuel m.Database m.RetentionPolicy mi.Name = .error f →
        MapTypeBatch mc x fuel m fields = (f1, some f)) ∧
      (∀ sp before k after,
        getSchema mc x fuel m.Database m.RetentionPolicy mi.Name = .ok sp →
        mc.RangeOrder pre.length (f1.map Prod.fst) = before ++ k :: after →
        (∀ c ∈ before, sp.conflicts c = false) → sp.conflicts k = true →
        MapTypeBatch mc x fuel m fields =
          ((mapTypeKeys x mi.Name sp before f1).1,
            some (Fault.error (conflictError k mi.Name))) ∧
        ∀ c, (c ∈ before →
              GoMap.get (MapTypeBatch mc x fuel m fields).1 c = some (sp.typeOf x c)) ∧
             (c ∉ before →
              GoMap.get (MapTypeBatch mc x fuel m fields).1 c = GoMap.get f1 c))) := by
  have hGen : ∀ pre mi post f1, mc.GetMeasurements m = .ok (pre ++ mi :: post) →
      mapTypeLoop mc x fuel m pre 0 fields = (f1, none) →
      (∀ f, getSchema mc x fuel m.Database m.RetentionPolicy mi.Name = .error f →
        MapTypeBatch mc x fuel m fields = (f1, some f)) ∧
      (∀ sp before k after,
        getSchema mc x fuel m.Database m.RetentionPolicy mi.Name = .ok sp →
        mc.RangeOrder pre.length (f1.map Prod.fst) = before ++ k :: after →
        (∀ c ∈ before, sp.conflicts c = false) → sp.conflicts k = true →
        MapTypeBatch mc x fuel m fields =
          ((mapTypeKeys x mi.Name sp before f1).1,
            some (Fault.error (conflictError k mi.Name))) ∧
        ∀ c, (c ∈ before →
              GoMap.get (MapTypeBatch mc x fuel m fields).1 c = some (sp.typeOf x c)) ∧
             (c ∉ before →
              GoMap.get (MapTypeBatch mc x fuel m fields).1 c = GoMap.get f1 c)) := by
    intro pre mi post f1 hms hpre
    have hB : MapTypeBatch mc x fuel m fields =
        mapTypeLoop mc x fuel m (mi :: post) (0 + pre.length) f1 := by
      simp only [MapTypeBatch, hms]
      exact mapTypeLoop_append mc x fuel m (mi :: post) pre 0 fields f1 hpre
    simp only [Nat.zero_add] at hB
    constructor
    · intro f hs
      rw [hB]
      simp [mapTypeLoop, hs]
    · intro sp before k after hs hord hplain hconf
      have hK := mapTypeKeys_conflict_at x mi.Name sp k after hconf before f1 hplain
      have hE : MapTypeBatch mc x fuel m fields =
          ((mapTypeKeys x mi.Name sp before f1).1,
            some (Fault.error (conflictError k mi.Name))) := by
        rw [hB]
        simp only [mapTypeLoop, hs, hord, hK]
      refine ⟨hE, ?_⟩
      intro c
      rw [hE]
      exact (mapTypeKeys_plain x mi.Name sp before f1 hplain).2 c
  refine ⟨?_, ?_, ?_, ?_, hGen⟩
  · unfold MapTypeBatch
    cases hms : mc.GetMeasurements m with
    | error err => rfl
    | ok ms => exact mapTypeLoop_keys mc x fuel m hOrder ms 0 fields
  · intro err hms
    simp [MapTypeBatch, hms]
  · intro mi rest f hms hs
    simp [MapTypeBatch, hms, mapTypeLoop, hs]
  · intro mi rest sp k after hms hs hord hconf
    have h := (hGen [] mi rest fields (by simpa using hms) rfl).2 sp [] k after hs
      (by simpa using hord) (by simp) hconf
    simpa [mapTypeKeys] using h.1

/-- Witness of the amended C36: in the sample the conflict on `host` is met
after `usage`; the map has the type of `usage` written and its two keys, and
`host` is as before. -/
theorem MapTypeBatch_failure_keeps_keys_witness :
    (MapTypeBatch sampleMeta sampleExternals 1 cpuMeasurement
        [("usage", DataType.Unknown), ("host", DataType.Unknown)]).1.map Prod.fst
      = [("usage", DataType.Unknown), ("host", DataType.Unknown)].map Prod.fst ∧
    MapTypeBatch sampleMeta sampleExternals 1 cpuMeasurement
        [("usage", DataType.Unknown), ("host", DataType.Unknown)]
      = ((mapTypeKeys sampleExternals "cpu"
            ⟨some [("usage", 3), ("host", 4)], some ["host", "region"]⟩ ["usage"]
            [("usage", DataType.Unknown), ("host", DataType.Unknown)]).1,
         some (Fault.error (conflictError "host" "cpu"))) ∧
    MapTypeBatch sampleMeta sampleExternals 1 cpuMeasurement [("host", DataType.Unknown)]
      = ([("host", DataType.Unknown)],
         some (Fault.error (conflictError "host" "cpu"))) :=
  ⟨(MapTypeBatch_failure_keeps_keys sampleMeta sampleExternals 1 cpuMeasurement
      [("usage", DataType.Unknown), ("host", DataType.Unknown)]
      (fun _ _ => List.Perm.refl _)).1,
   ((MapTypeBatch_failure_keeps_keys sampleMeta sampleExternals 1 cpuMeasurement
      [("usage", DataType.Unknown), ("host", DataType.Unknown)]
      (fun _ _ => List.Perm.refl _)).2.2.2.2 [] ⟨"cpu"⟩ []
      [("usage", DataType.Unknown), ("host", DataType.Unknown)] rfl rfl).2
      ⟨some [("usage", 3), ("host", 4)], some ["host", "region"]⟩ ["usage"] "host" []
      rfl rfl (by decide) (by decide) |>.1,
   (MapTypeBatch_failure_keeps_keys sampleMeta sampleExternals 1 cpuMeasurement
      [("host", DataType.Unknown)]
      (fun _ _ => List.Perm.refl _)).2.2.2.1 ⟨"cpu"⟩ []
      ⟨some [("usage", 3), ("host", 4)], some ["host", "region"]⟩ "host" []
      rfl rfl rfl (by decide)⟩

/-! ## The letter fold of `HideQueryPassword` -/

/-- The fold of `HideQueryPassword` reaches letters outside ASCII: the dotted
capital I folds to `i`, and the statement is recognised and redacted. -/
theorem HideQueryPassword_folds_unicode :
    unicodeToLower 'İ' = 'i' ∧ unicodeToLower 'Ä' = 'ä' ∧ unicodeToLower 'Ω' = 'ω' ∧
    unicodeToLower 'ß' = 'ß' ∧
    HideQueryPassword "CREATE USER u WİTH PASSWORD s3cret" =
      "create user u with password [REDACTED] " := by
  refine ⟨?_, ?_, ?_, ?_, ?_⟩ <;> decide

end OpenGemini
